import Mathlib

/-!
# C8EMU: a shallow embedding of `src/emulator.c`

The machine state `struct emulator` (emulator.h) becomes the structure `emulator`;
arrays are total maps from indices to values, machine integers are natural
numbers, and every C operation that can leave the range of its type carries an
explicit reduction (`u8`, `u16`).  `emulator_cycle` and `emulator_tick` are
translated statement by statement.

Conventions.
* `rand()` is an input of the step (the argument `rand_value`).
* `show_error_message`, `p` and `unknown_opcode` only print; they are left out.
* `assert(emulator->_sp < STACK_SIZE)` at the head of `emulator_cycle` is a
  precondition of the call, it is not part of the computed result; theorems
  whose claim assumes it carry it as a hypothesis.
* `emulator_tick` is the variant compiled with `TEST` defined (a failing cycle
  forces `_pc += 2`); without `TEST` the process exits on the first failure.
* `emulator_cycle_checked` is a second embedding of `emulator_cycle` in which the
  assertions and the bounds of every array access are tested: its result is
  `none` on a violation.
-/

namespace C8

/-! ## Constants of emulator.h -/

abbrev EMULATOR_WIDTH : Nat := 64
abbrev EMULATOR_HEIGHT : Nat := 32
abbrev MEMORY_START : Nat := 0x200
abbrev MEMORY_SIZE : Nat := 0x1000
abbrev STACK_SIZE : Nat := 12

/-- Conversion to `uint8_t`. -/
def u8 (a : Nat) : Nat := a % 256

/-- Conversion to `uint16_t`. -/
def u16 (a : Nat) : Nat := a % 65536

/-- Assignment `arr[i] = v` on an array seen as a map. -/
def store (arr : Nat → Nat) (i v : Nat) : Nat → Nat :=
  fun j => if j = i then v else arr j

/-- The record `struct emulator` of emulator.h, field by field. -/
structure emulator where
  cycles_per_frame : Nat
  screen : Nat → Nat
  draw_flag : Bool
  beep_flag : Bool
  keys : Nat
  _memory : Nat → Nat
  _stack : Nat → Nat
  _sp : Nat
  _v : Nat → Nat
  _i : Nat
  _pc : Nat
  _delay_timer : Nat
  _sound_timer : Nat

/-- Every field of the record holds a value of its C type: bytes below 256,
16-bit words below 65536. -/
structure well_typed (e : emulator) : Prop where
  cycles_per_frame : e.cycles_per_frame < 256
  screen : ∀ j, j < EMULATOR_WIDTH / 8 * EMULATOR_HEIGHT → e.screen j < 256
  keys : e.keys < 65536
  memory : ∀ j, j < MEMORY_SIZE → e._memory j < 256
  stack : ∀ j, j < STACK_SIZE → e._stack j < 65536
  sp : e._sp < 65536
  v : ∀ j, j < 16 → e._v j < 256
  i : e._i < 65536
  pc : e._pc < 65536
  delay_timer : e._delay_timer < 256
  sound_timer : e._sound_timer < 256

/-! ## emulator_cycle -/

/-- The instruction word: `_memory[_pc] << 8 | _memory[_pc + 1]`, as `uint16_t`. -/
def fetch (e : emulator) : Nat :=
  u16 ((e._memory e._pc <<< 8) ||| e._memory (e._pc + 1))

/-- Body of the inner loop of `Dxyn` for one column `col` of the sprite row
`sprite`, drawn on screen line `y`. -/
def draw_pixel (sprite x0 y col : Nat) (e : emulator) : emulator :=
  if sprite &&& (0x80 >>> col) = 0 then e
  else
    let x := (x0 + col) % EMULATOR_WIDTH
    let byte_index := u8 (y * (EMULATOR_WIDTH / 8) + x / 8)
    let bit_mask := 0x80 >>> (x % 8)
    let e1 := if e.screen byte_index &&& bit_mask ≠ 0
      then { e with _v := store e._v 0xF 1 } else e
    { e1 with screen := store e1.screen byte_index (e1.screen byte_index ^^^ bit_mask) }

/-- Inner loop of `Dxyn`: `for (col = 0; col < 8; col++)`. -/
def draw_cols (sprite x0 y : Nat) (e : emulator) : emulator :=
  (List.range 8).foldl (fun acc col => draw_pixel sprite x0 y col acc) e

/-- Body of the outer loop of `Dxyn` for one `row`, after its bounds test: the
sprite row is read at `_i + row` and drawn on screen line `(y0 + row) mod 32`. -/
def draw_row (x0 y0 : Nat) (e : emulator) (row : Nat) : emulator :=
  let sprite := e._memory (e._i + row)
  let y := (y0 + row) % EMULATOR_HEIGHT
  draw_cols sprite x0 y e

/-- Outer loop of `Dxyn` over the rows still to draw.  The first component is 1
when the loop left through `return 1` (sprite read out of bounds), 0 when it ran
to its end. -/
def draw_rows (x0 y0 : Nat) : List Nat → emulator → Nat × emulator
  | [], e => (0, e)
  | row :: rest, e =>
    if e._i + row ≥ MEMORY_SIZE then (1, e)
    else draw_rows x0 y0 rest (draw_row x0 y0 e row)

/-- Case `0xD000`: `Dxyn`, DRW Vx, Vy, nibble. -/
def op_draw (x y n : Nat) (e : emulator) : Nat × emulator :=
  let x0 := e._v x % EMULATOR_WIDTH
  let y0 := e._v y % EMULATOR_HEIGHT
  let height := n
  let e0 := { e with _v := store e._v 0xF 0 }
  let r := draw_rows x0 y0 (List.range height) e0
  if r.1 ≠ 0 then (1, r.2)
  else (0, { r.2 with draw_flag := true, _pc := u16 (r.2._pc + 2) })

/-- Key scan of `Fx0A`: the first `k` of the list with `keys & (1 << k)` set. -/
def scan_keys (keys : Nat) : List Nat → Option Nat
  | [] => none
  | k :: ks => if keys &&& (1 <<< k) ≠ 0 then some k else scan_keys keys ks

/-- Loop of `Fx55`: `_memory[_i + i] = _v[i]` for each `i` of the list. -/
def reg_dump (e : emulator) (is : List Nat) : emulator :=
  is.foldl (fun acc i => { acc with _memory := store acc._memory (acc._i + i) (acc._v i) }) e

/-- Loop of `Fx65`: `_v[i] = _memory[_i + i]` for each `i` of the list. -/
def reg_load (e : emulator) (is : List Nat) : emulator :=
  is.foldl (fun acc i => { acc with _v := store acc._v i (acc._memory (acc._i + i)) }) e

/-- Case `0x8000`: the register-to-register operations, selected by `n`.  The
flag is stored first and the operands of the result are read again after it.  A
difference `a - b` of two bytes converted to `uint8_t` is `(a + 256 - b) mod 256`. -/
def op_alu (x y n : Nat) (e : emulator) : Nat × emulator :=
  let next (e1 : emulator) : Nat × emulator := (0, { e1 with _pc := u16 (e1._pc + 2) })
  if n = 0x0 then next { e with _v := store e._v x (e._v y) }
  else if n = 0x1 then next { e with _v := store e._v x (e._v x ||| e._v y) }
  else if n = 0x2 then next { e with _v := store e._v x (e._v x &&& e._v y) }
  else if n = 0x3 then next { e with _v := store e._v x (e._v x ^^^ e._v y) }
  else if n = 0x4 then
    let sum := u8 (e._v x + e._v y)
    let e1 := if sum < e._v x then { e with _v := store e._v 0xF 1 }
      else { e with _v := store e._v 0xF 0 }
    next { e1 with _v := store e1._v x (u8 (e1._v x + e1._v y)) }
  else if n = 0x5 then
    let e1 := if e._v x > e._v y then { e with _v := store e._v 0xF 1 }
      else { e with _v := store e._v 0xF 0 }
    next { e1 with _v := store e1._v x (u8 (e1._v x + 256 - e1._v y)) }
  else if n = 0x6 then
    let e1 := { e with _v := store e._v 0xF (e._v x &&& 0x1) }
    next { e1 with _v := store e1._v x (e1._v x >>> 1) }
  else if n = 0x7 then
    let e1 := if e._v y > e._v x then { e with _v := store e._v 0xF 1 }
      else { e with _v := store e._v 0xF 0 }
    next { e1 with _v := store e1._v x (u8 (e1._v y + 256 - e1._v x)) }
  else if n = 0xE then
    let e1 := { e with _v := store e._v 0xF ((e._v x >>> 7) &&& 0x01) }
    next { e1 with _v := store e1._v x (u8 (e1._v x <<< 1)) }
  else (1, e)

/-- Case `0xE000`: the key skips, selected by `kk`. -/
def op_key (x kk : Nat) (e : emulator) : Nat × emulator :=
  if kk = 0x9E then
    if e._v x ≥ 16 then (1, e)
    else
      let e1 := if e.keys &&& (1 <<< e._v x) ≠ 0 then { e with _pc := u16 (e._pc + 2) } else e
      (0, { e1 with _pc := u16 (e1._pc + 2) })
  else if kk = 0xA1 then
    if e._v x ≥ 16 then (1, e)
    else
      let e1 := if ¬ (e.keys &&& (1 <<< e._v x) ≠ 0) then { e with _pc := u16 (e._pc + 2) } else e
      (0, { e1 with _pc := u16 (e1._pc + 2) })
  else (0, e)

/-- Case `0xF000`: timers, keys, index register and memory transfers, selected
by `kk`. -/
def op_misc (x kk : Nat) (e : emulator) : Nat × emulator :=
  if kk = 0x07 then (0, { e with _v := store e._v x e._delay_timer, _pc := u16 (e._pc + 2) })
  else if kk = 0x0A then
    match scan_keys e.keys (List.range 16) with
    | some k => (0, { e with _v := store e._v x k, _pc := u16 (e._pc + 2) })
    | none => (0, e)
  else if kk = 0x15 then (0, { e with _delay_timer := e._v x, _pc := u16 (e._pc + 2) })
  else if kk = 0x18 then (0, { e with _sound_timer := e._v x, _pc := u16 (e._pc + 2) })
  else if kk = 0x1E then (0, { e with _i := u16 (e._i + e._v x), _pc := u16 (e._pc + 2) })
  else if kk = 0x29 then
    if e._v x ≥ 16 then (1, e)
    else (0, { e with _i := u16 (e._v x * 5), _pc := u16 (e._pc + 2) })
  else if kk = 0x33 then
    if e._i + 2 ≥ MEMORY_SIZE then (1, e)
    else
      let e1 := { e with _memory := store e._memory e._i (e._v x / 100) }
      let e2 := { e1 with _memory := store e1._memory (e1._i + 1) ((e1._v x / 10) % 10) }
      let e3 := { e2 with _memory := store e2._memory (e2._i + 2) (e2._v x % 10) }
      (0, { e3 with _pc := u16 (e3._pc + 2) })
  else if kk = 0x55 then
    if e._i + x ≥ MEMORY_SIZE then (1, e)
    else
      let e1 := reg_dump e (List.range (x + 1))
      (0, { e1 with _pc := u16 (e1._pc + 2) })
  else if kk = 0x65 then
    if e._i + x ≥ MEMORY_SIZE then (1, e)
    else
      let e1 := reg_load e (List.range (x + 1))
      (0, { e1 with _pc := u16 (e1._pc + 2) })
  else (1, e)

/-- Case `0x0000`: CLS, RET, and the ignored rest, selected by `kk`. -/
def op_sys (kk : Nat) (e : emulator) : Nat × emulator :=
  if kk = 0xE0 then
    (0, { e with screen := fun _ => 0, draw_flag := true, _pc := u16 (e._pc + 2) })
  else if kk = 0xEE then
    if e._sp ≤ 0 then (1, e)
    else
      let e1 := { e with _sp := e._sp - 1 }
      (0, { e1 with _pc := e1._stack e1._sp })
  else (0, e)

/-- Case `0x2000`: `2nnn`, CALL addr. -/
def op_call (nnn : Nat) (e : emulator) : Nat × emulator :=
  if e._sp + 1 ≥ STACK_SIZE then (1, e)
  else
    let e1 := { e with _stack := store e._stack e._sp (u16 (e._pc + 2)) }
    let e2 := { e1 with _sp := u16 (e1._sp + 1) }
    (0, { e2 with _pc := nnn })

/-- The skip instructions: `if (c) _pc += 2;` followed by `_pc += 2`. -/
def op_skip (c : Bool) (e : emulator) : Nat × emulator :=
  let e1 := if c then { e with _pc := u16 (e._pc + 2) } else e
  (0, { e1 with _pc := u16 (e1._pc + 2) })

/-- The `switch (opcode & 0xF000)` of `emulator_cycle`; `sel` is `opcode & 0xF000`
and `x`, `y`, `n`, `kk`, `nnn` are the decoded fields. -/
def dispatch (rand_value sel x y n kk nnn : Nat) (e : emulator) : Nat × emulator :=
  if sel = 0x0000 then op_sys kk e
  else if sel = 0x1000 then (0, { e with _pc := nnn })
  else if sel = 0x2000 then op_call nnn e
  else if sel = 0x3000 then op_skip (e._v x == kk) e
  else if sel = 0x4000 then op_skip (e._v x != kk) e
  else if sel = 0x5000 then
    if n ≠ 0 then (1, e) else op_skip (e._v x == e._v y) e
  else if sel = 0x6000 then (0, { e with _v := store e._v x kk, _pc := u16 (e._pc + 2) })
  else if sel = 0x7000 then
    (0, { e with _v := store e._v x (u8 (e._v x + kk)), _pc := u16 (e._pc + 2) })
  else if sel = 0x8000 then op_alu x y n e
  else if sel = 0x9000 then
    if n ≠ 0 then (1, e) else op_skip (e._v x != e._v y) e
  else if sel = 0xA000 then (0, { e with _i := nnn, _pc := u16 (e._pc + 2) })
  else if sel = 0xB000 then (0, { e with _pc := u16 (nnn + e._v 0) })
  else if sel = 0xC000 then
    (0, { e with _v := store e._v x ((rand_value % 256) &&& kk), _pc := u16 (e._pc + 2) })
  else if sel = 0xD000 then op_draw x y n e
  else if sel = 0xE000 then op_key x kk e
  else if sel = 0xF000 then op_misc x kk e
  else (1, e)

/-- Decoding of the fields `x`, `y`, `n`, `kk`, `nnn` of the instruction word,
then the dispatch on `opcode & 0xF000`. -/
def execute (rand_value opcode : Nat) (e : emulator) : Nat × emulator :=
  dispatch rand_value (opcode &&& 0xF000) ((opcode >>> 8) &&& 0x000F)
    ((opcode >>> 4) &&& 0x000F) (opcode &&& 0x000F) (opcode &&& 0x00FF) (opcode &&& 0x0FFF) e

/-- The function `emulator_cycle`: the returned `int` and the state it leaves
in `*emulator`.  `rand_value` is what `rand()` returns if the instruction calls
it. -/
def emulator_cycle (rand_value : Nat) (e : emulator) : Nat × emulator :=
  if e._pc ≥ MEMORY_SIZE - 1 then (1, e)
  else execute rand_value (fetch e) e

/-! ## emulator_tick -/

/-- One iteration of the loop of `emulator_tick`, compiled with `TEST`: a
failing cycle forces `_pc += 2`. -/
def tick_step (rand_value : Nat) (e : emulator) : emulator :=
  let r := emulator_cycle rand_value e
  if r.1 ≠ 0 then { r.2 with _pc := u16 (r.2._pc + 2) } else r.2

/-- The state after `count` iterations of the loop of `emulator_tick`, the
iteration numbered `i` being the next one; `rand_values j` is what `rand()`
returns in iteration `j`. -/
def run_cycles (rand_values : Nat → Nat) : Nat → Nat → emulator → emulator
  | 0, _, e => e
  | count + 1, i, e => run_cycles rand_values count (i + 1) (tick_step (rand_values i) e)

/-- The loop `for (i = 0; i < cycles_per_frame; i++)` of `emulator_tick`.  The
bound is read once: no instruction writes `cycles_per_frame`
(`cycle_timers`). -/
def frame_cycles (rand_values : Nat → Nat) (e : emulator) : emulator :=
  run_cycles rand_values e.cycles_per_frame 0 e

/-- The function `emulator_tick` (with `TEST` defined). -/
def emulator_tick (rand_values : Nat → Nat) (e : emulator) : emulator :=
  let e0 := { e with draw_flag := false }
  let e1 := frame_cycles rand_values e0
  let e2 := if e1._delay_timer > 0 then { e1 with _delay_timer := e1._delay_timer - 1 } else e1
  if e2._sound_timer > 0 then { e2 with _sound_timer := e2._sound_timer - 1 } else e2

/-! ## States used by the tests -/

/-- The state built by `setUp` of test.c: everything zero, `_pc = 0x200`,
`cycles_per_frame = 16`. -/
def test_state : emulator :=
  { cycles_per_frame := 16, screen := fun _ => 0, draw_flag := false, beep_flag := false,
    keys := 0, _memory := fun _ => 0, _stack := fun _ => 0, _sp := 0, _v := fun _ => 0,
    _i := 0, _pc := MEMORY_START, _delay_timer := 0, _sound_timer := 0 }

/-- The helper `load_opcode` of test.c: the two bytes of `opcode` at `_pc`. -/
def load_opcode (opcode : Nat) (e : emulator) : emulator :=
  let e1 := { e with _memory := store e._memory e._pc ((opcode >>> 8) &&& 0xFF) }
  { e1 with _memory := store e1._memory (e1._pc + 1) (opcode &&& 0xFF) }


/-- The program of `test_opcode_2nnn_and_00EE_call_return`: `2300` at `0x200` and
`00EE` at `0x300`. -/
def call_return_state : emulator :=
  { test_state with
    _memory := store (store (store (store test_state._memory 0x200 0x23) 0x201 0x00)
      0x300 0x00) 0x301 0xEE }

/-- A state of the tests with `V0 = a`, `V1 = b`, `VF = f` and `opcode` at `_pc`. -/
def alu_state (opcode a b f : Nat) : emulator :=
  load_opcode opcode
    { test_state with _v := store (store (store test_state._v 0 a) 1 b) 0xF f }

/-- The state of `test_opcode_Fx55_register_dump`: `_i = 0x500`, `V0..V2 = AA BB CC`,
`F255` at `_pc`. -/
def dump_state : emulator :=
  load_opcode 0xF255
    { test_state with
      _i := 0x500, _v := store (store (store test_state._v 0 0xAA) 1 0xBB) 2 0xCC }

/-- A state reached after the dump: registers cleared, `F265` at the next `_pc`. -/
def load_state : emulator :=
  load_opcode 0xF265 { (emulator_cycle 0 dump_state).2 with _v := fun _ => 0 }

/-- The state of `test_fx55_reg_dump_out_of_bounds`: `_i = MEMORY_SIZE - 3`, `F555`
at `_pc`. -/
def dump_oob_state : emulator :=
  load_opcode 0xF555 { test_state with _i := MEMORY_SIZE - 3 }

/-- The state of `test_opcode_dxyn_draw_sets_collision`: `screen[0] = 0x80`,
`_i = 0x400`, `_memory[0x400] = 0x80`, `D011` at `_pc`. -/
def draw_state : emulator :=
  load_opcode 0xD011
    { test_state with
      screen := store test_state.screen 0 0x80, _i := 0x400,
      _memory := store test_state._memory 0x400 0x80 }

/-! ## Notions used in the statements -/

/-- Pixel `(px, py)` of a framebuffer: bit `7 - px mod 8` of byte `py * 8 + px / 8`. -/
def pixel (screen : Nat → Nat) (px py : Nat) : Bool :=
  (screen (py * 8 + px / 8)).testBit (7 - px % 8)


/-- The value `s(px, py)` of the sprite of height `n` read at `_i` and drawn from
`(x0, y0)`: with `r = (py - y0) mod 32` and `c = (px - x0) mod 64`, it is set when
`r < n`, `c < 8` and bit `7 - c` of `_memory[_i + r]` is set. -/
def sprite_bit (e : emulator) (x0 y0 n px py : Nat) : Bool :=
  decide ((py + 32 - y0) % 32 < n) && decide ((px + 64 - x0) % 64 < 8) &&
    (e._memory (e._i + (py + 32 - y0) % 32)).testBit (7 - (px + 64 - x0) % 64)

/-- Some pixel of the screen was lit and is lit by the sprite. -/
def collision (e : emulator) (x0 y0 n : Nat) : Prop :=
  ∃ px, px < 64 ∧ ∃ py, py < 32 ∧
    pixel e.screen px py = true ∧ sprite_bit e x0 y0 n px py = true

instance (e : emulator) (x0 y0 n : Nat) : Decidable (collision e x0 y0 n) := by
  unfold collision
  infer_instance

/-- Bit of the sprite row `sprite`, drawn from column `x0`, that lands on screen
column `px`, among the first `k` columns of the row. -/
def row_bit (sprite x0 k px : Nat) : Bool :=
  decide ((px + 64 - x0) % 64 < k) && sprite.testBit (7 - (px + 64 - x0) % 64)

/-- The first `k` columns of a sprite row lit a pixel of line `y` that was lit. -/
def row_collision (screen : Nat → Nat) (sprite x0 y k : Nat) : Prop :=
  ∃ px, px < 64 ∧ row_bit sprite x0 k px = true ∧ pixel screen px y = true

instance (screen : Nat → Nat) (sprite x0 y k : Nat) :
    Decidable (row_collision screen sprite x0 y k) := by
  unfold row_collision
  infer_instance

/-- The instruction `Fx15` (LD DT, Vx) is the one executed in state `e`. -/
def executes_Fx15 (e : emulator) : Prop :=
  e._pc < MEMORY_SIZE - 1 ∧ fetch e &&& 0xF000 = 0xF000 ∧ fetch e &&& 0x00FF = 0x15

instance (e : emulator) : Decidable (executes_Fx15 e) := by
  unfold executes_Fx15
  infer_instance

/-- The instruction `Fx18` (LD ST, Vx) is the one executed in state `e`. -/
def executes_Fx18 (e : emulator) : Prop :=
  e._pc < MEMORY_SIZE - 1 ∧ fetch e &&& 0xF000 = 0xF000 ∧ fetch e &&& 0x00FF = 0x18

instance (e : emulator) : Decidable (executes_Fx18 e) := by
  unfold executes_Fx18
  infer_instance

/-- What an instruction leaves alone: the delay timer when `keep_delay`, the sound
timer when `keep_sound`, and `cycles_per_frame`. -/
def timers_kept (e : emulator) (keep_delay keep_sound : Prop) (r : Nat × emulator) : Prop :=
  (keep_delay → r.2._delay_timer = e._delay_timer) ∧
  (keep_sound → r.2._sound_timer = e._sound_timer) ∧
  r.2.cycles_per_frame = e.cycles_per_frame

/-- The program of `test_chained_skips`: `V0 = V1 = 1`, `3001` at `0x200`, `3101` at
`0x202`, `62FF` at `0x204`. -/
def chained_skips_state : emulator :=
  { test_state with
    _v := store (store test_state._v 0 1) 1 1,
    _memory := store (store (store (store (store (store test_state._memory
      0x200 0x30) 0x201 0x01) 0x202 0x31) 0x203 0x01) 0x204 0x62) 0x205 0xFF }

/-- A state of the tests with `V1 = a`, the key mask `keys` and `opcode` at `_pc`. -/
def key_state (opcode a keys : Nat) : emulator :=
  load_opcode opcode { test_state with _v := store test_state._v 1 a, keys := keys }

/-- The state of `test_opcode_Fx33_BCD`: `V0 = 159`, `_i = 0x400`, `F033` at `_pc`. -/
def bcd_state : emulator :=
  load_opcode 0xF033 { test_state with _i := 0x400, _v := store test_state._v 0 159 }

/-- The state of `test_fx33_bcd_out_of_bounds`: `_i = MEMORY_SIZE - 1`, `V0 = 123`,
`F033` at `_pc`. -/
def bcd_oob_state : emulator :=
  load_opcode 0xF033 { test_state with _i := MEMORY_SIZE - 1, _v := store test_state._v 0 123 }

/-- The state of `test_sprite_draw_out_of_bounds_memory`, with lit sprite rows:
`_i = MEMORY_SIZE - 2`, `_memory[4094] = _memory[4095] = 0xFF`, `D015` at `_pc`. -/
def draw_oob_state : emulator :=
  load_opcode 0xD015
    { test_state with
      _i := MEMORY_SIZE - 2,
      _memory := store (store test_state._memory 4094 0xFF) 4095 0xFF }

/-- The stack pointer stays within `0..11` and the last stack slot is not written. -/
def stack_kept (e : emulator) (r : Nat × emulator) : Prop :=
  r.2._sp ≤ 11 ∧ r.2._stack 11 = e._stack 11

/-- The result is a success, or the failure `1` with the state as it was. -/
def fails_clean (e : emulator) (r : Nat × emulator) : Prop :=
  r.1 = 0 ∨ r = (1, e)

/-- What an instruction leaves alone among the frame flags: `beep_flag` always, and
`draw_flag` when `keep_draw`. -/
def flags_kept (e : emulator) (keep_draw : Prop) (r : Nat × emulator) : Prop :=
  r.2.beep_flag = e.beep_flag ∧ (keep_draw → r.2.draw_flag = e.draw_flag)

/-- The instruction executed in state `e` is one that writes the framebuffer:
`00E0` (as decoded, low byte `E0` in the `0x0000` group) or `Dxyn`. -/
def executes_screen_write (e : emulator) : Prop :=
  e._pc < MEMORY_SIZE - 1 ∧
    ((fetch e &&& 0xF000 = 0x0000 ∧ fetch e &&& 0x00FF = 0xE0) ∨ fetch e &&& 0xF000 = 0xD000)

instance (e : emulator) : Decidable (executes_screen_write e) := by
  unfold executes_screen_write
  infer_instance

/-- A lit framebuffer byte and the word `01E0` at `_pc`. -/
def cls_alias_state : emulator :=
  load_opcode 0x01E0 { test_state with screen := store test_state.screen 0 0x80 }

/-- One return address `0x300` on the stack and the word `0FEE` at `_pc`. -/
def ret_alias_state : emulator :=
  load_opcode 0x0FEE { test_state with _sp := 1, _stack := store test_state._stack 0 0x300 }

/-- Where a successful instruction leaves `_pc` (the result `r` is a failure, or):
at `nnn` after `1nnn` and `2nnn`, at `nnn + V0` after `Bnnn`, at the popped address
after `00EE` (low byte `EE` in the `0x0000` group), and at `_pc`, `_pc + 2` or
`_pc + 4` after any other one. -/
def pc_after (e : emulator) (sel kk nnn : Nat) (r : Nat × emulator) : Prop :=
  r.1 ≠ 0 ∨
    (if sel = 0x1000 ∨ sel = 0x2000 then r.2._pc = nnn
    else if sel = 0xB000 then r.2._pc = u16 (nnn + e._v 0)
    else if sel = 0x0000 ∧ kk = 0xEE then r.2._pc = e._stack (e._sp - 1)
    else r.2._pc = e._pc ∨ r.2._pc = u16 (e._pc + 2) ∨ r.2._pc = u16 (u16 (e._pc + 2) + 2))

/-- The word `6155` in the last two bytes of memory, `_pc = 4094`. -/
def pc_end_state : emulator :=
  load_opcode 0x6155 { test_state with _pc := 4094 }

/-- The word `3000` (a skip that is taken, `V0 = 0`) in the last two bytes of
memory, `_pc = 4094`. -/
def pc_end_skip_state : emulator :=
  load_opcode 0x3000 { test_state with _pc := 4094 }

/-- The word `BFFF` at `_pc = 0x200`, with `V0 = 0xFF`. -/
def pc_indirect_state : emulator :=
  load_opcode 0xBFFF { test_state with _v := store test_state._v 0 0xFF }

/-- The word `D011` at `0x200` and again at `0x202`, on the state of the drawing
test: `screen[0] = 0x80`, `_i = 0x400`, `_memory[0x400] = 0x80`. -/
def draw_twice_state : emulator :=
  { load_opcode 0xD011 { draw_state with _pc := 0x202 } with _pc := 0x200 }

/-! ## emulator_cycle with checked array accesses

A second embedding of `emulator_cycle`, statement by statement the same as the one
above, in which every indexed access `arr[i]` tests `i` against the length of the
array and every `assert` tests its condition: the result is `none` as soon as one
index is out of range or one assertion fails. -/

/-- Length of `screen`: `EMULATOR_WIDTH/8 * EMULATOR_HEIGHT`. -/
abbrev SCREEN_SIZE : Nat := EMULATOR_WIDTH / 8 * EMULATOR_HEIGHT

/-- Length of `_v`. -/
abbrev V_SIZE : Nat := 16

/-- Checked read `arr[i]` of an array of `size` elements. -/
def read (size : Nat) (arr : Nat → Nat) (i : Nat) : Option Nat :=
  if i < size then some (arr i) else none

/-- Checked assignment `arr[i] = v` on an array of `size` elements. -/
def write (size : Nat) (arr : Nat → Nat) (i v : Nat) : Option (Nat → Nat) :=
  if i < size then some (store arr i v) else none

/-- The statement `assert(c)`. -/
def assert (c : Prop) [Decidable c] : Option Unit :=
  if c then some () else none

/-- Checked read `_v[i]`. -/
def reg (e : emulator) (i : Nat) : Option Nat :=
  read V_SIZE e._v i

/-- Checked assignment `_v[i] = v`. -/
def set_reg (e : emulator) (i v : Nat) : Option emulator := do
  let w ← write V_SIZE e._v i v
  pure { e with _v := w }

/-- Checked read `_memory[i]`. -/
def mem (e : emulator) (i : Nat) : Option Nat :=
  read MEMORY_SIZE e._memory i

/-- Checked assignment `_memory[i] = v`. -/
def set_mem (e : emulator) (i v : Nat) : Option emulator := do
  let w ← write MEMORY_SIZE e._memory i v
  pure { e with _memory := w }

/-- The instruction word, both bytes read with a check. -/
def fetch_checked (e : emulator) : Option Nat := do
  let hi ← mem e e._pc
  let lo ← mem e (e._pc + 1)
  pure (u16 ((hi <<< 8) ||| lo))

/-- Body of the inner loop of `Dxyn`, with checked accesses. -/
def draw_pixel_checked (sprite x0 y col : Nat) (e : emulator) : Option emulator :=
  if sprite &&& (0x80 >>> col) = 0 then some e
  else do
    let x := (x0 + col) % EMULATOR_WIDTH
    let byte_index := u8 (y * (EMULATOR_WIDTH / 8) + x / 8)
    let bit_mask := 0x80 >>> (x % 8)
    let old ← read SCREEN_SIZE e.screen byte_index
    let e1 ← if old &&& bit_mask ≠ 0 then set_reg e 0xF 1 else pure e
    let old1 ← read SCREEN_SIZE e1.screen byte_index
    let w ← write SCREEN_SIZE e1.screen byte_index (old1 ^^^ bit_mask)
    pure { e1 with screen := w }

/-- Inner loop of `Dxyn`, with checked accesses. -/
def draw_cols_checked (sprite x0 y : Nat) (e : emulator) : Option emulator :=
  (List.range 8).foldlM (fun acc col => draw_pixel_checked sprite x0 y col acc) e

/-- Body of the outer loop of `Dxyn` after its bounds test, with checked accesses. -/
def draw_row_checked (x0 y0 : Nat) (e : emulator) (row : Nat) : Option emulator := do
  let sprite ← mem e (e._i + row)
  let y := (y0 + row) % EMULATOR_HEIGHT
  draw_cols_checked sprite x0 y e

/-- Outer loop of `Dxyn`, with checked accesses. -/
def draw_rows_checked (x0 y0 : Nat) : List Nat → emulator → Option (Nat × emulator)
  | [], e => some (0, e)
  | row :: rest, e =>
    if e._i + row ≥ MEMORY_SIZE then some (1, e)
    else do
      let e1 ← draw_row_checked x0 y0 e row
      draw_rows_checked x0 y0 rest e1

/-- Case `0xD000`, with checked accesses. -/
def op_draw_checked (x y n : Nat) (e : emulator) : Option (Nat × emulator) := do
  let vx ← reg e x
  let vy ← reg e y
  let x0 := vx % EMULATOR_WIDTH
  let y0 := vy % EMULATOR_HEIGHT
  let height := n
  let e0 ← set_reg e 0xF 0
  let r ← draw_rows_checked x0 y0 (List.range height) e0
  if r.1 ≠ 0 then pure (1, r.2)
  else pure (0, { r.2 with draw_flag := true, _pc := u16 (r.2._pc + 2) })

/-- Loop of `Fx55`, with checked accesses. -/
def reg_dump_checked (e : emulator) (is : List Nat) : Option emulator :=
  is.foldlM (fun acc i => do
    let vi ← reg acc i
    set_mem acc (acc._i + i) vi) e

/-- Loop of `Fx65`, with checked accesses. -/
def reg_load_checked (e : emulator) (is : List Nat) : Option emulator :=
  is.foldlM (fun acc i => do
    let b ← mem acc (acc._i + i)
    set_reg acc i b) e

/-- Case `0x8000`, with checked accesses. -/
def op_alu_checked (x y n : Nat) (e : emulator) : Option (Nat × emulator) :=
  let next (e1 : emulator) : Nat × emulator := (0, { e1 with _pc := u16 (e1._pc + 2) })
  if n = 0x0 then do
    let vy ← reg e y
    let e1 ← set_reg e x vy
    pure (next e1)
  else if n = 0x1 then do
    let vx ← reg e x
    let vy ← reg e y
    let e1 ← set_reg e x (vx ||| vy)
    pure (next e1)
  else if n = 0x2 then do
    let vx ← reg e x
    let vy ← reg e y
    let e1 ← set_reg e x (vx &&& vy)
    pure (next e1)
  else if n = 0x3 then do
    let vx ← reg e x
    let vy ← reg e y
    let e1 ← set_reg e x (vx ^^^ vy)
    pure (next e1)
  else if n = 0x4 then do
    let vx ← reg e x
    let vy ← reg e y
    let sum := u8 (vx + vy)
    let vx1 ← reg e x
    let e1 ← if sum < vx1 then set_reg e 0xF 1 else set_reg e 0xF 0
    let vx2 ← reg e1 x
    let vy2 ← reg e1 y
    let e2 ← set_reg e1 x (u8 (vx2 + vy2))
    pure (next e2)
  else if n = 0x5 then do
    let vx ← reg e x
    let vy ← reg e y
    let e1 ← if vx > vy then set_reg e 0xF 1 else set_reg e 0xF 0
    let vx2 ← reg e1 x
    let vy2 ← reg e1 y
    let e2 ← set_reg e1 x (u8 (vx2 + 256 - vy2))
    pure (next e2)
  else if n = 0x6 then do
    let vx ← reg e x
    let e1 ← set_reg e 0xF (vx &&& 0x1)
    let vx2 ← reg e1 x
    let e2 ← set_reg e1 x (vx2 >>> 1)
    pure (next e2)
  else if n = 0x7 then do
    let vy ← reg e y
    let vx ← reg e x
    let e1 ← if vy > vx then set_reg e 0xF 1 else set_reg e 0xF 0
    let vy2 ← reg e1 y
    let vx2 ← reg e1 x
    let e2 ← set_reg e1 x (u8 (vy2 + 256 - vx2))
    pure (next e2)
  else if n = 0xE then do
    let vx ← reg e x
    let e1 ← set_reg e 0xF ((vx >>> 7) &&& 0x01)
    let vx2 ← reg e1 x
    let e2 ← set_reg e1 x (u8 (vx2 <<< 1))
    pure (next e2)
  else pure (1, e)

/-- Case `0xE000`, with checked accesses. -/
def op_key_checked (x kk : Nat) (e : emulator) : Option (Nat × emulator) :=
  if kk = 0x9E then do
    let vx ← reg e x
    if vx ≥ 16 then pure (1, e)
    else do
      let vx1 ← reg e x
      let e1 := if e.keys &&& (1 <<< vx1) ≠ 0 then { e with _pc := u16 (e._pc + 2) } else e
      pure (0, { e1 with _pc := u16 (e1._pc + 2) })
  else if kk = 0xA1 then do
    let vx ← reg e x
    if vx ≥ 16 then pure (1, e)
    else do
      let vx1 ← reg e x
      let e1 := if ¬ (e.keys &&& (1 <<< vx1) ≠ 0) then { e with _pc := u16 (e._pc + 2) } else e
      pure (0, { e1 with _pc := u16 (e1._pc + 2) })
  else pure (0, e)

/-- Case `0xF000`, with checked accesses. -/
def op_misc_checked (x kk : Nat) (e : emulator) : Option (Nat × emulator) :=
  if kk = 0x07 then do
    let e1 ← set_reg e x e._delay_timer
    pure (0, { e1 with _pc := u16 (e1._pc + 2) })
  else if kk = 0x0A then
    match scan_keys e.keys (List.range 16) with
    | some k => do
      let e1 ← set_reg e x k
      pure (0, { e1 with _pc := u16 (e1._pc + 2) })
    | none => pure (0, e)
  else if kk = 0x15 then do
    let vx ← reg e x
    pure (0, { e with _delay_timer := vx, _pc := u16 (e._pc + 2) })
  else if kk = 0x18 then do
    let vx ← reg e x
    pure (0, { e with _sound_timer := vx, _pc := u16 (e._pc + 2) })
  else if kk = 0x1E then do
    let vx ← reg e x
    pure (0, { e with _i := u16 (e._i + vx), _pc := u16 (e._pc + 2) })
  else if kk = 0x29 then do
    let vx ← reg e x
    if vx ≥ 16 then pure (1, e)
    else do
      let vx1 ← reg e x
      pure (0, { e with _i := u16 (vx1 * 5), _pc := u16 (e._pc + 2) })
  else if kk = 0x33 then
    if e._i + 2 ≥ MEMORY_SIZE then pure (1, e)
    else do
      let vx ← reg e x
      let e1 ← set_mem e e._i (vx / 100)
      let vx1 ← reg e1 x
      let e2 ← set_mem e1 (e1._i + 1) ((vx1 / 10) % 10)
      let vx2 ← reg e2 x
      let e3 ← set_mem e2 (e2._i + 2) (vx2 % 10)
      pure (0, { e3 with _pc := u16 (e3._pc + 2) })
  else if kk = 0x55 then
    if e._i + x ≥ MEMORY_SIZE then pure (1, e)
    else do
      let e1 ← reg_dump_checked e (List.range (x + 1))
      pure (0, { e1 with _pc := u16 (e1._pc + 2) })
  else if kk = 0x65 then
    if e._i + x ≥ MEMORY_SIZE then pure (1, e)
    else do
      let e1 ← reg_load_checked e (List.range (x + 1))
      pure (0, { e1 with _pc := u16 (e1._pc + 2) })
  else pure (1, e)

/-- Case `0x0000`, with checked accesses. -/
def op_sys_checked (kk : Nat) (e : emulator) : Option (Nat × emulator) :=
  if kk = 0xE0 then
    pure (0, { e with screen := fun _ => 0, draw_flag := true, _pc := u16 (e._pc + 2) })
  else if kk = 0xEE then
    if e._sp ≤ 0 then pure (1, e)
    else do
      let e1 := { e with _sp := e._sp - 1 }
      let ret ← read STACK_SIZE e1._stack e1._sp
      pure (0, { e1 with _pc := ret })
  else pure (0, e)

/-- Case `0x2000`, with checked accesses. -/
def op_call_checked (nnn : Nat) (e : emulator) : Option (Nat × emulator) :=
  if e._sp + 1 ≥ STACK_SIZE then pure (1, e)
  else do
    let w ← write STACK_SIZE e._stack e._sp (u16 (e._pc + 2))
    let e1 := { e with _stack := w }
    let e2 := { e1 with _sp := u16 (e1._sp + 1) }
    pure (0, { e2 with _pc := nnn })

/-- The `switch (opcode & 0xF000)`, with checked accesses. -/
def dispatch_checked (rand_value sel x y n kk nnn : Nat) (e : emulator) :
    Option (Nat × emulator) :=
  if sel = 0x0000 then op_sys_checked kk e
  else if sel = 0x1000 then pure (0, { e with _pc := nnn })
  else if sel = 0x2000 then op_call_checked nnn e
  else if sel = 0x3000 then do
    let vx ← reg e x
    pure (op_skip (vx == kk) e)
  else if sel = 0x4000 then do
    let vx ← reg e x
    pure (op_skip (vx != kk) e)
  else if sel = 0x5000 then
    if n ≠ 0 then pure (1, e)
    else do
      let vx ← reg e x
      let vy ← reg e y
      pure (op_skip (vx == vy) e)
  else if sel = 0x6000 then do
    let e1 ← set_reg e x kk
    pure (0, { e1 with _pc := u16 (e1._pc + 2) })
  else if sel = 0x7000 then do
    let vx ← reg e x
    let e1 ← set_reg e x (u8 (vx + kk))
    pure (0, { e1 with _pc := u16 (e1._pc + 2) })
  else if sel = 0x8000 then op_alu_checked x y n e
  else if sel = 0x9000 then
    if n ≠ 0 then pure (1, e)
    else do
      let vx ← reg e x
      let vy ← reg e y
      pure (op_skip (vx != vy) e)
  else if sel = 0xA000 then pure (0, { e with _i := nnn, _pc := u16 (e._pc + 2) })
  else if sel = 0xB000 then do
    let v0 ← reg e 0
    pure (0, { e with _pc := u16 (nnn + v0) })
  else if sel = 0xC000 then do
    let e1 ← set_reg e x ((rand_value % 256) &&& kk)
    pure (0, { e1 with _pc := u16 (e1._pc + 2) })
  else if sel = 0xD000 then op_draw_checked x y n e
  else if sel = 0xE000 then op_key_checked x kk e
  else if sel = 0xF000 then op_misc_checked x kk e
  else pure (1, e)

/-- Decoding of the instruction word, the four assertions on the decoded fields,
then the dispatch, with checked accesses. -/
def execute_checked (rand_value opcode : Nat) (e : emulator) : Option (Nat × emulator) := do
  let x := (opcode >>> 8) &&& 0x000F
  let y := (opcode >>> 4) &&& 0x000F
  let n := opcode &&& 0x000F
  let kk := opcode &&& 0x00FF
  let nnn := opcode &&& 0x0FFF
  assert (x < 16)
  assert (y < 16)
  assert (n < 16)
  assert (nnn ≤ 0xFFF)
  dispatch_checked rand_value (opcode &&& 0xF000) x y n kk nnn e

/-- The function `emulator_cycle` with its assertions and with every array access
checked: `none` when an assertion fails or an index is out of range. -/
def emulator_cycle_checked (rand_value : Nat) (e : emulator) : Option (Nat × emulator) := do
  assert (e._sp < STACK_SIZE)
  if e._pc ≥ MEMORY_SIZE - 1 then pure (1, e)
  else do
    let opcode ← fetch_checked e
    execute_checked rand_value opcode e

/-! ## Arithmetic of the decoder -/

theorem and_F000 (a : Nat) : a &&& 0xF000 = a / 4096 % 16 * 4096 := by
  have h : (0xF000 : Nat) = (2 ^ 4 - 1) <<< 12 := by decide
  have h2 : a / 4096 % 16 * 4096 = ((a >>> 12) &&& (2 ^ 4 - 1)) <<< 12 := by
    rw [Nat.and_pow_two_sub_one_eq_mod, Nat.shiftRight_eq_div_pow, Nat.shiftLeft_eq]
  rw [h, h2]
  apply Nat.eq_of_testBit_eq; intro i
  simp only [Nat.testBit_and, Nat.testBit_shiftLeft, Nat.testBit_shiftRight]
  by_cases hi : 12 ≤ i
  · simp [hi]
  · simp [hi]

theorem and_000F (a : Nat) : a &&& 0x000F = a % 16 :=
  Nat.and_pow_two_sub_one_eq_mod a 4

theorem and_00FF (a : Nat) : a &&& 0x00FF = a % 256 :=
  Nat.and_pow_two_sub_one_eq_mod a 8

theorem and_0FFF (a : Nat) : a &&& 0x0FFF = a % 4096 :=
  Nat.and_pow_two_sub_one_eq_mod a 12

theorem shr_8 (a : Nat) : a >>> 8 = a / 256 := Nat.shiftRight_eq_div_pow a 8

theorem shr_4 (a : Nat) : a >>> 4 = a / 16 := Nat.shiftRight_eq_div_pow a 4

/-- The word fetched from two bytes is the big-endian pair. -/
theorem fetch_eq (e : emulator) (h0 : e._memory e._pc < 256) (h1 : e._memory (e._pc + 1) < 256) :
    fetch e = e._memory e._pc * 256 + e._memory (e._pc + 1) := by
  unfold fetch u16
  have h : e._memory e._pc <<< 8 ||| e._memory (e._pc + 1)
      = e._memory e._pc * 256 + e._memory (e._pc + 1) := by
    rw [Nat.shiftLeft_eq, Nat.mul_comm]
    exact (Nat.mul_add_lt_is_or (i := 8) h1 (e._memory e._pc)).symm
  rw [h]; omega


theorem cycle_eq (rv : Nat) (e : emulator) (h : e._pc ≤ 4094) :
    emulator_cycle rv e = execute rv (fetch e) e := by
  unfold emulator_cycle
  rw [if_neg (by simp only [MEMORY_SIZE]; omega)]

theorem execute_call (rv nnn : Nat) (e : emulator) (h : nnn ≤ 0xFFF) :
    execute rv (0x2000 + nnn) e = op_call nnn e := by
  have h1 : (0x2000 + nnn) / 4096 % 16 * 4096 = 0x2000 := by omega
  have h2 : (0x2000 + nnn) % 4096 = nnn := by omega
  simp only [execute, dispatch, and_F000, and_0FFF, h1, h2]
  simp

theorem execute_sys (rv op : Nat) (e : emulator) (h : op < 0x1000) :
    execute rv op e = op_sys (op % 256) e := by
  have h1 : op / 4096 % 16 * 4096 = 0 := by omega
  simp only [execute, dispatch, and_F000, and_00FF, h1]
  simp

theorem execute_alu (rv x y n : Nat) (e : emulator) (hx : x < 16) (hy : y < 16) (hn : n < 16) :
    execute rv (0x8000 + 0x100 * x + 0x10 * y + n) e = op_alu x y n e := by
  have h1 : (0x8000 + 0x100 * x + 0x10 * y + n) / 4096 % 16 * 4096 = 0x8000 := by omega
  have h2 : (0x8000 + 0x100 * x + 0x10 * y + n) / 256 % 16 = x := by omega
  have h3 : (0x8000 + 0x100 * x + 0x10 * y + n) / 16 % 16 = y := by omega
  have h4 : (0x8000 + 0x100 * x + 0x10 * y + n) % 16 = n := by omega
  simp only [execute, dispatch, and_F000, and_000F, shr_8, shr_4, h1, h2, h3, h4]
  simp

theorem execute_draw (rv x y n : Nat) (e : emulator) (hx : x < 16) (hy : y < 16) (hn : n < 16) :
    execute rv (0xD000 + 0x100 * x + 0x10 * y + n) e = op_draw x y n e := by
  have h1 : (0xD000 + 0x100 * x + 0x10 * y + n) / 4096 % 16 * 4096 = 0xD000 := by omega
  have h2 : (0xD000 + 0x100 * x + 0x10 * y + n) / 256 % 16 = x := by omega
  have h3 : (0xD000 + 0x100 * x + 0x10 * y + n) / 16 % 16 = y := by omega
  have h4 : (0xD000 + 0x100 * x + 0x10 * y + n) % 16 = n := by omega
  simp only [execute, dispatch, and_F000, and_000F, shr_8, shr_4, h1, h2, h3, h4]
  simp

theorem execute_misc (rv x kk : Nat) (e : emulator) (hx : x < 16) (hk : kk < 256) :
    execute rv (0xF000 + 0x100 * x + kk) e = op_misc x kk e := by
  have h1 : (0xF000 + 0x100 * x + kk) / 4096 % 16 * 4096 = 0xF000 := by omega
  have h2 : (0xF000 + 0x100 * x + kk) / 256 % 16 = x := by omega
  have h3 : (0xF000 + 0x100 * x + kk) % 256 = kk := by omega
  simp only [execute, dispatch, and_F000, and_000F, and_00FF, shr_8, h1, h2, h3]
  simp


/-! ## C7: the program-counter guard -/

/-- C7. Program-counter guard: with `_sp <= 11` and `_pc >= MEMORY_SIZE - 1 = 4095`
`emulator_cycle` returns 1 and leaves the state as it was; with `_pc <= 4094` the
instruction word is `_memory[_pc] * 256 + _memory[_pc + 1]` (big-endian) and the
cycle executes that word. -/
theorem pc_guard (rv : Nat) (s : emulator) (hwt : well_typed s) (_hsp : s._sp ≤ 11) :
    (s._pc ≥ MEMORY_SIZE - 1 → emulator_cycle rv s = (1, s)) ∧
    (s._pc ≤ 4094 →
      fetch s = s._memory s._pc * 256 + s._memory (s._pc + 1) ∧
      emulator_cycle rv s = execute rv (s._memory s._pc * 256 + s._memory (s._pc + 1)) s) := by
  refine ⟨fun h => ?_, fun h => ?_⟩
  · unfold emulator_cycle
    rw [if_pos h]
  · have hf : fetch s = s._memory s._pc * 256 + s._memory (s._pc + 1) :=
      fetch_eq s (hwt.memory _ (by simp only [MEMORY_SIZE]; omega))
        (hwt.memory _ (by simp only [MEMORY_SIZE]; omega))
    exact ⟨hf, by rw [cycle_eq rv s h, hf]⟩


/-! ## Witness states -/

theorem store_lt {arr : Nat → Nat} {b : Nat} (i v : Nat) (hv : v < b) (j : Nat)
    (h : arr j < b) : store arr i v j < b := by
  unfold store
  split
  · exact hv
  · exact h

theorem well_typed_test_state : well_typed test_state := by
  constructor <;> simp [test_state, MEMORY_START]

theorem well_typed_load_opcode (opcode : Nat) (e : emulator) (h : well_typed e) :
    well_typed (load_opcode opcode e) := by
  have hb (a : Nat) : a &&& 0xFF < 256 := by rw [and_00FF]; omega
  constructor
  · exact h.cycles_per_frame
  · exact h.screen
  · exact h.keys
  · intro j hj
    exact store_lt _ _ (hb _) _ (store_lt _ _ (hb _) _ (h.memory j hj))
  · exact h.stack
  · exact h.sp
  · exact h.v
  · exact h.i
  · exact h.pc
  · exact h.delay_timer
  · exact h.sound_timer

theorem fetch_load_opcode (opcode : Nat) (e : emulator) (h : opcode < 65536) :
    fetch (load_opcode opcode e) = opcode := by
  have h0 : (load_opcode opcode e)._memory (load_opcode opcode e)._pc = opcode / 256 := by
    simp only [load_opcode, store, shr_8, and_00FF]
    rw [if_neg (by omega), if_pos trivial]; omega
  have h1 : (load_opcode opcode e)._memory ((load_opcode opcode e)._pc + 1) = opcode % 256 := by
    simp only [load_opcode, store, and_00FF]
    rw [if_pos trivial]
  rw [fetch_eq _ (by rw [h0]; omega) (by rw [h1]; omega), h0, h1]; omega


theorem pc_guard_witness :
    emulator_cycle 0 { test_state with _pc := 4095 } = (1, { test_state with _pc := 4095 }) ∧
    fetch (load_opcode 0x6155 test_state) = 0x61 * 256 + 0x55 :=
  ⟨(pc_guard 0 { test_state with _pc := 4095 }
      (by constructor <;> simp [test_state]) (by decide)).1 (by decide),
   ((pc_guard 0 (load_opcode 0x6155 test_state)
      (well_typed_load_opcode _ _ well_typed_test_state) (by decide)).2 (by decide)).1⟩

/-! ## C2, C3: call and return -/

theorem call_step (rv : Nat) (s : emulator) (nnn : Nat) (hnnn : nnn ≤ 0xFFF)
    (hsp : s._sp ≤ 10) (hpc : s._pc ≤ 4094) (hop : fetch s = 0x2000 + nnn) :
    emulator_cycle rv s =
      (0, { s with _stack := store s._stack s._sp (s._pc + 2), _sp := s._sp + 1, _pc := nnn }) := by
  rw [cycle_eq rv s hpc, hop, execute_call rv nnn s hnnn]
  unfold op_call
  rw [if_neg (by simp only [STACK_SIZE]; omega)]
  have h1 : u16 (s._pc + 2) = s._pc + 2 := by unfold u16; omega
  have h2 : u16 (s._sp + 1) = s._sp + 1 := by unfold u16; omega
  simp only [h1, h2]

theorem ret_step (rv : Nat) (s : emulator) (hsp : 0 < s._sp) (hpc : s._pc ≤ 4094)
    (hop : fetch s = 0x00EE) :
    emulator_cycle rv s = (0, { s with _sp := s._sp - 1, _pc := s._stack (s._sp - 1) }) := by
  rw [cycle_eq rv s hpc, hop, execute_sys rv 0x00EE s (by decide)]
  unfold op_sys
  rw [if_neg (by decide), if_pos (by decide), if_neg (by omega)]

theorem call_return_pair (rv rv' : Nat) (s : emulator) (nnn : Nat) (hnnn : nnn ≤ 4094)
    (hsp : s._sp ≤ 10) (hpc : s._pc ≤ 4094) (hop : fetch s = 0x2000 + nnn)
    (hret : fetch (emulator_cycle rv s).2 = 0x00EE) :
    emulator_cycle rv' (emulator_cycle rv s).2 =
      (0, { s with _stack := store s._stack s._sp (s._pc + 2), _pc := s._pc + 2 }) := by
  have hc := call_step rv s nnn (by omega) hsp hpc hop
  rw [hc] at hret ⊢
  rw [ret_step rv' _ (by simp) (by simpa using hnnn) hret]
  simp [store]

/-- C2. Call/return round trip: with `_sp <= 10`, `_pc <= 4094` and the word `2nnn`
at `_pc`, `emulator_cycle` returns 0, sets `_pc = nnn`, stores the old `_pc + 2` in
`_stack[old _sp]` and increments `_sp`; if the word at `nnn` is `00EE`
(`nnn <= 4094`) the next cycle returns 0, sets `_pc` to the old `_pc + 2` and
restores `_sp`, and registers, `_i`, memory and framebuffer are those before the
pair; hence any number `N` of such pairs in sequence, started from the state,
leaves `_sp` as it was. -/
theorem call_return_round_trip (rv rv' : Nat) (s : emulator) (nnn : Nat) (hnnn : nnn ≤ 0xFFF)
    (hsp : s._sp ≤ 10) (hpc : s._pc ≤ 4094) (hop : fetch s = 0x2000 + nnn) :
    ((emulator_cycle rv s).1 = 0 ∧
      (emulator_cycle rv s).2._pc = nnn ∧
      (emulator_cycle rv s).2._stack s._sp = s._pc + 2 ∧
      (emulator_cycle rv s).2._sp = s._sp + 1) ∧
    (nnn ≤ 4094 → fetch (emulator_cycle rv s).2 = 0x00EE →
      (emulator_cycle rv' (emulator_cycle rv s).2).1 = 0 ∧
      (emulator_cycle rv' (emulator_cycle rv s).2).2._pc = s._pc + 2 ∧
      (emulator_cycle rv' (emulator_cycle rv s).2).2._sp = s._sp ∧
      (emulator_cycle rv' (emulator_cycle rv s).2).2._v = s._v ∧
      (emulator_cycle rv' (emulator_cycle rv s).2).2._i = s._i ∧
      (emulator_cycle rv' (emulator_cycle rv s).2).2._memory = s._memory ∧
      (emulator_cycle rv' (emulator_cycle rv s).2).2.screen = s.screen) ∧
    (∀ (N : Nat) (σ : Nat → emulator) (target r r' : Nat → Nat), σ 0 = s →
      (∀ k, k < N → (σ k)._sp ≤ 10 ∧ (σ k)._pc ≤ 4094 ∧ target k ≤ 4094 ∧
        fetch (σ k) = 0x2000 + target k ∧
        fetch (emulator_cycle (r k) (σ k)).2 = 0x00EE ∧
        σ (k + 1) = (emulator_cycle (r' k) (emulator_cycle (r k) (σ k)).2).2) →
      (σ N)._sp = s._sp) := by
  refine ⟨?_, ?_, ?_⟩
  · rw [call_step rv s nnn hnnn hsp hpc hop]
    simp [store]
  · intro h1 h2
    rw [call_return_pair rv rv' s nnn h1 hsp hpc hop h2]
    simp
  · intro N σ target r r' h0 hstep
    induction N with
    | zero => rw [h0]
    | succ m ih =>
      obtain ⟨a, b, c, d, e, f⟩ := hstep m (Nat.lt_succ_self m)
      rw [f, call_return_pair (r m) (r' m) (σ m) (target m) c a b d e]
      exact ih (fun k hk => hstep k (Nat.lt_succ_of_lt hk))

theorem call_return_round_trip_witness :
    (emulator_cycle 0 call_return_state).2._pc = 0x300 ∧
    (emulator_cycle 0 call_return_state).2._stack 0 = 0x202 ∧
    (emulator_cycle 0 call_return_state).2._sp = 1 ∧
    (emulator_cycle 0 (emulator_cycle 0 call_return_state).2).2._pc = 0x202 ∧
    (emulator_cycle 0 (emulator_cycle 0 call_return_state).2).2._sp = 0 :=
  have h := call_return_round_trip 0 0 call_return_state 0x300 (by decide) (by decide)
    (by decide) (by decide)
  have h2 := h.2.1 (by decide) (by decide)
  ⟨h.1.2.1, h.1.2.2.1, h.1.2.2.2, h2.2.1, h2.2.2.1⟩

/-- C3. Stack bounds: with `_pc <= 4094`, a CALL (`2nnn`) executed with
`_sp = STACK_SIZE - 1 = 11` makes `emulator_cycle` return 1, and a RET (`00EE`)
executed with `_sp = 0` makes it return 1; in both cases the whole state is left
exactly as it was. -/
theorem stack_bounds (rv : Nat) (s : emulator) (hpc : s._pc ≤ 4094) :
    (∀ nnn, nnn ≤ 0xFFF → s._sp = STACK_SIZE - 1 → fetch s = 0x2000 + nnn →
      emulator_cycle rv s = (1, s)) ∧
    (s._sp = 0 → fetch s = 0x00EE → emulator_cycle rv s = (1, s)) := by
  refine ⟨fun nnn hnnn hsp hop => ?_, fun hsp hop => ?_⟩
  · rw [cycle_eq rv s hpc, hop, execute_call rv nnn s hnnn]
    unfold op_call
    rw [if_pos (by rw [hsp]; decide)]
  · rw [cycle_eq rv s hpc, hop, execute_sys rv 0x00EE s (by decide)]
    unfold op_sys
    rw [if_neg (by decide), if_pos (by decide), if_pos (by omega)]

theorem stack_bounds_witness :
    emulator_cycle 0 (load_opcode 0x2300 { test_state with _sp := STACK_SIZE - 1 }) =
      (1, load_opcode 0x2300 { test_state with _sp := STACK_SIZE - 1 }) ∧
    emulator_cycle 0 (load_opcode 0x00EE test_state) = (1, load_opcode 0x00EE test_state) :=
  ⟨(stack_bounds 0 (load_opcode 0x2300 { test_state with _sp := STACK_SIZE - 1 })
      (by decide)).1 0x300 (by decide) (by decide) (by decide),
   (stack_bounds 0 (load_opcode 0x00EE test_state) (by decide)).2 (by decide) (by decide)⟩


/-! ## C4: add with carry -/

theorem alu_add_step (rv : Nat) (s : emulator) (x y : Nat) (hx : x < 16) (hy : y < 16)
    (hpc : s._pc ≤ 4094) (hop : fetch s = 0x8000 + 0x100 * x + 0x10 * y + 4) :
    emulator_cycle rv s =
      (0, { s with
        _v := store (store s._v 0xF (if u8 (s._v x + s._v y) < s._v x then 1 else 0)) x
          (u8 (store s._v 0xF (if u8 (s._v x + s._v y) < s._v x then 1 else 0) x +
            store s._v 0xF (if u8 (s._v x + s._v y) < s._v x then 1 else 0) y)),
        _pc := s._pc + 2 }) := by
  rw [cycle_eq rv s hpc, hop, execute_alu rv x y 4 s hx hy (by decide)]
  have h1 : u16 (s._pc + 2) = s._pc + 2 := by unfold u16; omega
  unfold op_alu
  by_cases hc : u8 (s._v x + s._v y) < s._v x
  · simp [hc, h1]
  · simp [hc, h1]

/-- C4. Add with carry (`8xy4`): with `_pc <= 4094` and `x`, `y` in `0..14`,
`emulator_cycle` returns 0, `V[x]` becomes `(old V[x] + old V[y]) mod 256`,
`V[0xF]` becomes 1 if `old V[x] + old V[y] > 255` and 0 otherwise, `_pc` advances
by 2, and every other register is unchanged (the case `x = y` included). -/
theorem add_with_carry (rv : Nat) (s : emulator) (x y : Nat) (hwt : well_typed s)
    (hpc : s._pc ≤ 4094) (hx : x ≤ 14) (hy : y ≤ 14)
    (hop : fetch s = 0x8000 + 0x100 * x + 0x10 * y + 4) :
    (emulator_cycle rv s).1 = 0 ∧
    (emulator_cycle rv s).2._v x = (s._v x + s._v y) % 256 ∧
    (emulator_cycle rv s).2._v 0xF = (if s._v x + s._v y > 255 then 1 else 0) ∧
    (emulator_cycle rv s).2._pc = s._pc + 2 ∧
    (∀ j, j ≠ x → j ≠ 0xF → (emulator_cycle rv s).2._v j = s._v j) ∧
    (emulator_cycle rv s).2._i = s._i := by
  have hvx := hwt.v x (by omega)
  have hvy := hwt.v y (by omega)
  rw [alu_add_step rv s x y (by omega) (by omega) hpc hop]
  have hxF : x ≠ 15 := by omega
  have hyF : y ≠ 15 := by omega
  have hFx : ¬ (15 = x) := by omega
  refine ⟨rfl, ?_, ?_, rfl, ?_, rfl⟩
  · simp [store, hxF, hyF, u8]
  · simp only [store, if_neg hFx, if_pos, u8]
    by_cases h : s._v x + s._v y > 255
    · rw [if_pos h, if_pos (by omega)]
    · rw [if_neg h, if_neg (by omega)]
  · intro j hj hjF
    simp [store, hj, hjF]

theorem add_with_carry_witness :
    (emulator_cycle 0 (load_opcode 0x8014
      { test_state with _v := store (store test_state._v 0 0xFE) 1 0x03 })).2._v 0 = 0x01 ∧
    (emulator_cycle 0 (load_opcode 0x8014
      { test_state with _v := store (store test_state._v 0 0xFE) 1 0x03 })).2._v 0xF = 1 :=
  have h := add_with_carry 0 (load_opcode 0x8014
      { test_state with _v := store (store test_state._v 0 0xFE) 1 0x03 }) 0 1
    (well_typed_load_opcode _ _ (by
      constructor <;> simp [test_state, MEMORY_START]
      intro j _
      exact store_lt _ _ (by decide) _ (store_lt _ _ (by decide) _ (by decide))))
    (by decide) (by decide) (by decide) (by decide)
  ⟨h.2.1, h.2.2.1⟩


theorem flag_ite (c : Prop) [Decidable c] (s : emulator) :
    (if c then { s with _v := store s._v 0xF 1 } else { s with _v := store s._v 0xF 0 }) =
      { s with _v := store s._v 0xF (if c then 1 else 0) } := by
  split <;> rfl

theorem alu_step (rv : Nat) (s : emulator) (x y n : Nat) (hx : x < 16) (hy : y < 16)
    (hn : n < 16) (hpc : s._pc ≤ 4094) (hop : fetch s = 0x8000 + 0x100 * x + 0x10 * y + n) :
    emulator_cycle rv s = op_alu x y n s := by
  rw [cycle_eq rv s hpc, hop, execute_alu rv x y n s hx hy hn]

/-! ## C5: the flag of the subtractions -/

theorem well_typed_alu_state (opcode a b f : Nat) (ha : a < 256) (hb : b < 256)
    (hf : f < 256) : well_typed (alu_state opcode a b f) := by
  refine well_typed_load_opcode _ _ ?_
  constructor <;> simp [test_state, MEMORY_START]
  intro j _
  exact store_lt _ _ hf _ (store_lt _ _ hb _ (store_lt _ _ ha _ (by decide)))

/-- C5. Subtractions with equal operands: for `V0 = V1 = 5` (and `VF = 0`),
`8015` (SUB) and `8017` (SUBN) both return 0 and leave `V0 = 0`, but set
`V[0xF] = 0`, where "minuend >= subtrahend" asks for 1: the tests in the source
are `_v[x] > _v[y]` and `_v[y] > _v[x]`. -/
theorem sub_equal_operands_flag :
    well_typed (alu_state 0x8015 5 5 0) ∧ well_typed (alu_state 0x8017 5 5 0) ∧
    (alu_state 0x8015 5 5 0)._v 0 ≥ (alu_state 0x8015 5 5 0)._v 1 ∧
    (alu_state 0x8017 5 5 0)._v 1 ≥ (alu_state 0x8017 5 5 0)._v 0 ∧
    emulator_cycle 0 (alu_state 0x8015 5 5 0) =
      (0, { alu_state 0x8015 5 5 0 with
        _v := store (store (alu_state 0x8015 5 5 0)._v 0xF 0) 0 0, _pc := 0x202 }) ∧
    emulator_cycle 0 (alu_state 0x8017 5 5 0) =
      (0, { alu_state 0x8017 5 5 0 with
        _v := store (store (alu_state 0x8017 5 5 0)._v 0xF 0) 0 0, _pc := 0x202 }) ∧
    (emulator_cycle 0 (alu_state 0x8015 5 5 0)).2._v 0xF = 0 ∧
    (emulator_cycle 0 (alu_state 0x8017 5 5 0)).2._v 0xF = 0 := by
  refine ⟨well_typed_alu_state _ _ _ _ (by decide) (by decide) (by decide),
    well_typed_alu_state _ _ _ _ (by decide) (by decide) (by decide), by decide, by decide,
    ?_, ?_, by decide, by decide⟩
  · have hf : fetch (alu_state 0x8015 5 5 0) = 0x8000 + 0x100 * 0 + 0x10 * 1 + 5 := by decide
    rw [cycle_eq _ _ (by decide), hf, execute_alu 0 0 1 5 _ (by decide) (by decide) (by decide)]
    rfl
  · have hf : fetch (alu_state 0x8017 5 5 0) = 0x8000 + 0x100 * 0 + 0x10 * 1 + 7 := by decide
    rw [cycle_eq _ _ (by decide), hf, execute_alu 0 0 1 7 _ (by decide) (by decide) (by decide)]
    rfl


/-- What `8xy5` and `8xy7` compute for `x`, `y` in `0..14`: the difference
modulo 256, and `V[0xF] = 1` exactly when the minuend is strictly greater than the
subtrahend. -/
theorem sub_flag_strict (rv : Nat) (s : emulator) (x y : Nat)
    (hpc : s._pc ≤ 4094) (hx : x ≤ 14) (hy : y ≤ 14) :
    (fetch s = 0x8000 + 0x100 * x + 0x10 * y + 5 →
      (emulator_cycle rv s).1 = 0 ∧
      (emulator_cycle rv s).2._v x = (s._v x + 256 - s._v y) % 256 ∧
      ((emulator_cycle rv s).2._v 0xF = 1 ↔ s._v x > s._v y)) ∧
    (fetch s = 0x8000 + 0x100 * x + 0x10 * y + 7 →
      (emulator_cycle rv s).1 = 0 ∧
      (emulator_cycle rv s).2._v x = (s._v y + 256 - s._v x) % 256 ∧
      ((emulator_cycle rv s).2._v 0xF = 1 ↔ s._v y > s._v x)) := by
  have hxF : x ≠ 15 := by omega
  have hyF : y ≠ 15 := by omega
  have hFx : ¬ (15 = x) := by omega
  refine ⟨fun hop => ?_, fun hop => ?_⟩
  · rw [alu_step rv s x y 5 (by omega) (by omega) (by decide) hpc hop]
    unfold op_alu
    simp only [flag_ite]
    by_cases h : s._v x > s._v y <;> simp [store, u8, hxF, hyF, hFx, h]
  · rw [alu_step rv s x y 7 (by omega) (by omega) (by decide) hpc hop]
    unfold op_alu
    simp only [flag_ite]
    by_cases h : s._v y > s._v x <;> simp [store, u8, hxF, hyF, hFx, h]

/-! ## C6: VF as destination register -/

/-- C6. VF as destination: the flag is lost.  On byte-valued states of the tests
each instruction returns 0, and the value left in `V[0xF]` is not the flag
computed from the operands as they were before the instruction.  `8F14` with `VF = 0x10`, `V1 = 0x20` (no carry, flag 0)
leaves `0x20`; `8F15` with `VF = 5`, `V1 = 2` (no borrow, flag 1) leaves `0xFF`;
`8F17` with `VF = 2`, `V1 = 5` (flag 1) leaves 4; `8F16` with `VF = 1` (bit
shifted out 1) leaves 0; `8F1E` with `VF = 0x80` (bit shifted out 1) leaves 2:
the source stores the flag in `_v[0xF]` and then stores the result of the
operation, computed from a second read of `_v[x]`, over it. -/
theorem vf_destination_flag_lost :
    (well_typed (alu_state 0x8F14 0 0x20 0x10) ∧
      (emulator_cycle 0 (alu_state 0x8F14 0 0x20 0x10)).1 = 0 ∧
      (emulator_cycle 0 (alu_state 0x8F14 0 0x20 0x10)).2._v 0xF = 0x20 ∧
      (if (alu_state 0x8F14 0 0x20 0x10)._v 0xF + (alu_state 0x8F14 0 0x20 0x10)._v 1 > 255
        then 1 else 0) = 0) ∧
    (well_typed (alu_state 0x8F15 0 2 5) ∧
      (emulator_cycle 0 (alu_state 0x8F15 0 2 5)).1 = 0 ∧
      (emulator_cycle 0 (alu_state 0x8F15 0 2 5)).2._v 0xF = 0xFF ∧
      (if (alu_state 0x8F15 0 2 5)._v 0xF ≥ (alu_state 0x8F15 0 2 5)._v 1 then 1 else 0) = 1) ∧
    (well_typed (alu_state 0x8F17 0 5 2) ∧
      (emulator_cycle 0 (alu_state 0x8F17 0 5 2)).1 = 0 ∧
      (emulator_cycle 0 (alu_state 0x8F17 0 5 2)).2._v 0xF = 4 ∧
      (if (alu_state 0x8F17 0 5 2)._v 1 ≥ (alu_state 0x8F17 0 5 2)._v 0xF then 1 else 0) = 1) ∧
    (well_typed (alu_state 0x8F16 0 0 1) ∧
      (emulator_cycle 0 (alu_state 0x8F16 0 0 1)).1 = 0 ∧
      (emulator_cycle 0 (alu_state 0x8F16 0 0 1)).2._v 0xF = 0 ∧
      (alu_state 0x8F16 0 0 1)._v 0xF % 2 = 1) ∧
    (well_typed (alu_state 0x8F1E 0 0 0x80) ∧
      (emulator_cycle 0 (alu_state 0x8F1E 0 0 0x80)).1 = 0 ∧
      (emulator_cycle 0 (alu_state 0x8F1E 0 0 0x80)).2._v 0xF = 2 ∧
      (alu_state 0x8F1E 0 0 0x80)._v 0xF / 128 = 1) := by
  refine ⟨⟨?_, by decide⟩, ⟨?_, by decide⟩, ⟨?_, by decide⟩, ⟨?_, by decide⟩,
    ⟨?_, by decide⟩⟩ <;>
  exact well_typed_alu_state _ _ _ _ (by decide) (by decide) (by decide)

/-- What the source computes when the destination register is `VF`, for
byte-valued registers and any `y`: the flag (0 or 1) is stored in `_v[0xF]` first
and the operands are read again for the result, which is stored over it.  After
`8Fy4` `V[0xF]` holds `(carry + V[y]) mod 256`, after `8Fy5` `(flag - V[y]) mod 256`,
after `8Fy7` `(V[y] - flag) mod 256` (`V[y]` being the flag itself when `y = 0xF`),
after `8Fy6` 0 and after `8FyE` twice the bit shifted out of bit 7. -/
theorem alu_result_over_flag (rv : Nat) (s : emulator) (y : Nat) (hwt : well_typed s)
    (hpc : s._pc ≤ 4094) (hy : y < 16) :
    (fetch s = 0x8000 + 0x100 * 0xF + 0x10 * y + 4 →
      (emulator_cycle rv s).1 = 0 ∧
      (emulator_cycle rv s).2._v 0xF =
        ((if s._v 0xF + s._v y > 255 then 1 else 0) +
          (if y = 0xF then (if s._v 0xF + s._v y > 255 then 1 else 0) else s._v y)) % 256) ∧
    (fetch s = 0x8000 + 0x100 * 0xF + 0x10 * y + 5 →
      (emulator_cycle rv s).1 = 0 ∧
      (emulator_cycle rv s).2._v 0xF =
        ((if s._v 0xF > s._v y then 1 else 0) + 256 -
          (if y = 0xF then (if s._v 0xF > s._v y then 1 else 0) else s._v y)) % 256) ∧
    (fetch s = 0x8000 + 0x100 * 0xF + 0x10 * y + 7 →
      (emulator_cycle rv s).1 = 0 ∧
      (emulator_cycle rv s).2._v 0xF =
        ((if y = 0xF then (if s._v y > s._v 0xF then 1 else 0) else s._v y) + 256 -
          (if s._v y > s._v 0xF then 1 else 0)) % 256) ∧
    (fetch s = 0x8000 + 0x100 * 0xF + 0x10 * y + 6 →
      (emulator_cycle rv s).1 = 0 ∧ (emulator_cycle rv s).2._v 0xF = 0) ∧
    (fetch s = 0x8000 + 0x100 * 0xF + 0x10 * y + 0xE →
      (emulator_cycle rv s).1 = 0 ∧ (emulator_cycle rv s).2._v 0xF = 2 * (s._v 0xF / 128)) := by
  have hF := hwt.v 0xF (by decide)
  have hvy := hwt.v y hy
  refine ⟨fun hop => ?_, fun hop => ?_, fun hop => ?_, fun hop => ?_, fun hop => ?_⟩
  · rw [alu_step rv s 0xF y 4 (by decide) hy (by decide) hpc hop]
    unfold op_alu
    simp only [flag_ite]
    simp [store, u8]
    split_ifs <;> omega
  · rw [alu_step rv s 0xF y 5 (by decide) hy (by decide) hpc hop]
    unfold op_alu
    simp only [flag_ite]
    simp [store, u8]
  · rw [alu_step rv s 0xF y 7 (by decide) hy (by decide) hpc hop]
    unfold op_alu
    simp only [flag_ite]
    simp [store, u8]
  · rw [alu_step rv s 0xF y 6 (by decide) hy (by decide) hpc hop]
    unfold op_alu
    simp [store]
    rw [Nat.shiftRight_eq_div_pow]
    omega
  · rw [alu_step rv s 0xF y 0xE (by decide) hy (by decide) hpc hop]
    unfold op_alu
    simp [store, u8]
    rw [Nat.shiftRight_eq_div_pow, Nat.shiftLeft_eq]
    omega

/-! ## C9, C10: register dump and load -/

theorem misc_step (rv : Nat) (s : emulator) (x kk : Nat) (hx : x < 16) (hk : kk < 256)
    (hpc : s._pc ≤ 4094) (hop : fetch s = 0xF000 + 0x100 * x + kk) :
    emulator_cycle rv s = op_misc x kk s := by
  rw [cycle_eq rv s hpc, hop, execute_misc rv x kk s hx hk]

/-- The dump loop over `0 .. k-1` writes `_v[j - _i]` at every address `j` of
`[_i, _i + k)` and nothing else. -/
theorem reg_dump_range (e : emulator) (k : Nat) :
    reg_dump e (List.range k) =
      { e with _memory := fun j =>
          if e._i ≤ j ∧ j < e._i + k then e._v (j - e._i) else e._memory j } := by
  induction k with
  | zero =>
    have h : (fun j => if e._i ≤ j ∧ j < e._i + 0 then e._v (j - e._i) else e._memory j)
        = e._memory := by
      funext j
      rw [if_neg (by omega)]
    simp only [List.range_zero, reg_dump, List.foldl_nil, h]
  | succ n ih =>
    unfold reg_dump at ih ⊢
    rw [List.range_succ, List.foldl_append, ih]
    simp only [List.foldl_cons, List.foldl_nil]
    congr 1
    funext j
    unfold store
    by_cases hj : j = e._i + n
    · subst hj
      rw [if_pos rfl, if_pos (by omega), Nat.add_sub_cancel_left]
    · rw [if_neg hj]
      beta_reduce
      by_cases h2 : e._i ≤ j ∧ j < e._i + n
      · rw [if_pos h2, if_pos (by omega)]
      · rw [if_neg h2, if_neg (by omega)]

/-- The load loop over `0 .. k-1` reads `_memory[_i + j]` into every register
`j < k` and nothing else. -/
theorem reg_load_range (e : emulator) (k : Nat) :
    reg_load e (List.range k) =
      { e with _v := fun j => if j < k then e._memory (e._i + j) else e._v j } := by
  induction k with
  | zero =>
    have h : (fun j => if j < 0 then e._memory (e._i + j) else e._v j) = e._v := by
      funext j
      rw [if_neg (by omega)]
    simp only [List.range_zero, reg_load, List.foldl_nil, h]
  | succ n ih =>
    unfold reg_load at ih ⊢
    rw [List.range_succ, List.foldl_append, ih]
    simp only [List.foldl_cons, List.foldl_nil]
    congr 1
    funext j
    unfold store
    by_cases hj : j = n
    · subst hj
      rw [if_pos rfl, if_pos (by omega)]
    · rw [if_neg hj]
      beta_reduce
      by_cases h2 : j < n
      · rw [if_pos h2, if_pos (by omega)]
      · rw [if_neg h2, if_neg (by omega)]

theorem dump_step (rv : Nat) (s : emulator) (x : Nat) (hx : x < 16) (hpc : s._pc ≤ 4094)
    (hop : fetch s = 0xF000 + 0x100 * x + 0x55) :
    emulator_cycle rv s =
      if s._i + x ≥ MEMORY_SIZE then (1, s)
      else (0, { s with
        _memory := fun j => if s._i ≤ j ∧ j < s._i + (x + 1) then s._v (j - s._i) else s._memory j,
        _pc := s._pc + 2 }) := by
  rw [misc_step rv s x 0x55 hx (by decide) hpc hop]
  have h1 : u16 (s._pc + 2) = s._pc + 2 := by unfold u16; omega
  simp [op_misc, reg_dump_range, h1]

theorem load_step (rv : Nat) (s : emulator) (x : Nat) (hx : x < 16) (hpc : s._pc ≤ 4094)
    (hop : fetch s = 0xF000 + 0x100 * x + 0x65) :
    emulator_cycle rv s =
      if s._i + x ≥ MEMORY_SIZE then (1, s)
      else (0, { s with
        _v := fun j => if j < x + 1 then s._memory (s._i + j) else s._v j,
        _pc := s._pc + 2 }) := by
  rw [misc_step rv s x 0x65 hx (by decide) hpc hop]
  have h1 : u16 (s._pc + 2) = s._pc + 2 := by unfold u16; omega
  simp [op_misc, reg_load_range, h1]


/-- C9. Register dump/load round trip: for `k` in `0..15` and a state `s` with
`_i + k <= 4095`, if `Fk55` is executed on `s` and `Fk65` is executed on any state
`t` whose `_i` and `_memory[_i .. _i+k]` are those left by the dump (registers
arbitrary), then both steps return 0, after the load `V[i]` equals `s.V[i]` for
every `i <= k`, the registers `V[k+1..15]` are those of `t`, and `_i` is still the
original value. -/
theorem dump_load_round_trip (rv rv' : Nat) (s t : emulator) (k : Nat) (hk : k ≤ 15)
    (hI : s._i + k ≤ 4095) (hpc : s._pc ≤ 4094) (hop : fetch s = 0xF000 + 0x100 * k + 0x55)
    (htI : t._i = s._i)
    (htm : ∀ i, i ≤ k → t._memory (s._i + i) = (emulator_cycle rv s).2._memory (s._i + i))
    (htpc : t._pc ≤ 4094) (htop : fetch t = 0xF000 + 0x100 * k + 0x65) :
    (emulator_cycle rv s).1 = 0 ∧ (emulator_cycle rv' t).1 = 0 ∧
    (∀ i, i ≤ k → (emulator_cycle rv' t).2._v i = s._v i) ∧
    (∀ j, k < j → (emulator_cycle rv' t).2._v j = t._v j) ∧
    (emulator_cycle rv' t).2._i = s._i := by
  have hd := dump_step rv s k (by omega) hpc hop
  rw [if_neg (by simp only [MEMORY_SIZE]; omega)] at hd
  have hl := load_step rv' t k (by omega) htpc htop
  rw [if_neg (by rw [htI]; simp only [MEMORY_SIZE]; omega)] at hl
  rw [hd] at htm ⊢
  rw [hl]
  refine ⟨rfl, rfl, ?_, ?_, htI⟩
  · intro i hi
    have h := htm i hi
    simp only at h ⊢
    rw [if_pos (by omega), htI, h, if_pos (by omega), Nat.add_sub_cancel_left]
  · intro j hj
    simp only
    rw [if_neg (by omega)]

theorem dump_load_round_trip_witness :
    (emulator_cycle 0 load_state).2._v 0 = 0xAA ∧
    (emulator_cycle 0 load_state).2._v 1 = 0xBB ∧
    (emulator_cycle 0 load_state).2._v 2 = 0xCC ∧
    (emulator_cycle 0 load_state).2._v 3 = 0 ∧
    (emulator_cycle 0 load_state).2._i = 0x500 :=
  have h := dump_load_round_trip 0 0 dump_state load_state 2 (by decide) (by decide)
    (by decide) (by decide) (by decide) (by decide) (by decide) (by decide)
  ⟨h.2.2.1 0 (by decide), h.2.2.1 1 (by decide), h.2.2.1 2 (by decide),
    h.2.2.2.1 3 (by decide), h.2.2.2.2⟩

/-- C10. Register dump bounds and frame (`Fx55`): with `_pc <= 4094`,
`emulator_cycle` on `Fx55` returns 1, with the state unchanged, exactly when
`_i + x >= 4096` (no 16-bit wraparound in the sum); otherwise it returns 0,
`_memory[_i + i] = V[i]` for every `i` in `0..x`, every memory byte outside
`[_i, _i + x]` is unchanged, all registers and `_i` are unchanged, and `_pc`
advances by 2.  `Fx65` fails under exactly the same condition. -/
theorem dump_bounds_and_frame (rv : Nat) (s : emulator) (x : Nat) (hx : x < 16)
    (hpc : s._pc ≤ 4094) :
    (fetch s = 0xF000 + 0x100 * x + 0x55 →
      ((emulator_cycle rv s).1 = 1 ↔ s._i + x ≥ 4096) ∧
      (s._i + x ≥ 4096 → emulator_cycle rv s = (1, s)) ∧
      (s._i + x < 4096 →
        (emulator_cycle rv s).1 = 0 ∧
        (∀ i, i ≤ x → (emulator_cycle rv s).2._memory (s._i + i) = s._v i) ∧
        (∀ j, (j < s._i ∨ s._i + x < j) → (emulator_cycle rv s).2._memory j = s._memory j) ∧
        (emulator_cycle rv s).2._v = s._v ∧
        (emulator_cycle rv s).2._i = s._i ∧
        (emulator_cycle rv s).2._pc = s._pc + 2)) ∧
    (fetch s = 0xF000 + 0x100 * x + 0x65 →
      ((emulator_cycle rv s).1 = 1 ↔ s._i + x ≥ 4096) ∧
      (s._i + x ≥ 4096 → emulator_cycle rv s = (1, s))) := by
  refine ⟨fun hop => ?_, fun hop => ?_⟩
  · have hd := dump_step rv s x hx hpc hop
    by_cases h : s._i + x ≥ 4096
    · rw [if_pos h] at hd
      rw [hd]
      exact ⟨⟨fun _ => h, fun _ => rfl⟩, fun _ => rfl, fun h' => absurd h (by omega)⟩
    · rw [if_neg h] at hd
      rw [hd]
      refine ⟨⟨fun h' => absurd h' Nat.zero_ne_one, fun h' => absurd h' h⟩,
        fun h' => absurd h' h, fun _ => ⟨rfl, ?_, ?_, rfl, rfl, rfl⟩⟩
      · intro i hi
        simp only
        rw [if_pos (by omega), Nat.add_sub_cancel_left]
      · intro j hj
        simp only
        rw [if_neg (by omega)]
  · have hl := load_step rv s x hx hpc hop
    by_cases h : s._i + x ≥ 4096
    · rw [if_pos h] at hl
      rw [hl]
      exact ⟨⟨fun _ => h, fun _ => rfl⟩, fun _ => rfl⟩
    · rw [if_neg h] at hl
      rw [hl]
      exact ⟨⟨fun h' => absurd h' Nat.zero_ne_one, fun h' => absurd h' h⟩, fun h' => absurd h' h⟩

theorem dump_bounds_and_frame_witness :
    emulator_cycle 0 dump_oob_state = (1, dump_oob_state) ∧
    (emulator_cycle 0 dump_state).1 = 0 ∧
    (emulator_cycle 0 dump_state).2._memory (0x500 + 2) = 0xCC ∧
    (emulator_cycle 0 dump_state).2._pc = 0x202 ∧
    ((emulator_cycle 0 load_state).1 = 1 ↔ load_state._i + 2 ≥ 4096) :=
  have h1 := (dump_bounds_and_frame 0 dump_oob_state 5 (by decide) (by decide)).1 (by decide)
  have h2 := ((dump_bounds_and_frame 0 dump_state 2 (by decide) (by decide)).1
    (by decide)).2.2 (by decide)
  have h3 := (dump_bounds_and_frame 0 load_state 2 (by decide) (by decide)).2 (by decide)
  ⟨h1.2.1 (by decide), h2.1, h2.2.1 2 (by decide), h2.2.2.2.2.2, h3.1⟩


/-! ## The drawing loops change the framebuffer and the registers only -/

theorem draw_pixel_frame (sprite x0 y col : Nat) (e : emulator) :
    draw_pixel sprite x0 y col e =
      { e with screen := (draw_pixel sprite x0 y col e).screen,
               _v := (draw_pixel sprite x0 y col e)._v } := by
  unfold draw_pixel
  split
  · rfl
  · simp only
    split <;> rfl

theorem draw_cols_list_frame (sprite x0 y : Nat) (cols : List Nat) (e : emulator) :
    cols.foldl (fun acc col => draw_pixel sprite x0 y col acc) e =
      { e with
        screen := (cols.foldl (fun acc col => draw_pixel sprite x0 y col acc) e).screen,
        _v := (cols.foldl (fun acc col => draw_pixel sprite x0 y col acc) e)._v } := by
  induction cols generalizing e with
  | nil => rfl
  | cons c cs ih =>
    simp only [List.foldl_cons]
    rw [ih (draw_pixel sprite x0 y c e), draw_pixel_frame sprite x0 y c e]

theorem draw_cols_frame (sprite x0 y : Nat) (e : emulator) :
    draw_cols sprite x0 y e =
      { e with screen := (draw_cols sprite x0 y e).screen,
               _v := (draw_cols sprite x0 y e)._v } :=
  draw_cols_list_frame sprite x0 y (List.range 8) e

theorem draw_rows_frame (x0 y0 : Nat) (rows : List Nat) (e : emulator) :
    (draw_rows x0 y0 rows e).2 =
      { e with screen := (draw_rows x0 y0 rows e).2.screen,
               _v := (draw_rows x0 y0 rows e).2._v } := by
  induction rows generalizing e with
  | nil => rfl
  | cons r rs ih =>
    unfold draw_rows
    split
    · rfl
    · rw [ih]
      unfold draw_row
      simp only
      rw [draw_cols_frame _ x0 _ e]


/-! ## C8: the timers -/

theorem ite_prop {α : Type} (P : α → Prop) (c : Prop) [Decidable c] (a b : α)
    (ha : c → P a) (hb : ¬ c → P b) : P (if c then a else b) := by
  split
  · exact ha ‹_›
  · exact hb ‹_›

theorem timers_kept_of_eq (e : emulator) (p q : Prop) (r : Nat × emulator)
    (h1 : r.2._delay_timer = e._delay_timer) (h2 : r.2._sound_timer = e._sound_timer)
    (h3 : r.2.cycles_per_frame = e.cycles_per_frame) : timers_kept e p q r :=
  ⟨fun _ => h1, fun _ => h2, h3⟩

/-- Only `Fx15` writes the delay timer, only `Fx18` the sound timer, and nothing
writes `cycles_per_frame`. -/
theorem dispatch_timers (rv sel x y n kk nnn : Nat) (e : emulator) :
    timers_kept e (¬ (sel = 0xF000 ∧ kk = 0x15)) (¬ (sel = 0xF000 ∧ kk = 0x18))
      (dispatch rv sel x y n kk nnn e) := by
  unfold dispatch op_sys op_call op_skip op_alu op_key op_draw op_misc
  repeat' first
    | intro _
    | apply ite_prop (timers_kept e (¬ (sel = 0xF000 ∧ kk = 0x15)) (¬ (sel = 0xF000 ∧ kk = 0x18)))
  all_goals first
    | exact timers_kept_of_eq _ _ _ _ rfl rfl rfl
    | exact ⟨fun h => absurd ⟨‹sel = 0xF000›, ‹kk = 0x15›⟩ h, fun _ => rfl, rfl⟩
    | exact ⟨fun _ => rfl, fun h => absurd ⟨‹sel = 0xF000›, ‹kk = 0x18›⟩ h, rfl⟩
    | (rw [draw_rows_frame]; exact timers_kept_of_eq _ _ _ _ rfl rfl rfl)
    | (simp only; rw [draw_rows_frame]; exact timers_kept_of_eq _ _ _ _ rfl rfl rfl)
    | (rw [reg_dump_range]; exact timers_kept_of_eq _ _ _ _ rfl rfl rfl)
    | (rw [reg_load_range]; exact timers_kept_of_eq _ _ _ _ rfl rfl rfl)
    | (split <;> exact timers_kept_of_eq _ _ _ _ rfl rfl rfl)
    | (simp only; split <;> exact timers_kept_of_eq _ _ _ _ rfl rfl rfl)

theorem cycle_timers (rv : Nat) (e : emulator) :
    timers_kept e (¬ executes_Fx15 e) (¬ executes_Fx18 e) (emulator_cycle rv e) := by
  unfold emulator_cycle
  split
  · exact timers_kept_of_eq _ _ _ _ rfl rfl rfl
  · rename_i hpc
    have h := dispatch_timers rv (fetch e &&& 0xF000) ((fetch e >>> 8) &&& 0x000F)
      ((fetch e >>> 4) &&& 0x000F) (fetch e &&& 0x000F) (fetch e &&& 0x00FF)
      (fetch e &&& 0x0FFF) e
    have hlt : e._pc < MEMORY_SIZE - 1 := Nat.lt_of_not_ge hpc
    exact ⟨fun hk => h.1 (fun hh => hk ⟨hlt, hh.1, hh.2⟩),
      fun hk => h.2.1 (fun hh => hk ⟨hlt, hh.1, hh.2⟩), h.2.2⟩

theorem tick_step_timers (rv : Nat) (e : emulator) :
    (¬ executes_Fx15 e → (tick_step rv e)._delay_timer = e._delay_timer) ∧
    (¬ executes_Fx18 e → (tick_step rv e)._sound_timer = e._sound_timer) ∧
    (tick_step rv e).cycles_per_frame = e.cycles_per_frame := by
  have h := cycle_timers rv e
  unfold tick_step
  simp only
  split
  · exact h
  · exact h

theorem run_cycles_delay (rs : Nat → Nat) (count i : Nat) (e : emulator)
    (h : ∀ k, k < count → ¬ executes_Fx15 (run_cycles rs k i e)) :
    (run_cycles rs count i e)._delay_timer = e._delay_timer := by
  induction count generalizing i e with
  | zero => rfl
  | succ m ih =>
    unfold run_cycles
    rw [ih (i + 1) (tick_step (rs i) e) (fun k hk => by
      have := h (k + 1) (by omega)
      unfold run_cycles at this
      exact this)]
    exact (tick_step_timers (rs i) e).1 (h 0 (by omega))

theorem run_cycles_sound (rs : Nat → Nat) (count i : Nat) (e : emulator)
    (h : ∀ k, k < count → ¬ executes_Fx18 (run_cycles rs k i e)) :
    (run_cycles rs count i e)._sound_timer = e._sound_timer := by
  induction count generalizing i e with
  | zero => rfl
  | succ m ih =>
    unfold run_cycles
    rw [ih (i + 1) (tick_step (rs i) e) (fun k hk => by
      have := h (k + 1) (by omega)
      unfold run_cycles at this
      exact this)]
    exact (tick_step_timers (rs i) e).2.1 (h 0 (by omega))


/-- With all-zero memory a loop iteration changes nothing but `_pc`: the word
`0000` is ignored, and a `_pc` at the end of memory is forced forward. -/
theorem tick_step_zero_memory (rv : Nat) (e : emulator)
    (hz : ∀ j, j < MEMORY_SIZE → e._memory j = 0) :
    tick_step rv e = e ∨ tick_step rv e = { e with _pc := u16 (e._pc + 2) } := by
  unfold tick_step emulator_cycle
  by_cases hpc : e._pc ≥ MEMORY_SIZE - 1
  · right
    rw [if_pos hpc]
    rfl
  · left
    rw [if_neg hpc]
    have h0 : e._memory e._pc = 0 := hz _ (by simp only [MEMORY_SIZE] at hpc ⊢; omega)
    have h1 : e._memory (e._pc + 1) = 0 := hz _ (by simp only [MEMORY_SIZE] at hpc ⊢; omega)
    have hf : fetch e = 0 := by
      unfold fetch
      rw [h0, h1]
      rfl
    rw [hf]
    rfl

theorem run_cycles_zero_memory (rs : Nat → Nat) (count i : Nat) (e : emulator)
    (hz : ∀ j, j < MEMORY_SIZE → e._memory j = 0) :
    (run_cycles rs count i e)._memory = e._memory ∧
    (run_cycles rs count i e)._delay_timer = e._delay_timer ∧
    (run_cycles rs count i e)._sound_timer = e._sound_timer := by
  induction count generalizing i e with
  | zero => exact ⟨rfl, rfl, rfl⟩
  | succ m ih =>
    unfold run_cycles
    rcases tick_step_zero_memory (rs i) e hz with h | h
    · rw [h]
      exact ih (i + 1) e hz
    · rw [h]
      exact ih (i + 1) { e with _pc := u16 (e._pc + 2) } hz

theorem tick_zero_memory (rs : Nat → Nat) (e : emulator)
    (hz : ∀ j, j < MEMORY_SIZE → e._memory j = 0) :
    (emulator_tick rs e)._memory = e._memory ∧
    (emulator_tick rs e)._delay_timer = e._delay_timer - 1 ∧
    (emulator_tick rs e)._sound_timer = e._sound_timer - 1 := by
  have h := run_cycles_zero_memory rs e.cycles_per_frame 0 { e with draw_flag := false } hz
  unfold emulator_tick frame_cycles
  simp only
  split <;> split <;> simp only [h.1, h.2.1, h.2.2] <;> simp_all <;> omega

/-- C8. Timer floor: with `_sp <= 11`, `emulator_tick` (harness mode) leaves each
of the delay timer and the sound timer equal to `t - 1` if `t > 0` and to 0 if
`t = 0`, where `t` is the value of that timer after the `cycles_per_frame` cycles
of the frame; `t` is the value before the tick when no `Fx15` (`Fx18` for the
sound timer) executes in the frame.  A timer at 0 stays at 0: with all-zero
memory and both timers at 2, three successive ticks give 1, then 0, then 0. -/
theorem timer_floor (rs rs' rs'' : Nat → Nat) (s : emulator) (_hsp : s._sp ≤ 11) :
    ((emulator_tick rs s)._delay_timer =
        (if (frame_cycles rs { s with draw_flag := false })._delay_timer > 0
          then (frame_cycles rs { s with draw_flag := false })._delay_timer - 1 else 0) ∧
      (emulator_tick rs s)._sound_timer =
        (if (frame_cycles rs { s with draw_flag := false })._sound_timer > 0
          then (frame_cycles rs { s with draw_flag := false })._sound_timer - 1 else 0)) ∧
    ((∀ k, k < s.cycles_per_frame →
        ¬ executes_Fx15 (run_cycles rs k 0 { s with draw_flag := false })) →
      (frame_cycles rs { s with draw_flag := false })._delay_timer = s._delay_timer) ∧
    ((∀ k, k < s.cycles_per_frame →
        ¬ executes_Fx18 (run_cycles rs k 0 { s with draw_flag := false })) →
      (frame_cycles rs { s with draw_flag := false })._sound_timer = s._sound_timer) ∧
    ((∀ j, j < MEMORY_SIZE → s._memory j = 0) → s._delay_timer = 2 → s._sound_timer = 2 →
      (emulator_tick rs s)._delay_timer = 1 ∧
      (emulator_tick rs s)._sound_timer = 1 ∧
      (emulator_tick rs' (emulator_tick rs s))._delay_timer = 0 ∧
      (emulator_tick rs' (emulator_tick rs s))._sound_timer = 0 ∧
      (emulator_tick rs'' (emulator_tick rs' (emulator_tick rs s)))._delay_timer = 0 ∧
      (emulator_tick rs'' (emulator_tick rs' (emulator_tick rs s)))._sound_timer = 0) := by
  refine ⟨?_, ?_, ?_, ?_⟩
  · unfold emulator_tick
    simp only
    constructor
    · split <;> split <;> simp_all
    · split <;> split <;> simp_all
  · intro h
    exact run_cycles_delay rs s.cycles_per_frame 0 { s with draw_flag := false } h
  · intro h
    exact run_cycles_sound rs s.cycles_per_frame 0 { s with draw_flag := false } h
  · intro hz hd hs
    have h1 := tick_zero_memory rs s hz
    have hz1 : ∀ j, j < MEMORY_SIZE → (emulator_tick rs s)._memory j = 0 := by
      intro j hj
      rw [h1.1]
      exact hz j hj
    have h2 := tick_zero_memory rs' (emulator_tick rs s) hz1
    have hz2 : ∀ j, j < MEMORY_SIZE →
        (emulator_tick rs' (emulator_tick rs s))._memory j = 0 := by
      intro j hj
      rw [h2.1]
      exact hz1 j hj
    have h3 := tick_zero_memory rs'' (emulator_tick rs' (emulator_tick rs s)) hz2
    rw [h3.2.1, h3.2.2, h2.2.1, h2.2.2, h1.2.1, h1.2.2, hd, hs]
    exact ⟨rfl, rfl, rfl, rfl, rfl, rfl⟩

theorem timer_floor_witness :
    (emulator_tick (fun _ => 0) { test_state with _delay_timer := 2, _sound_timer := 2 }
      )._delay_timer = 1 ∧
    (emulator_tick (fun _ => 0) (emulator_tick (fun _ => 0) (emulator_tick (fun _ => 0)
      { test_state with _delay_timer := 2, _sound_timer := 2 })))._sound_timer = 0 :=
  have h := (timer_floor (fun _ => 0) (fun _ => 0) (fun _ => 0)
    { test_state with _delay_timer := 2, _sound_timer := 2 } (by decide)).2.2.2
    (fun _ _ => rfl) rfl rfl
  ⟨h.1, h.2.2.2.2.2⟩


/-! ## C1: drawing a sprite -/

theorem mask_eq (c : Nat) (hc : c < 8) : 0x80 >>> c = 2 ^ (7 - c) := by
  interval_cases c <;> rfl

theorem and_mask_eq_zero (a i : Nat) : a &&& 2 ^ i = 0 ↔ a.testBit i = false := by
  rw [Nat.and_two_pow]
  cases a.testBit i <;> simp

theorem draw_pixel_screen_eq (sprite x0 y col : Nat) (e : emulator) :
    (draw_pixel sprite x0 y col e).screen =
      if sprite &&& (0x80 >>> col) = 0 then e.screen
      else store e.screen (u8 (y * (EMULATOR_WIDTH / 8) + (x0 + col) % EMULATOR_WIDTH / 8))
        (e.screen (u8 (y * (EMULATOR_WIDTH / 8) + (x0 + col) % EMULATOR_WIDTH / 8)) ^^^
          (0x80 >>> ((x0 + col) % EMULATOR_WIDTH % 8))) := by
  unfold draw_pixel
  split
  · rfl
  · simp only
    split <;> rfl

theorem draw_pixel_v_eq (sprite x0 y col : Nat) (e : emulator) :
    (draw_pixel sprite x0 y col e)._v =
      if sprite &&& (0x80 >>> col) = 0 then e._v
      else if e.screen (u8 (y * (EMULATOR_WIDTH / 8) + (x0 + col) % EMULATOR_WIDTH / 8)) &&&
          (0x80 >>> ((x0 + col) % EMULATOR_WIDTH % 8)) ≠ 0
        then store e._v 0xF 1 else e._v := by
  unfold draw_pixel
  split
  · rfl
  · simp only
    split <;> rfl

/-- One column of one sprite row flips exactly the pixel `((x0 + col) mod 64, y)`,
and only when the bit `7 - col` of the sprite row is set. -/
theorem draw_pixel_pixel (sprite x0 y col : Nat) (e : emulator) (hy : y < 32) (hcol : col < 8)
    (px py : Nat) (hpx : px < 64) :
    pixel (draw_pixel sprite x0 y col e).screen px py =
      xor (pixel e.screen px py)
        (sprite.testBit (7 - col) && decide (px = (x0 + col) % 64) && decide (py = y)) := by
  rw [draw_pixel_screen_eq, mask_eq col hcol, mask_eq ((x0 + col) % EMULATOR_WIDTH % 8) (by omega)]
  have hb : u8 (y * (EMULATOR_WIDTH / 8) + (x0 + col) % EMULATOR_WIDTH / 8)
      = y * 8 + (x0 + col) % 64 / 8 := by
    unfold u8
    simp only [EMULATOR_WIDTH]
    omega
  rw [hb]
  by_cases hbit : sprite.testBit (7 - col) = true
  · rw [if_neg (by rw [and_mask_eq_zero]; simp [hbit])]
    unfold pixel store
    by_cases hbyte : py * 8 + px / 8 = y * 8 + (x0 + col) % 64 / 8
    · rw [if_pos hbyte, Nat.testBit_xor, Nat.testBit_two_pow, hbyte, hbit]
      have hyy : py = y := by omega
      by_cases hxx : px = (x0 + col) % 64
      · simp [hxx, hyy]
      · have : ¬ (7 - (x0 + col) % EMULATOR_WIDTH % 8 = 7 - px % 8) := by
          simp only [EMULATOR_WIDTH]
          omega
        simp [hxx, this]
    · rw [if_neg hbyte]
      have : ¬ (px = (x0 + col) % 64 ∧ py = y) := by
        rintro ⟨h1, h2⟩
        exact hbyte (by rw [h1, h2])
      by_cases hxx : px = (x0 + col) % 64
      · have hyy : ¬ py = y := fun h => this ⟨hxx, h⟩
        simp [hyy]
      · simp [hxx]
  · have hbit' : sprite.testBit (7 - col) = false := by simpa using hbit
    rw [if_pos (by rw [and_mask_eq_zero]; exact hbit'), hbit']
    simp


/-- One column sets `VF` to 1 exactly when the bit of the sprite row is set and the
pixel it lands on is lit; the other registers are kept. -/
theorem draw_pixel_v (sprite x0 y col : Nat) (e : emulator) (hy : y < 32) (hcol : col < 8) :
    (draw_pixel sprite x0 y col e)._v =
      if sprite.testBit (7 - col) = true ∧ pixel e.screen ((x0 + col) % 64) y = true
        then store e._v 0xF 1 else e._v := by
  rw [draw_pixel_v_eq, mask_eq col hcol, mask_eq ((x0 + col) % EMULATOR_WIDTH % 8) (by omega)]
  have hb : u8 (y * (EMULATOR_WIDTH / 8) + (x0 + col) % EMULATOR_WIDTH / 8)
      = y * 8 + (x0 + col) % 64 / 8 := by
    unfold u8
    simp only [EMULATOR_WIDTH]
    omega
  rw [hb]
  unfold pixel
  by_cases hbit : sprite.testBit (7 - col) = true
  · rw [if_neg (by rw [and_mask_eq_zero]; simp [hbit])]
    by_cases hp : (e.screen (y * 8 + (x0 + col) % 64 / 8)).testBit (7 - (x0 + col) % 64 % 8) = true
    · rw [if_pos (by rw [Ne, and_mask_eq_zero]; simp [hp]), if_pos ⟨hbit, hp⟩]
    · rw [if_neg (by rw [Ne, and_mask_eq_zero]; simpa using hp), if_neg (fun h => hp h.2)]
  · rw [if_pos (by rw [and_mask_eq_zero]; simpa using hbit), if_neg (fun h => hbit h.1)]

theorem draw_cols_prefix (sprite x0 y : Nat) (e : emulator) (hx0 : x0 < 64) (hy : y < 32)
    (k : Nat) (hk : k ≤ 8) :
    (∀ px py, px < 64 →
      pixel ((List.range k).foldl (fun acc col => draw_pixel sprite x0 y col acc) e).screen px py
        = xor (pixel e.screen px py) (decide (py = y) && row_bit sprite x0 k px)) ∧
    (∀ j, j ≠ 0xF →
      ((List.range k).foldl (fun acc col => draw_pixel sprite x0 y col acc) e)._v j = e._v j) ∧
    ((row_collision e.screen sprite x0 y k ∧
        ((List.range k).foldl (fun acc col => draw_pixel sprite x0 y col acc) e)._v 0xF = 1) ∨
      (¬ row_collision e.screen sprite x0 y k ∧
        ((List.range k).foldl (fun acc col => draw_pixel sprite x0 y col acc) e)._v 0xF
          = e._v 0xF)) := by
  induction k with
  | zero =>
    refine ⟨fun px py _ => ?_, fun j _ => rfl, Or.inr ⟨?_, rfl⟩⟩
    · simp [row_bit]
    · rintro ⟨px, _, h, _⟩
      simp [row_bit] at h
  | succ m ih =>
    obtain ⟨ihs, ihv, ihc⟩ := ih (by omega)
    rw [List.range_succ, List.foldl_append]
    simp only [List.foldl_cons, List.foldl_nil]
    generalize (List.range m).foldl (fun acc col => draw_pixel sprite x0 y col acc) e = e1
      at ihs ihv ihc ⊢
    have hxm : ((x0 + m) % 64 + 64 - x0) % 64 = m := by omega
    have hold : pixel e1.screen ((x0 + m) % 64) y = pixel e.screen ((x0 + m) % 64) y := by
      rw [ihs _ _ (by omega)]
      simp [row_bit, hxm]
    refine ⟨fun px py hpx => ?_, fun j hj => ?_, ?_⟩
    · rw [draw_pixel_pixel sprite x0 y m e1 hy (by omega) px py hpx, ihs px py hpx]
      unfold row_bit
      by_cases hc : (px + 64 - x0) % 64 = m
      · have hpxm : px = (x0 + m) % 64 := by omega
        have h1 : ¬ ((px + 64 - x0) % 64 < m) := by omega
        have h2 : (px + 64 - x0) % 64 < m + 1 := by omega
        simp only [h1, h2, hc, decide_True, decide_False, Bool.false_and, Bool.true_and,
          Bool.and_false, Bool.xor_false]
        rw [← hpxm]
        by_cases hyy : py = y <;> simp [hyy]
      · have hpxm : ¬ px = (x0 + m) % 64 := by omega
        have h2 : ((px + 64 - x0) % 64 < m + 1) ↔ ((px + 64 - x0) % 64 < m) := by omega
        simp [hpxm, h2]
    · rw [draw_pixel_v sprite x0 y m e1 hy (by omega)]
      split
      · unfold store
        rw [if_neg hj]
        exact ihv j hj
      · exact ihv j hj
    · rw [draw_pixel_v sprite x0 y m e1 hy (by omega), hold]
      have hstep : row_collision e.screen sprite x0 y (m + 1) ↔
          (row_collision e.screen sprite x0 y m ∨
            (sprite.testBit (7 - m) = true ∧ pixel e.screen ((x0 + m) % 64) y = true)) := by
        unfold row_collision row_bit
        constructor
        · rintro ⟨px, hpx, hb, hp⟩
          simp only [Bool.and_eq_true, decide_eq_true_eq] at hb
          by_cases hc : (px + 64 - x0) % 64 = m
          · right
            have hpxm : px = (x0 + m) % 64 := by omega
            rw [hc] at hb
            rw [← hpxm]
            exact ⟨hb.2, hp⟩
          · left
            refine ⟨px, hpx, ?_, hp⟩
            simp only [Bool.and_eq_true, decide_eq_true_eq]
            exact ⟨by omega, hb.2⟩
        · rintro (⟨px, hpx, hb, hp⟩ | ⟨hb, hp⟩)
          · simp only [Bool.and_eq_true, decide_eq_true_eq] at hb
            refine ⟨px, hpx, ?_, hp⟩
            simp only [Bool.and_eq_true, decide_eq_true_eq]
            exact ⟨by omega, hb.2⟩
          · refine ⟨(x0 + m) % 64, by omega, ?_, hp⟩
            simp only [Bool.and_eq_true, decide_eq_true_eq, hxm]
            exact ⟨by omega, hb⟩
      by_cases hnew : sprite.testBit (7 - m) = true ∧ pixel e.screen ((x0 + m) % 64) y = true
      · rw [if_pos hnew]
        left
        exact ⟨hstep.2 (Or.inr hnew), by simp [store]⟩
      · rw [if_neg hnew]
        rcases ihc with ⟨hc, hv⟩ | ⟨hc, hv⟩
        · left
          exact ⟨hstep.2 (Or.inl hc), hv⟩
        · right
          refine ⟨fun h => ?_, hv⟩
          rcases hstep.1 h with h' | h'
          · exact hc h'
          · exact hnew h'

theorem draw_rows_in_bounds (x0 y0 : Nat) (rows : List Nat) (e : emulator)
    (h : ∀ r, r ∈ rows → e._i + r < MEMORY_SIZE) :
    draw_rows x0 y0 rows e = (0, rows.foldl (draw_row x0 y0) e) := by
  induction rows generalizing e with
  | nil => rfl
  | cons r rs ih =>
    unfold draw_rows
    rw [if_neg (by have := h r (List.mem_cons_self r rs); omega)]
    simp only [List.foldl_cons]
    have hi : (draw_row x0 y0 e r)._i = e._i := by
      unfold draw_row
      simp only
      rw [draw_cols_frame]
    rw [ih _ (fun r' hr' => by rw [hi]; exact h r' (List.mem_cons_of_mem r hr'))]

theorem draw_rows_prefix (x0 y0 : Nat) (e : emulator) (hx0 : x0 < 64) (hy0 : y0 < 32)
    (k : Nat) (hk : k < 32) :
    (((List.range k).foldl (draw_row x0 y0) e)._memory = e._memory ∧
      ((List.range k).foldl (draw_row x0 y0) e)._i = e._i) ∧
    (∀ px py, px < 64 → py < 32 →
      pixel ((List.range k).foldl (draw_row x0 y0) e).screen px py
        = xor (pixel e.screen px py) (sprite_bit e x0 y0 k px py)) ∧
    (∀ j, j ≠ 0xF → ((List.range k).foldl (draw_row x0 y0) e)._v j = e._v j) ∧
    ((collision e x0 y0 k ∧ ((List.range k).foldl (draw_row x0 y0) e)._v 0xF = 1) ∨
      (¬ collision e x0 y0 k ∧
        ((List.range k).foldl (draw_row x0 y0) e)._v 0xF = e._v 0xF)) := by
  induction k with
  | zero =>
    refine ⟨⟨rfl, rfl⟩, fun px py _ _ => ?_, fun j _ => rfl, Or.inr ⟨?_, rfl⟩⟩
    · simp [sprite_bit]
    · rintro ⟨px, _, py, _, _, h⟩
      simp [sprite_bit] at h
  | succ m ih =>
    obtain ⟨⟨ihm, ihi⟩, ihs, ihv, ihc⟩ := ih (by omega)
    rw [List.range_succ, List.foldl_append]
    simp only [List.foldl_cons, List.foldl_nil]
    generalize (List.range m).foldl (draw_row x0 y0) e = e1 at ihm ihi ihs ihv ihc ⊢
    unfold draw_row
    rw [ihm, ihi]
    have hym : (y0 + m) % EMULATOR_HEIGHT < 32 := by simp only [EMULATOR_HEIGHT]; omega
    obtain ⟨cs, cv, cc⟩ := draw_cols_prefix (e._memory (e._i + m)) x0
      ((y0 + m) % EMULATOR_HEIGHT) e1 hx0 hym 8 (Nat.le_refl 8)
    have hfr := draw_cols_frame (e._memory (e._i + m)) x0 ((y0 + m) % EMULATOR_HEIGHT) e1
    unfold draw_cols at hfr ⊢
    generalize (List.range 8).foldl
      (fun acc col => draw_pixel (e._memory (e._i + m)) x0 ((y0 + m) % EMULATOR_HEIGHT) col acc) e1
      = e2 at cs cv cc hfr ⊢
    have hrm : ((y0 + m) % EMULATOR_HEIGHT + 32 - y0) % 32 = m := by
      simp only [EMULATOR_HEIGHT]; omega
    have hrow (py : Nat) (hpy : py < 32) :
        (py = (y0 + m) % EMULATOR_HEIGHT) ↔ (py + 32 - y0) % 32 = m := by
      simp only [EMULATOR_HEIGHT]; omega
    have hold (px : Nat) (hpx : px < 64) :
        pixel e1.screen px ((y0 + m) % EMULATOR_HEIGHT)
          = pixel e.screen px ((y0 + m) % EMULATOR_HEIGHT) := by
      rw [ihs px _ hpx hym]
      simp [sprite_bit, hrm]
    have hcoll : row_collision e1.screen (e._memory (e._i + m)) x0 ((y0 + m) % EMULATOR_HEIGHT) 8
        ↔ row_collision e.screen (e._memory (e._i + m)) x0 ((y0 + m) % EMULATOR_HEIGHT) 8 := by
      unfold row_collision
      constructor
      · rintro ⟨px, hpx, hb, hp⟩
        exact ⟨px, hpx, hb, by rw [← hold px hpx]; exact hp⟩
      · rintro ⟨px, hpx, hb, hp⟩
        exact ⟨px, hpx, hb, by rw [hold px hpx]; exact hp⟩
    rw [hcoll] at cc
    have hstep : collision e x0 y0 (m + 1) ↔
        (collision e x0 y0 m ∨
          row_collision e.screen (e._memory (e._i + m)) x0 ((y0 + m) % EMULATOR_HEIGHT) 8) := by
      unfold collision row_collision sprite_bit row_bit
      constructor
      · rintro ⟨px, hpx, py, hpy, hp, hb⟩
        simp only [Bool.and_eq_true, decide_eq_true_eq] at hb
        by_cases hr : (py + 32 - y0) % 32 = m
        · right
          have hpym := (hrow py hpy).2 hr
          rw [hr] at hb
          refine ⟨px, hpx, ?_, by rw [← hpym]; exact hp⟩
          simp only [Bool.and_eq_true, decide_eq_true_eq]
          exact ⟨hb.1.2, hb.2⟩
        · left
          refine ⟨px, hpx, py, hpy, hp, ?_⟩
          simp only [Bool.and_eq_true, decide_eq_true_eq]
          exact ⟨⟨by omega, hb.1.2⟩, hb.2⟩
      · rintro (⟨px, hpx, py, hpy, hp, hb⟩ | ⟨px, hpx, hb, hp⟩)
        · simp only [Bool.and_eq_true, decide_eq_true_eq] at hb
          refine ⟨px, hpx, py, hpy, hp, ?_⟩
          simp only [Bool.and_eq_true, decide_eq_true_eq]
          exact ⟨⟨by omega, hb.1.2⟩, hb.2⟩
        · simp only [Bool.and_eq_true, decide_eq_true_eq] at hb
          refine ⟨px, hpx, (y0 + m) % EMULATOR_HEIGHT, hym, hp, ?_⟩
          simp only [Bool.and_eq_true, decide_eq_true_eq, hrm]
          exact ⟨⟨by omega, hb.1⟩, hb.2⟩
    refine ⟨⟨by rw [hfr]; exact ihm, by rw [hfr]; exact ihi⟩, fun px py hpx hpy => ?_,
      fun j hj => by rw [cv j hj]; exact ihv j hj, ?_⟩
    · rw [cs px py hpx, ihs px py hpx hpy]
      unfold sprite_bit row_bit
      by_cases hr : (py + 32 - y0) % 32 = m
      · have hpym := (hrow py hpy).2 hr
        have h1 : ¬ ((py + 32 - y0) % 32 < m) := by omega
        have h2 : (py + 32 - y0) % 32 < m + 1 := by omega
        have hd : decide (py = (y0 + m) % EMULATOR_HEIGHT) = true := decide_eq_true hpym
        simp [h1, h2, hr, hd]
      · have hpym : ¬ py = (y0 + m) % EMULATOR_HEIGHT := fun h => hr ((hrow py hpy).1 h)
        have h2 : ((py + 32 - y0) % 32 < m + 1) ↔ ((py + 32 - y0) % 32 < m) := by omega
        simp [hpym, h2]
    · rcases cc with ⟨hc, hv⟩ | ⟨hc, hv⟩
      · left
        exact ⟨hstep.2 (Or.inr hc), hv⟩
      · rcases ihc with ⟨hc', hv'⟩ | ⟨hc', hv'⟩
        · left
          exact ⟨hstep.2 (Or.inl hc'), by rw [hv, hv']⟩
        · right
          refine ⟨fun h => ?_, by rw [hv, hv']⟩
          rcases hstep.1 h with h' | h'
          · exact hc' h'
          · exact hc h'


theorem draw_step (rv : Nat) (s : emulator) (x y n : Nat) (hx : x < 16) (hy : y < 16)
    (hn : n < 16) (hpc : s._pc ≤ 4094) (hop : fetch s = 0xD000 + 0x100 * x + 0x10 * y + n)
    (hI : n = 0 ∨ s._i + n ≤ 4096) :
    emulator_cycle rv s =
      (0, { s with
        screen := ((List.range n).foldl (draw_row (s._v x % 64) (s._v y % 32))
          { s with _v := store s._v 0xF 0 }).screen,
        _v := ((List.range n).foldl (draw_row (s._v x % 64) (s._v y % 32))
          { s with _v := store s._v 0xF 0 })._v,
        draw_flag := true, _pc := s._pc + 2 }) := by
  rw [cycle_eq rv s hpc, hop, execute_draw rv x y n s hx hy hn]
  have hb : ∀ r, r ∈ List.range n →
      ({ s with _v := store s._v 0xF 0 } : emulator)._i + r < MEMORY_SIZE := by
    intro r hr
    rw [List.mem_range] at hr
    simp only [MEMORY_SIZE]
    omega
  have hrows := draw_rows_in_bounds (s._v x % 64) (s._v y % 32) (List.range n)
    { s with _v := store s._v 0xF 0 } hb
  have hfr := draw_rows_frame (s._v x % 64) (s._v y % 32) (List.range n)
    { s with _v := store s._v 0xF 0 }
  rw [hrows] at hfr
  have h1 : u16 (s._pc + 2) = s._pc + 2 := by unfold u16; omega
  unfold op_draw
  simp only [EMULATOR_WIDTH, EMULATOR_HEIGHT]
  rw [hrows, if_neg (by simp)]
  simp only at hfr ⊢
  rw [hfr]
  simp only [h1]

/-- C1. Draw sprite (`Dxyn`), success case: with `_sp <= 11`, `_pc <= 4094`, the
word `Dxyn` at `_pc` and `n = 0` or `_i + n <= 4096`, `emulator_cycle` returns 0
and, with `x0 = V[x] mod 64` and `y0 = V[y] mod 32` taken before the step, every
pixel `(px, py)` of the 64 x 32 screen becomes its old value XOR `s(px, py)`
(`sprite_bit`); `V[0xF]` becomes 1 if some pixel had both its old value and
`s` set and 0 otherwise; `draw_flag` becomes true and `_pc` becomes `_pc + 2`. -/
theorem draw_sprite (rv : Nat) (s : emulator) (x y n : Nat) (hx : x < 16) (hy : y < 16)
    (hn : n < 16) (_hsp : s._sp ≤ 11) (hpc : s._pc ≤ 4094)
    (hop : fetch s = 0xD000 + 0x100 * x + 0x10 * y + n)
    (hI : n = 0 ∨ s._i + n ≤ 4096) :
    (emulator_cycle rv s).1 = 0 ∧
    (∀ px py, px < 64 → py < 32 →
      pixel (emulator_cycle rv s).2.screen px py =
        xor (pixel s.screen px py) (sprite_bit s (s._v x % 64) (s._v y % 32) n px py)) ∧
    (emulator_cycle rv s).2._v 0xF =
      (if collision s (s._v x % 64) (s._v y % 32) n then 1 else 0) ∧
    (emulator_cycle rv s).2.draw_flag = true ∧
    (emulator_cycle rv s).2._pc = s._pc + 2 := by
  rw [draw_step rv s x y n hx hy hn hpc hop hI]
  obtain ⟨_, hs, _, hc⟩ := draw_rows_prefix (s._v x % 64) (s._v y % 32)
    { s with _v := store s._v 0xF 0 } (by omega) (by omega) n (by omega)
  refine ⟨rfl, fun px py hpx hpy => hs px py hpx hpy, ?_, rfl, rfl⟩
  rcases hc with ⟨hc', hv⟩ | ⟨hc', hv⟩
  · have h : collision s (s._v x % 64) (s._v y % 32) n := hc'
    rw [if_pos h]
    exact hv
  · have h : ¬ collision s (s._v x % 64) (s._v y % 32) n := hc'
    rw [if_neg h]
    simp only at hv ⊢
    rw [hv]
    simp [store]

theorem draw_sprite_witness :
    (emulator_cycle 0 draw_state).1 = 0 ∧
    pixel (emulator_cycle 0 draw_state).2.screen 0 0 = false ∧
    (emulator_cycle 0 draw_state).2._v 0xF = 1 ∧
    (emulator_cycle 0 draw_state).2.draw_flag = true ∧
    (emulator_cycle 0 draw_state).2._pc = 0x202 :=
  have h := draw_sprite 0 draw_state 0 1 1 (by decide) (by decide) (by decide) (by decide)
    (by decide) (by decide) (by decide)
  ⟨h.1, h.2.1 0 0 (by decide) (by decide),
    h.2.2.1.trans (if_pos ⟨0, by decide, 0, by decide, by decide, by decide⟩),
    h.2.2.2.1, h.2.2.2.2⟩

/-! ## Decoding of any instruction word -/

/-- The fields of the word with nibbles `h x y n`. -/
theorem execute_nibbles (rv h x y n : Nat) (e : emulator) (hh : h < 16) (hx : x < 16)
    (hy : y < 16) (hn : n < 16) :
    execute rv (0x1000 * h + 0x100 * x + 0x10 * y + n) e =
      dispatch rv (0x1000 * h) x y n (0x10 * y + n) (0x100 * x + 0x10 * y + n) e := by
  have h1 : (0x1000 * h + 0x100 * x + 0x10 * y + n) / 4096 % 16 * 4096 = 0x1000 * h := by omega
  have h2 : (0x1000 * h + 0x100 * x + 0x10 * y + n) / 256 % 16 = x := by omega
  have h3 : (0x1000 * h + 0x100 * x + 0x10 * y + n) / 16 % 16 = y := by omega
  have h4 : (0x1000 * h + 0x100 * x + 0x10 * y + n) % 16 = n := by omega
  have h5 : (0x1000 * h + 0x100 * x + 0x10 * y + n) % 256 = 0x10 * y + n := by omega
  have h6 : (0x1000 * h + 0x100 * x + 0x10 * y + n) % 4096 = 0x100 * x + 0x10 * y + n := by
    omega
  simp only [execute, and_F000, and_000F, and_00FF, and_0FFF, shr_8, shr_4, h1, h2, h3, h4,
    h5, h6]

/-- The fields of the word with high nibble `h`, register `x` and low byte `kk`. -/
theorem execute_xkk (rv h x kk : Nat) (e : emulator) (hh : h < 16) (hx : x < 16)
    (hk : kk < 256) :
    execute rv (0x1000 * h + 0x100 * x + kk) e =
      dispatch rv (0x1000 * h) x (kk / 16) (kk % 16) kk (0x100 * x + kk) e := by
  have hd := execute_nibbles rv h x (kk / 16) (kk % 16) e hh hx (by omega) (by omega)
  have e1 : 0x1000 * h + 0x100 * x + 0x10 * (kk / 16) + kk % 16 = 0x1000 * h + 0x100 * x + kk := by
    omega
  have e2 : 0x10 * (kk / 16) + kk % 16 = kk := by omega
  have e3 : 0x100 * x + 0x10 * (kk / 16) + kk % 16 = 0x100 * x + kk := by omega
  rw [e1, e3, e2] at hd
  exact hd

theorem u16_pc2 (pc : Nat) (h : pc ≤ 4094) : u16 (pc + 2) = pc + 2 := by
  unfold u16; omega

theorem u16_pc4 (pc : Nat) (h : pc ≤ 4094) : u16 (pc + 2 + 2) = pc + 4 := by
  unfold u16; omega

/-! ## C13, C14: the skips -/

theorem op_skip_eq (c : Bool) (s : emulator) (hpc : s._pc ≤ 4094) :
    op_skip c s = (0, { s with _pc := if c = true then s._pc + 4 else s._pc + 2 }) := by
  unfold op_skip
  cases c
  · simp [u16_pc2 _ hpc]
  · simp [u16_pc2 _ hpc, u16_pc4 _ hpc]

theorem skip_equal_step (rv : Nat) (s : emulator) (x kk : Nat) (hx : x < 16) (hk : kk < 256)
    (hpc : s._pc ≤ 4094) (hop : fetch s = 0x3000 + 0x100 * x + kk) :
    emulator_cycle rv s =
      (0, { s with _pc := if s._v x = kk then s._pc + 4 else s._pc + 2 }) := by
  rw [cycle_eq rv s hpc, hop, execute_xkk rv 3 x kk s (by decide) hx hk]
  simp [dispatch, op_skip_eq _ s hpc]

/-- C13. Skip on immediate (`3xkk`, `4xkk`): with `_pc <= 4094`, `emulator_cycle`
returns 0, changes nothing but `_pc`, and sets `_pc` to `_pc + 4` when the
condition holds (`V[x] = kk` for `3xkk`, `V[x] != kk` for `4xkk`) and to `_pc + 2`
otherwise; the skipped word is not executed: with `V0 = 1`, `3001` at `0x200` and
`3101` at `0x202`, one step lands on `0x204` with nothing else changed. -/
theorem skip_on_immediate (rv : Nat) (s : emulator) (x kk : Nat) (hx : x < 16) (hk : kk < 256)
    (hpc : s._pc ≤ 4094) :
    (fetch s = 0x3000 + 0x100 * x + kk →
      emulator_cycle rv s =
        (0, { s with _pc := if s._v x = kk then s._pc + 4 else s._pc + 2 })) ∧
    (fetch s = 0x4000 + 0x100 * x + kk →
      emulator_cycle rv s =
        (0, { s with _pc := if s._v x ≠ kk then s._pc + 4 else s._pc + 2 })) ∧
    emulator_cycle rv chained_skips_state = (0, { chained_skips_state with _pc := 0x204 }) := by
  refine ⟨fun hop => skip_equal_step rv s x kk hx hk hpc hop, fun hop => ?_, ?_⟩
  · rw [cycle_eq rv s hpc, hop, execute_xkk rv 4 x kk s (by decide) hx hk]
    simp [dispatch, op_skip_eq _ s hpc]
  · exact skip_equal_step rv chained_skips_state 0 1 (by decide) (by decide) (by decide)
      (by decide)

theorem skip_on_immediate_witness :
    (emulator_cycle 0 (load_opcode 0x3244
      { test_state with _v := store test_state._v 2 0x44 })).2._pc = 0x204 ∧
    (emulator_cycle 0 (load_opcode 0x4244 test_state)).2._pc = 0x204 :=
  ⟨congrArg (fun r => r.2._pc)
    ((skip_on_immediate 0 (load_opcode 0x3244
      { test_state with _v := store test_state._v 2 0x44 }) 2 0x44 (by decide) (by decide)
      (by decide)).1 (by decide)),
   congrArg (fun r => r.2._pc)
    ((skip_on_immediate 0 (load_opcode 0x4244 test_state) 2 0x44 (by decide) (by decide)
      (by decide)).2.1 (by decide))⟩

/-- C14. Register-vs-register skip encoding (`5xyn`, `9xyn`): with `_pc <= 4094`,
`emulator_cycle` returns 1, leaving the state unchanged, exactly when the low
nibble `n` is non-zero; for `n = 0` it returns 0, changes only `_pc`, and sets
`_pc` to `_pc + 4` when `V[x] = V[y]` (`5xy0`), respectively `V[x] != V[y]`
(`9xy0`), and to `_pc + 2` otherwise. -/
theorem skip_on_registers (rv : Nat) (s : emulator) (x y n : Nat) (hx : x < 16) (hy : y < 16)
    (hn : n < 16) (hpc : s._pc ≤ 4094) :
    (fetch s = 0x5000 + 0x100 * x + 0x10 * y + n →
      ((emulator_cycle rv s).1 = 1 ↔ n ≠ 0) ∧
      (n ≠ 0 → emulator_cycle rv s = (1, s)) ∧
      (n = 0 → emulator_cycle rv s =
        (0, { s with _pc := if s._v x = s._v y then s._pc + 4 else s._pc + 2 }))) ∧
    (fetch s = 0x9000 + 0x100 * x + 0x10 * y + n →
      ((emulator_cycle rv s).1 = 1 ↔ n ≠ 0) ∧
      (n ≠ 0 → emulator_cycle rv s = (1, s)) ∧
      (n = 0 → emulator_cycle rv s =
        (0, { s with _pc := if s._v x ≠ s._v y then s._pc + 4 else s._pc + 2 }))) := by
  refine ⟨fun hop => ?_, fun hop => ?_⟩
  · have h : emulator_cycle rv s =
        if n ≠ 0 then (1, s) else op_skip (s._v x == s._v y) s := by
      rw [cycle_eq rv s hpc, hop, execute_nibbles rv 5 x y n s (by decide) hx hy hn]
      simp [dispatch]
    by_cases h0 : n = 0
    · rw [if_neg (by simpa using h0), op_skip_eq _ s hpc] at h
      rw [h]
      refine ⟨⟨fun h' => absurd h' Nat.zero_ne_one, fun h' => absurd h0 h'⟩,
        fun h' => absurd h0 h', fun _ => ?_⟩
      simp
    · rw [if_pos h0] at h
      rw [h]
      exact ⟨⟨fun _ => h0, fun _ => rfl⟩, fun _ => rfl, fun h' => absurd h' h0⟩
  · have h : emulator_cycle rv s =
        if n ≠ 0 then (1, s) else op_skip (s._v x != s._v y) s := by
      rw [cycle_eq rv s hpc, hop, execute_nibbles rv 9 x y n s (by decide) hx hy hn]
      simp [dispatch]
    by_cases h0 : n = 0
    · rw [if_neg (by simpa using h0), op_skip_eq _ s hpc] at h
      rw [h]
      refine ⟨⟨fun h' => absurd h' Nat.zero_ne_one, fun h' => absurd h0 h'⟩,
        fun h' => absurd h0 h', fun _ => ?_⟩
      simp
    · rw [if_pos h0] at h
      rw [h]
      exact ⟨⟨fun _ => h0, fun _ => rfl⟩, fun _ => rfl, fun h' => absurd h' h0⟩

theorem skip_on_registers_witness :
    emulator_cycle 0 (load_opcode 0x5121 test_state) = (1, load_opcode 0x5121 test_state) ∧
    emulator_cycle 0 (load_opcode 0x5120 test_state) =
      (0, { load_opcode 0x5120 test_state with _pc := 0x204 }) ∧
    emulator_cycle 0 (load_opcode 0x9120 test_state) =
      (0, { load_opcode 0x9120 test_state with _pc := 0x202 }) :=
  ⟨((skip_on_registers 0 (load_opcode 0x5121 test_state) 1 2 1 (by decide) (by decide)
      (by decide) (by decide)).1 (by decide)).2.1 (by decide),
   ((skip_on_registers 0 (load_opcode 0x5120 test_state) 1 2 0 (by decide) (by decide)
      (by decide) (by decide)).1 (by decide)).2.2 rfl,
   ((skip_on_registers 0 (load_opcode 0x9120 test_state) 1 2 0 (by decide) (by decide)
      (by decide) (by decide)).2 (by decide)).2.2 rfl⟩

/-! ## C19: load and add immediate -/

/-- C19. Load / add immediate (`6xkk`, `7xkk`): with `_pc <= 4094`, for every
register `x` and byte `kk`, `emulator_cycle` returns 0 and `_pc` advances by 2;
after `6xkk` `V[x] = kk`, after `7xkk` `V[x] = (old V[x] + kk) mod 256`; every
other register is unchanged (so is `V[0xF]` when `x != 0xF`), and so are `_i`,
memory, stack, timers and framebuffer: the state is the old one but for `V[x]`
and `_pc`. -/
theorem load_add_immediate (rv : Nat) (s : emulator) (x kk : Nat) (hx : x < 16)
    (hk : kk < 256) (hpc : s._pc ≤ 4094) :
    (fetch s = 0x6000 + 0x100 * x + kk →
      emulator_cycle rv s = (0, { s with _v := store s._v x kk, _pc := s._pc + 2 }) ∧
      (emulator_cycle rv s).2._v x = kk ∧
      (∀ j, j ≠ x → (emulator_cycle rv s).2._v j = s._v j)) ∧
    (fetch s = 0x7000 + 0x100 * x + kk →
      emulator_cycle rv s =
        (0, { s with _v := store s._v x ((s._v x + kk) % 256), _pc := s._pc + 2 }) ∧
      (emulator_cycle rv s).2._v x = (s._v x + kk) % 256 ∧
      (∀ j, j ≠ x → (emulator_cycle rv s).2._v j = s._v j)) := by
  refine ⟨fun hop => ?_, fun hop => ?_⟩
  · have h : emulator_cycle rv s = (0, { s with _v := store s._v x kk, _pc := s._pc + 2 }) := by
      rw [cycle_eq rv s hpc, hop, execute_xkk rv 6 x kk s (by decide) hx hk]
      simp [dispatch, u16_pc2 _ hpc]
    rw [h]
    refine ⟨rfl, by simp [store], fun j hj => by simp [store, hj]⟩
  · have h : emulator_cycle rv s =
        (0, { s with _v := store s._v x ((s._v x + kk) % 256), _pc := s._pc + 2 }) := by
      rw [cycle_eq rv s hpc, hop, execute_xkk rv 7 x kk s (by decide) hx hk]
      simp [dispatch, u16_pc2 _ hpc, u8]
    rw [h]
    refine ⟨rfl, by simp [store], fun j hj => by simp [store, hj]⟩

theorem load_add_immediate_witness :
    emulator_cycle 0 (load_opcode 0x6155 test_state) =
      (0, { load_opcode 0x6155 test_state with
        _v := store (load_opcode 0x6155 test_state)._v 1 0x55, _pc := 0x202 }) ∧
    (emulator_cycle 0 (alu_state 0x70FF 2 0 7)).2._v 0 = 1 ∧
    (emulator_cycle 0 (alu_state 0x70FF 2 0 7)).2._v 0xF = 7 :=
  ⟨((load_add_immediate 0 (load_opcode 0x6155 test_state) 1 0x55 (by decide) (by decide)
      (by decide)).1 (by decide)).1,
   ((load_add_immediate 0 (alu_state 0x70FF 2 0 7) 0 0xFF (by decide) (by decide)
      (by decide)).2 (by decide)).2.1,
   ((load_add_immediate 0 (alu_state 0x70FF 2 0 7) 0 0xFF (by decide) (by decide)
      (by decide)).2 (by decide)).2.2 0xF (by decide)⟩

/-! ## C20: words that match no instruction -/

/-- C20. Unknown opcode is a no-op: with `_pc <= 4094`, when the instruction word
matches no instruction case (`0nnn` with low byte other than `E0` and `EE`, `8xyn`
with `n` in `{8, 9, A, B, C, D, F}`, `Exkk` with `kk` other than `9E` and `A1`,
`Fxkk` with `kk` outside `{07, 0A, 15, 18, 1E, 29, 33, 55, 65}`), `emulator_cycle`
leaves the entire state unchanged; `_pc` is not advanced. -/
theorem unknown_opcode_no_op (rv : Nat) (s : emulator) (hpc : s._pc ≤ 4094) :
    (∀ nnn, nnn ≤ 0xFFF → nnn % 256 ≠ 0xE0 → nnn % 256 ≠ 0xEE → fetch s = nnn →
      (emulator_cycle rv s).2 = s) ∧
    (∀ x y n, x < 16 → y < 16 →
      (n = 8 ∨ n = 9 ∨ n = 0xA ∨ n = 0xB ∨ n = 0xC ∨ n = 0xD ∨ n = 0xF) →
      fetch s = 0x8000 + 0x100 * x + 0x10 * y + n → (emulator_cycle rv s).2 = s) ∧
    (∀ x kk, x < 16 → kk < 256 → kk ≠ 0x9E → kk ≠ 0xA1 →
      fetch s = 0xE000 + 0x100 * x + kk → (emulator_cycle rv s).2 = s) ∧
    (∀ x kk, x < 16 → kk < 256 →
      (kk ≠ 0x07 ∧ kk ≠ 0x0A ∧ kk ≠ 0x15 ∧ kk ≠ 0x18 ∧ kk ≠ 0x1E ∧ kk ≠ 0x29 ∧ kk ≠ 0x33 ∧
        kk ≠ 0x55 ∧ kk ≠ 0x65) →
      fetch s = 0xF000 + 0x100 * x + kk → (emulator_cycle rv s).2 = s) := by
  refine ⟨fun nnn hnnn h1 h2 hop => ?_, fun x y n hx hy hn hop => ?_,
    fun x kk hx hk h1 h2 hop => ?_, fun x kk hx hk hkk hop => ?_⟩
  · rw [cycle_eq rv s hpc, hop, execute_sys rv nnn s (by omega)]
    unfold op_sys
    rw [if_neg h1, if_neg h2]
  · rw [cycle_eq rv s hpc, hop, execute_alu rv x y n s hx hy (by omega)]
    unfold op_alu
    rcases hn with h | h | h | h | h | h | h <;> subst h <;> rfl
  · rw [cycle_eq rv s hpc, hop, execute_xkk rv 0xE x kk s (by decide) hx hk]
    simp [dispatch, op_key, h1, h2]
  · obtain ⟨k1, k2, k3, k4, k5, k6, k7, k8, k9⟩ := hkk
    rw [cycle_eq rv s hpc, hop, execute_misc rv x kk s hx hk]
    unfold op_misc
    rw [if_neg k1, if_neg k2, if_neg k3, if_neg k4, if_neg k5, if_neg k6, if_neg k7,
      if_neg k8, if_neg k9]

theorem unknown_opcode_no_op_witness :
    (emulator_cycle 0 (load_opcode 0x0123 test_state)).2 = load_opcode 0x0123 test_state ∧
    (emulator_cycle 0 (load_opcode 0x812F test_state)).2 = load_opcode 0x812F test_state ∧
    (emulator_cycle 0 (load_opcode 0xE100 test_state)).2 = load_opcode 0xE100 test_state ∧
    (emulator_cycle 0 (load_opcode 0xF1FF test_state)).2 = load_opcode 0xF1FF test_state :=
  ⟨(unknown_opcode_no_op 0 (load_opcode 0x0123 test_state) (by decide)).1 0x123 (by decide)
      (by decide) (by decide) (by decide),
   (unknown_opcode_no_op 0 (load_opcode 0x812F test_state) (by decide)).2.1 1 2 0xF
      (by decide) (by decide) (by decide) (by decide),
   (unknown_opcode_no_op 0 (load_opcode 0xE100 test_state) (by decide)).2.2.1 1 0
      (by decide) (by decide) (by decide) (by decide) (by decide),
   (unknown_opcode_no_op 0 (load_opcode 0xF1FF test_state) (by decide)).2.2.2 1 0xFF
      (by decide) (by decide) (by decide) (by decide)⟩

/-! ## C16: the key skips -/

theorem key_mask_test (keys k : Nat) : keys &&& (1 <<< k) ≠ 0 ↔ keys.testBit k = true := by
  rw [Nat.one_shiftLeft, Ne, and_mask_eq_zero]
  cases keys.testBit k <;> simp

/-- C16. Key skips (`Ex9E`, `ExA1`): with `_pc <= 4094`, `emulator_cycle` returns
1, with the state unchanged, exactly when `V[x] >= 16`; otherwise it returns 0,
changes only `_pc`, and sets `_pc` to `_pc + 4` exactly when bit `V[x]` of the
key mask is set (`Ex9E`), respectively clear (`ExA1`), and to `_pc + 2`
otherwise. -/
theorem key_skips (rv : Nat) (s : emulator) (x : Nat) (hx : x < 16) (hpc : s._pc ≤ 4094) :
    (fetch s = 0xE000 + 0x100 * x + 0x9E →
      ((emulator_cycle rv s).1 = 1 ↔ s._v x ≥ 16) ∧
      (s._v x ≥ 16 → emulator_cycle rv s = (1, s)) ∧
      (s._v x < 16 → emulator_cycle rv s =
        (0, { s with
          _pc := if s.keys.testBit (s._v x) = true then s._pc + 4 else s._pc + 2 }))) ∧
    (fetch s = 0xE000 + 0x100 * x + 0xA1 →
      ((emulator_cycle rv s).1 = 1 ↔ s._v x ≥ 16) ∧
      (s._v x ≥ 16 → emulator_cycle rv s = (1, s)) ∧
      (s._v x < 16 → emulator_cycle rv s =
        (0, { s with
          _pc := if s.keys.testBit (s._v x) = false then s._pc + 4 else s._pc + 2 }))) := by
  refine ⟨fun hop => ?_, fun hop => ?_⟩
  · have h : emulator_cycle rv s = op_key x 0x9E s := by
      rw [cycle_eq rv s hpc, hop, execute_xkk rv 0xE x 0x9E s (by decide) hx (by decide)]
      simp [dispatch]
    rw [h]
    unfold op_key
    rw [if_pos rfl]
    by_cases hv : s._v x ≥ 16
    · rw [if_pos hv]
      exact ⟨⟨fun _ => hv, fun _ => rfl⟩, fun _ => rfl, fun h' => absurd hv (by omega)⟩
    · rw [if_neg hv]
      refine ⟨⟨fun h' => absurd h' Nat.zero_ne_one, fun h' => absurd h' hv⟩,
        fun h' => absurd h' hv, fun _ => ?_⟩
      by_cases hb : s.keys.testBit (s._v x) = true
      · simp [(key_mask_test s.keys (s._v x)).2 hb, hb, u16_pc2 _ hpc, u16_pc4 _ hpc]
      · have hb' : ¬ (s.keys &&& (1 <<< s._v x) ≠ 0) := fun h' =>
          hb ((key_mask_test s.keys (s._v x)).1 h')
        simp only [if_neg hb', if_neg hb, u16_pc2 _ hpc]
  · have h : emulator_cycle rv s = op_key x 0xA1 s := by
      rw [cycle_eq rv s hpc, hop, execute_xkk rv 0xE x 0xA1 s (by decide) hx (by decide)]
      simp [dispatch]
    rw [h]
    unfold op_key
    rw [if_neg (by decide), if_pos rfl]
    by_cases hv : s._v x ≥ 16
    · rw [if_pos hv]
      exact ⟨⟨fun _ => hv, fun _ => rfl⟩, fun _ => rfl, fun h' => absurd hv (by omega)⟩
    · rw [if_neg hv]
      refine ⟨⟨fun h' => absurd h' Nat.zero_ne_one, fun h' => absurd h' hv⟩,
        fun h' => absurd h' hv, fun _ => ?_⟩
      by_cases hb : s.keys.testBit (s._v x) = true
      · have hb' : ¬ ¬ (s.keys &&& (1 <<< s._v x) ≠ 0) := fun h' =>
          h' ((key_mask_test s.keys (s._v x)).2 hb)
        have hb2 : ¬ (s.keys.testBit (s._v x) = false) := by simp [hb]
        simp only [if_neg hb', if_neg hb2, u16_pc2 _ hpc]
      · have hb' : ¬ (s.keys &&& (1 <<< s._v x) ≠ 0) := fun h' =>
          hb ((key_mask_test s.keys (s._v x)).1 h')
        have hb2 : s.keys.testBit (s._v x) = false := by simpa using hb
        simp only [if_pos hb', if_pos hb2, u16_pc2 _ hpc, u16_pc4 _ hpc]

theorem key_skips_witness :
    emulator_cycle 0 (key_state 0xE19E 16 0xFFFF) = (1, key_state 0xE19E 16 0xFFFF) ∧
    emulator_cycle 0 (key_state 0xE19E 5 0x20) =
      (0, { key_state 0xE19E 5 0x20 with _pc := 0x204 }) ∧
    emulator_cycle 0 (key_state 0xE1A1 5 0x20) =
      (0, { key_state 0xE1A1 5 0x20 with _pc := 0x202 }) :=
  ⟨((key_skips 0 (key_state 0xE19E 16 0xFFFF) 1 (by decide) (by decide)).1
      (by decide)).2.1 (by decide),
   ((key_skips 0 (key_state 0xE19E 5 0x20) 1 (by decide) (by decide)).1
      (by decide)).2.2 (by decide),
   ((key_skips 0 (key_state 0xE1A1 5 0x20) 1 (by decide) (by decide)).2
      (by decide)).2.2 (by decide)⟩

/-! ## C17: the font pointer -/

/-- C17. Font character pointer (`Fx29`): with `_pc <= 4094`, `emulator_cycle`
returns 1, with the state unchanged, exactly when `V[x] >= 16`; otherwise it
returns 0, sets `_i = 5 * V[x]` (so `_i <= 75` and `_i + 4` is inside the 80 bytes
of the font at address 0), advances `_pc` by 2 and changes nothing else. -/
theorem font_pointer (rv : Nat) (s : emulator) (x : Nat) (hx : x < 16) (hpc : s._pc ≤ 4094)
    (hop : fetch s = 0xF000 + 0x100 * x + 0x29) :
    ((emulator_cycle rv s).1 = 1 ↔ s._v x ≥ 16) ∧
    (s._v x ≥ 16 → emulator_cycle rv s = (1, s)) ∧
    (s._v x < 16 →
      emulator_cycle rv s = (0, { s with _i := 5 * s._v x, _pc := s._pc + 2 }) ∧
      5 * s._v x ≤ 75 ∧ 5 * s._v x + 4 < 80) := by
  rw [misc_step rv s x 0x29 hx (by decide) hpc hop]
  unfold op_misc
  rw [if_neg (by decide), if_neg (by decide), if_neg (by decide), if_neg (by decide),
    if_neg (by decide), if_pos rfl]
  by_cases hv : s._v x ≥ 16
  · rw [if_pos hv]
    exact ⟨⟨fun _ => hv, fun _ => rfl⟩, fun _ => rfl, fun h' => absurd hv (by omega)⟩
  · rw [if_neg hv]
    refine ⟨⟨fun h' => absurd h' Nat.zero_ne_one, fun h' => absurd h' hv⟩,
      fun h' => absurd h' hv, fun _ => ⟨?_, by omega, by omega⟩⟩
    have h1 : u16 (s._v x * 5) = 5 * s._v x := by unfold u16; omega
    simp only [h1, u16_pc2 _ hpc]

theorem font_pointer_witness :
    emulator_cycle 0 (load_opcode 0xF029 { test_state with _v := store test_state._v 0 0xA }) =
      (0, { load_opcode 0xF029 { test_state with _v := store test_state._v 0 0xA } with
        _i := 50, _pc := 0x202 }) :=
  ((font_pointer 0 (load_opcode 0xF029 { test_state with _v := store test_state._v 0 0xA }) 0
    (by decide) (by decide) (by decide)).2.2 (by decide)).1

/-! ## C18: the shifts -/

/-- C18. Shifts (`8xy6`, `8xyE`): with `_pc <= 4094`, `x` in `0..14` and any `y`,
after `8xy6` `V[x] = old V[x] / 2` and `V[0xF] = old V[x] mod 2`; after `8xyE`
`V[x] = (2 * old V[x]) mod 256` and `V[0xF] = old V[x] / 128`; the result state is
written from `V[x]` alone (`V[y]` is not read), `_pc` advances by 2 and no other
register changes. -/
theorem shifts (rv : Nat) (s : emulator) (x y : Nat) (hwt : well_typed s) (hx : x ≤ 14)
    (hy : y < 16) (hpc : s._pc ≤ 4094) :
    (fetch s = 0x8000 + 0x100 * x + 0x10 * y + 6 →
      emulator_cycle rv s =
        (0, { s with _v := store (store s._v 0xF (s._v x % 2)) x (s._v x / 2),
                     _pc := s._pc + 2 }) ∧
      (emulator_cycle rv s).2._v x = s._v x / 2 ∧
      (emulator_cycle rv s).2._v 0xF = s._v x % 2 ∧
      (∀ j, j ≠ x → j ≠ 0xF → (emulator_cycle rv s).2._v j = s._v j)) ∧
    (fetch s = 0x8000 + 0x100 * x + 0x10 * y + 0xE →
      emulator_cycle rv s =
        (0, { s with _v := store (store s._v 0xF (s._v x / 128)) x ((2 * s._v x) % 256),
                     _pc := s._pc + 2 }) ∧
      (emulator_cycle rv s).2._v x = (2 * s._v x) % 256 ∧
      (emulator_cycle rv s).2._v 0xF = s._v x / 128 ∧
      (∀ j, j ≠ x → j ≠ 0xF → (emulator_cycle rv s).2._v j = s._v j)) := by
  have hvx := hwt.v x (by omega)
  have hxF : x ≠ 15 := by omega
  have hFx : ¬ (15 = x) := by omega
  refine ⟨fun hop => ?_, fun hop => ?_⟩
  · have h : emulator_cycle rv s =
        (0, { s with _v := store (store s._v 0xF (s._v x % 2)) x (s._v x / 2),
                     _pc := s._pc + 2 }) := by
      rw [alu_step rv s x y 6 (by omega) hy (by decide) hpc hop]
      unfold op_alu
      have h1 : s._v x &&& 0x1 = s._v x % 2 := Nat.and_pow_two_sub_one_eq_mod (s._v x) 1
      have h2 : s._v x >>> 1 = s._v x / 2 := Nat.shiftRight_eq_div_pow (s._v x) 1
      simp [store, hxF, h1, h2, u16_pc2 _ hpc]
    rw [h]
    refine ⟨rfl, by simp [store], by simp [store, hFx], fun j hj hjF => by simp [store, hj, hjF]⟩
  · have h : emulator_cycle rv s =
        (0, { s with _v := store (store s._v 0xF (s._v x / 128)) x ((2 * s._v x) % 256),
                     _pc := s._pc + 2 }) := by
      rw [alu_step rv s x y 0xE (by omega) hy (by decide) hpc hop]
      unfold op_alu
      have h1 : (s._v x >>> 7) &&& 0x01 = s._v x / 128 := by
        rw [Nat.shiftRight_eq_div_pow]
        have := Nat.and_pow_two_sub_one_eq_mod (s._v x / 2 ^ 7) 1
        simp only [Nat.reducePow, Nat.reduceSub, pow_one] at this ⊢
        rw [this]
        omega
      have h2 : u8 (s._v x <<< 1) = (2 * s._v x) % 256 := by
        unfold u8
        rw [Nat.shiftLeft_eq]
        omega
      simp [store, hxF, h1, h2, u16_pc2 _ hpc]
    rw [h]
    refine ⟨rfl, by simp [store], by simp [store, hFx], fun j hj hjF => by simp [store, hj, hjF]⟩

theorem shifts_witness :
    (emulator_cycle 0 (alu_state 0x8016 0x03 0 0)).2._v 0 = 0x01 ∧
    (emulator_cycle 0 (alu_state 0x8016 0x03 0 0)).2._v 0xF = 0x01 ∧
    (emulator_cycle 0 (alu_state 0x801E 0x81 0 0)).2._v 0 = 0x02 ∧
    (emulator_cycle 0 (alu_state 0x801E 0x81 0 0)).2._v 0xF = 0x01 :=
  have h6 := (shifts 0 (alu_state 0x8016 0x03 0 0) 0 1
    (well_typed_alu_state _ _ _ _ (by decide) (by decide) (by decide))
    (by decide) (by decide) (by decide)).1 (by decide)
  have hE := (shifts 0 (alu_state 0x801E 0x81 0 0) 0 1
    (well_typed_alu_state _ _ _ _ (by decide) (by decide) (by decide))
    (by decide) (by decide) (by decide)).2 (by decide)
  ⟨h6.2.1, h6.2.2.1, hE.2.1, hE.2.2.1⟩

/-! ## C11: binary-coded decimal -/

/-- C11. Binary-coded decimal (`Fx33`): with `_pc <= 4094`, `emulator_cycle`
returns 1, with the state unchanged, exactly when `_i + 2 >= 4096`; otherwise it
returns 0 and writes the digits `d2 = _memory[_i]`, `d1 = _memory[_i + 1]`,
`d0 = _memory[_i + 2]`, each in `0..9`, with `100 * d2 + 10 * d1 + d0 = V[x]`; no
other memory byte, no register and not `_i` is changed, and `_pc` advances by 2. -/
theorem bcd_digits (rv : Nat) (s : emulator) (x : Nat) (hwt : well_typed s) (hx : x < 16)
    (hpc : s._pc ≤ 4094) (hop : fetch s = 0xF000 + 0x100 * x + 0x33) :
    ((emulator_cycle rv s).1 = 1 ↔ s._i + 2 ≥ 4096) ∧
    (s._i + 2 ≥ 4096 → emulator_cycle rv s = (1, s)) ∧
    (s._i + 2 < 4096 →
      (emulator_cycle rv s).1 = 0 ∧
      ((emulator_cycle rv s).2._memory s._i ≤ 9 ∧
        (emulator_cycle rv s).2._memory (s._i + 1) ≤ 9 ∧
        (emulator_cycle rv s).2._memory (s._i + 2) ≤ 9) ∧
      100 * (emulator_cycle rv s).2._memory s._i +
          10 * (emulator_cycle rv s).2._memory (s._i + 1) +
          (emulator_cycle rv s).2._memory (s._i + 2) = s._v x ∧
      (∀ j, j ≠ s._i → j ≠ s._i + 1 → j ≠ s._i + 2 →
        (emulator_cycle rv s).2._memory j = s._memory j) ∧
      (emulator_cycle rv s).2 =
        { s with _memory := (emulator_cycle rv s).2._memory, _pc := s._pc + 2 }) := by
  have hvx := hwt.v x hx
  rw [misc_step rv s x 0x33 hx (by decide) hpc hop]
  unfold op_misc
  rw [if_neg (by decide), if_neg (by decide), if_neg (by decide), if_neg (by decide),
    if_neg (by decide), if_neg (by decide), if_pos rfl]
  by_cases hI : s._i + 2 ≥ 4096
  · rw [if_pos hI]
    exact ⟨⟨fun _ => hI, fun _ => rfl⟩, fun _ => rfl, fun h' => absurd hI (by omega)⟩
  · rw [if_neg hI]
    refine ⟨⟨fun h' => absurd h' Nat.zero_ne_one, fun h' => absurd h' hI⟩,
      fun h' => absurd h' hI, fun _ => ⟨rfl, ?_, ?_, ?_, ?_⟩⟩
    · simp [store]
      omega
    · simp [store]
      omega
    · intro j h0 h1 h2
      simp only [store]
      rw [if_neg h2, if_neg h1, if_neg h0]
    · simp only [u16_pc2 _ hpc]

theorem bcd_digits_witness :
    ((emulator_cycle 0 bcd_state).2._memory 0x400 ≤ 9 ∧
      (emulator_cycle 0 bcd_state).2._memory (0x400 + 1) ≤ 9 ∧
      (emulator_cycle 0 bcd_state).2._memory (0x400 + 2) ≤ 9) ∧
    100 * (emulator_cycle 0 bcd_state).2._memory 0x400 +
        10 * (emulator_cycle 0 bcd_state).2._memory (0x400 + 1) +
        (emulator_cycle 0 bcd_state).2._memory (0x400 + 2) = 159 ∧
    emulator_cycle 0 bcd_oob_state = (1, bcd_oob_state) :=
  have hw (i : Nat) (hi : i < 65536) (a : Nat) (ha : a < 256) :
      well_typed (load_opcode 0xF033
        { test_state with _i := i, _v := store test_state._v 0 a }) := by
    refine well_typed_load_opcode _ _ ?_
    constructor <;> simp [test_state, MEMORY_START, hi]
    intro j _
    exact store_lt _ _ ha _ (by decide)
  have h := ((bcd_digits 0 bcd_state 0 (hw _ (by decide) _ (by decide)) (by decide) (by decide)
    (by decide)).2.2 (by decide)).2
  ⟨h.1, h.2.1,
    (bcd_digits 0 bcd_oob_state 0 (hw _ (by decide) _ (by decide)) (by decide) (by decide)
      (by decide)).2.1 (by decide)⟩

/-! ## C15: waiting for a key -/

/-- The key scan over `a, a+1, ..., a+len-1` finds nothing when no bit of that
range is set, and otherwise the lowest set bit of the range. -/
theorem scan_keys_range' (keys len a : Nat) :
    (scan_keys keys (List.range' a len) = none ∧
      ∀ j, a ≤ j → j < a + len → keys.testBit j = false) ∨
    (∃ k, scan_keys keys (List.range' a len) = some k ∧ a ≤ k ∧ k < a + len ∧
      keys.testBit k = true ∧ ∀ j, a ≤ j → j < k → keys.testBit j = false) := by
  induction len generalizing a with
  | zero =>
    left
    exact ⟨rfl, fun j h1 h2 => absurd h2 (by omega)⟩
  | succ m ih =>
    rw [List.range'_succ]
    unfold scan_keys
    by_cases hb : keys.testBit a = true
    · right
      rw [if_pos ((key_mask_test keys a).2 hb)]
      exact ⟨a, rfl, Nat.le_refl a, by omega, hb, fun j h1 h2 => absurd h2 (by omega)⟩
    · rw [if_neg (fun h => hb ((key_mask_test keys a).1 h))]
      have hb' : keys.testBit a = false := by simpa using hb
      rcases ih (a + 1) with ⟨hn, hall⟩ | ⟨k, hk, h1, h2, h3, h4⟩
      · left
        refine ⟨hn, fun j hj1 hj2 => ?_⟩
        by_cases hja : j = a
        · rw [hja]; exact hb'
        · exact hall j (by omega) (by omega)
      · right
        refine ⟨k, hk, by omega, by omega, h3, fun j hj1 hj2 => ?_⟩
        by_cases hja : j = a
        · rw [hja]; exact hb'
        · exact h4 j (by omega) hj2

/-- C15. Block-for-key (`Fx0A`): with `_pc <= 4094`, if `keys = 0` then
`emulator_cycle` returns 0 and leaves the whole state, `_pc` included, unchanged;
if `keys != 0` it returns 0, sets `V[x]` to the index of the lowest set bit of
`keys` (so `V[x] < 16`, bit `V[x]` of `keys` is set and no lower bit is), advances
`_pc` by 2, and changes nothing else. -/
theorem block_for_key (rv : Nat) (s : emulator) (x : Nat) (hwt : well_typed s) (hx : x < 16)
    (hpc : s._pc ≤ 4094) (hop : fetch s = 0xF000 + 0x100 * x + 0x0A) :
    (s.keys = 0 → emulator_cycle rv s = (0, s)) ∧
    (s.keys ≠ 0 →
      (emulator_cycle rv s).2._v x < 16 ∧
      s.keys.testBit ((emulator_cycle rv s).2._v x) = true ∧
      (∀ j, j < (emulator_cycle rv s).2._v x → s.keys.testBit j = false) ∧
      emulator_cycle rv s =
        (0, { s with _v := store s._v x ((emulator_cycle rv s).2._v x),
                     _pc := s._pc + 2 })) := by
  rw [misc_step rv s x 0x0A hx (by decide) hpc hop]
  unfold op_misc
  rw [if_neg (by decide), if_pos rfl, List.range_eq_range']
  rcases scan_keys_range' s.keys 16 0 with ⟨hn, hall⟩ | ⟨k, hk, _, h2, h3, h4⟩
  · rw [hn]
    refine ⟨fun _ => rfl, fun hne => absurd ?_ hne⟩
    apply Nat.eq_of_testBit_eq
    intro i
    rw [Nat.zero_testBit]
    by_cases hi : i < 16
    · exact hall i (Nat.zero_le i) (by omega)
    · apply Nat.testBit_lt_two_pow
      have h16 : s.keys < 2 ^ 16 := hwt.keys
      exact Nat.lt_of_lt_of_le h16 (Nat.pow_le_pow_right (by decide) (by omega))
  · rw [hk]
    refine ⟨fun h0 => ?_, fun _ => ?_⟩
    · rw [h0, Nat.zero_testBit] at h3
      exact absurd h3 (by decide)
    · have hv : store s._v x k x = k := by simp [store]
      simp only [hv, u16_pc2 _ hpc]
      exact ⟨by omega, h3, fun j hj => h4 j (Nat.zero_le j) hj, trivial⟩

theorem block_for_key_witness :
    emulator_cycle 0 (key_state 0xF10A 0 0) = (0, key_state 0xF10A 0 0) ∧
    emulator_cycle 0 (key_state 0xF10A 0 0x20) =
      (0, { key_state 0xF10A 0 0x20 with
        _v := store (key_state 0xF10A 0 0x20)._v 1 5, _pc := 0x202 }) :=
  have hw (keys : Nat) (hk : keys < 65536) : well_typed (key_state 0xF10A 0 keys) := by
    refine well_typed_load_opcode _ _ ?_
    constructor <;> simp [test_state, MEMORY_START, hk]
    intro j _
    exact store_lt _ _ (by decide) _ (by decide)
  ⟨(block_for_key 0 (key_state 0xF10A 0 0) 1 (hw 0 (by decide)) (by decide) (by decide)
      (by decide)).1 rfl,
   ((block_for_key 0 (key_state 0xF10A 0 0x20) 1 (hw 0x20 (by decide)) (by decide)
      (by decide) (by decide)).2 (by decide)).2.2.2⟩

/-! ## C12: a sprite that reads past the end of memory -/

theorem draw_row_i (x0 y0 : Nat) (e : emulator) (row : Nat) : (draw_row x0 y0 e row)._i = e._i := by
  unfold draw_row
  simp only
  rw [draw_cols_frame]

/-- The row loop over `a, a+1, ..., a+n-1` when some of these rows is out of
bounds: it stops with 1 after the rows below `MEMORY_SIZE - _i`. -/
theorem draw_rows_stop (x0 y0 n a : Nat) (e : emulator) (hn : 0 < n)
    (h : e._i + a + n > MEMORY_SIZE) :
    draw_rows x0 y0 (List.range' a n) e =
      (1, (List.range' a (MEMORY_SIZE - e._i - a)).foldl (draw_row x0 y0) e) := by
  induction n generalizing a e with
  | zero => exact absurd hn (by decide)
  | succ m ih =>
    rw [List.range'_succ]
    unfold draw_rows
    by_cases hb : e._i + a ≥ MEMORY_SIZE
    · rw [if_pos hb]
      have h0 : MEMORY_SIZE - e._i - a = 0 := by omega
      rw [h0]
      rfl
    · rw [if_neg hb]
      have hm : 0 < m := by omega
      have hi := draw_row_i x0 y0 e a
      rw [ih (a + 1) (draw_row x0 y0 e a) hm (by rw [hi]; omega), hi]
      have hs : MEMORY_SIZE - e._i - a = (MEMORY_SIZE - e._i - (a + 1)) + 1 := by omega
      rw [hs, List.range'_succ]
      rfl

theorem draw_stop_step (rv : Nat) (s : emulator) (x y n : Nat) (hx : x < 16) (hy : y < 16)
    (hn : n < 16) (hn0 : 0 < n) (hpc : s._pc ≤ 4094)
    (hop : fetch s = 0xD000 + 0x100 * x + 0x10 * y + n) (hI : s._i + n > 4096) :
    emulator_cycle rv s =
      (1, { s with
        screen := ((List.range (4096 - s._i)).foldl (draw_row (s._v x % 64) (s._v y % 32))
          { s with _v := store s._v 0xF 0 }).screen,
        _v := ((List.range (4096 - s._i)).foldl (draw_row (s._v x % 64) (s._v y % 32))
          { s with _v := store s._v 0xF 0 })._v }) := by
  rw [cycle_eq rv s hpc, hop, execute_draw rv x y n s hx hy hn]
  have hrows := draw_rows_stop (s._v x % 64) (s._v y % 32) n 0
    { s with _v := store s._v 0xF 0 } hn0 (by show s._i + 0 + n > 4096; omega)
  have hfr := draw_rows_frame (s._v x % 64) (s._v y % 32) (List.range' 0 n)
    { s with _v := store s._v 0xF 0 }
  rw [hrows] at hfr
  unfold op_draw
  simp only [EMULATOR_WIDTH, EMULATOR_HEIGHT]
  rw [List.range_eq_range', hrows, if_pos (by simp)]
  simp only [MEMORY_SIZE, Nat.sub_zero, ← List.range_eq_range'] at hfr ⊢
  rw [hfr]

/-- C12. Draw sprite out of bounds: with `_pc <= 4094` and the word `Dxyn`, `n > 0`,
`emulator_cycle` returns 1 exactly when `_i + n > 4096`; in that case `_pc` and
`draw_flag` are unchanged, the sprite rows `r` with `_i + r <= 4095`, and only
those, have been XORed onto the framebuffer (none when `_i >= 4096`) and no other
pixel has changed. -/
theorem draw_out_of_bounds (rv : Nat) (s : emulator) (x y n : Nat) (hx : x < 16)
    (hy : y < 16) (hn : n < 16) (hn0 : 0 < n) (hpc : s._pc ≤ 4094)
    (hop : fetch s = 0xD000 + 0x100 * x + 0x10 * y + n) :
    ((emulator_cycle rv s).1 = 1 ↔ s._i + n > 4096) ∧
    (s._i + n > 4096 →
      (emulator_cycle rv s).2._pc = s._pc ∧
      (emulator_cycle rv s).2.draw_flag = s.draw_flag ∧
      (∀ px py, px < 64 → py < 32 →
        pixel (emulator_cycle rv s).2.screen px py =
          xor (pixel s.screen px py)
            (sprite_bit s (s._v x % 64) (s._v y % 32) n px py &&
              decide (s._i + (py + 32 - s._v y % 32) % 32 ≤ 4095))) ∧
      (s._i ≥ 4096 → (emulator_cycle rv s).2.screen = s.screen)) := by
  by_cases hI : s._i + n > 4096
  · have hstep := draw_stop_step rv s x y n hx hy hn hn0 hpc hop hI
    refine ⟨⟨fun _ => hI, fun _ => by rw [hstep]⟩, fun _ => ?_⟩
    rw [hstep]
    refine ⟨rfl, rfl, fun px py hpx hpy => ?_, fun h4096 => ?_⟩
    · obtain ⟨_, hs, _, _⟩ := draw_rows_prefix (s._v x % 64) (s._v y % 32)
        { s with _v := store s._v 0xF 0 } (by omega) (by omega) (4096 - s._i) (by omega)
      simp only at hs ⊢
      rw [hs px py hpx hpy]
      congr 1
      unfold sprite_bit
      simp only
      by_cases hr : (py + 32 - s._v y % 32) % 32 < 4096 - s._i
      · have h1 : (py + 32 - s._v y % 32) % 32 < n := by omega
        have h2 : s._i + (py + 32 - s._v y % 32) % 32 ≤ 4095 := by omega
        simp [hr, h1, h2]
      · have h2 : ¬ (s._i + (py + 32 - s._v y % 32) % 32 ≤ 4095) := by omega
        simp [hr, h2]
    · have h0 : 4096 - s._i = 0 := by omega
      simp only [h0, List.range_zero, List.foldl_nil]
  · have hstep := draw_step rv s x y n hx hy hn hpc hop (Or.inr (by omega))
    refine ⟨⟨fun h => ?_, fun h => absurd h hI⟩, fun h => absurd h hI⟩
    rw [hstep] at h
    exact absurd h Nat.zero_ne_one

theorem draw_out_of_bounds_witness :
    (emulator_cycle 0 draw_oob_state).1 = 1 ∧
    (emulator_cycle 0 draw_oob_state).2._pc = 0x200 ∧
    (emulator_cycle 0 draw_oob_state).2.draw_flag = false ∧
    pixel (emulator_cycle 0 draw_oob_state).2.screen 0 1 = true ∧
    pixel (emulator_cycle 0 draw_oob_state).2.screen 0 2 = false :=
  have h := draw_out_of_bounds 0 draw_oob_state 0 1 5 (by decide) (by decide) (by decide)
    (by decide) (by decide) (by decide)
  have h2 := h.2 (by decide)
  ⟨h.1.2 (by decide), h2.1, h2.2.1, h2.2.2.1 0 1 (by decide) (by decide),
    h2.2.2.1 0 2 (by decide) (by decide)⟩

/-! ## C27: the stack pointer -/

theorem dispatch_stack (rv sel x y n kk nnn : Nat) (e : emulator) (h : e._sp ≤ 11) :
    stack_kept e (dispatch rv sel x y n kk nnn e) := by
  unfold dispatch op_sys op_call op_skip op_alu op_key op_draw op_misc
  repeat' first
    | intro _
    | apply ite_prop (stack_kept e)
  all_goals first
    | exact ⟨h, rfl⟩
    | (rw [draw_rows_frame]; exact ⟨h, rfl⟩)
    | (simp only; rw [draw_rows_frame]; exact ⟨h, rfl⟩)
    | (rw [reg_dump_range]; exact ⟨h, rfl⟩)
    | (rw [reg_load_range]; exact ⟨h, rfl⟩)
    | (split <;> exact ⟨h, rfl⟩)
    | (simp only; split <;> exact ⟨h, rfl⟩)
    | exact ⟨Nat.le_trans (Nat.sub_le _ _) h, rfl⟩
    | (rename_i hc
       simp only [STACK_SIZE] at hc
       refine ⟨?_, ?_⟩
       · show u16 (e._sp + 1) ≤ 11
         unfold u16
         omega
       · show store e._stack e._sp (u16 (e._pc + 2)) 11 = e._stack 11
         unfold store
         rw [if_neg (by omega)])

theorem cycle_stack (rv : Nat) (e : emulator) (h : e._sp ≤ 11) :
    stack_kept e (emulator_cycle rv e) := by
  unfold emulator_cycle
  split
  · exact ⟨h, rfl⟩
  · exact dispatch_stack rv _ _ _ _ _ _ e h

theorem tick_step_stack (rv : Nat) (e : emulator) (h : e._sp ≤ 11) :
    (tick_step rv e)._sp ≤ 11 ∧ (tick_step rv e)._stack 11 = e._stack 11 := by
  have hc := cycle_stack rv e h
  unfold tick_step
  simp only
  split
  · exact hc
  · exact hc

theorem run_cycles_stack (rs : Nat → Nat) (count i : Nat) (e : emulator) (h : e._sp ≤ 11) :
    (run_cycles rs count i e)._sp ≤ 11 ∧ (run_cycles rs count i e)._stack 11 = e._stack 11 := by
  induction count generalizing i e with
  | zero => exact ⟨h, rfl⟩
  | succ m ih =>
    unfold run_cycles
    have hs := tick_step_stack (rs i) e h
    have := ih (i + 1) (tick_step (rs i) e) hs.1
    exact ⟨this.1, this.2.trans hs.2⟩

theorem tick_stack (rs : Nat → Nat) (e : emulator) (h : e._sp ≤ 11) :
    (emulator_tick rs e)._sp ≤ 11 ∧ (emulator_tick rs e)._stack 11 = e._stack 11 := by
  have hr := run_cycles_stack rs e.cycles_per_frame 0 { e with draw_flag := false } h
  unfold emulator_tick frame_cycles
  simp only
  split <;> split <;> exact hr

/-- C27. Stack-pointer invariant: `_sp <= STACK_SIZE - 1 = 11` is preserved by
`emulator_cycle` and by `emulator_tick`, whatever the result, so
`_sp < STACK_SIZE` holds in every state reached from `_sp = 0` by cycles and
ticks; a CALL (`2nnn`) succeeds only when `_sp <= 10`, and the stack slot 11 is
never written. -/
theorem stack_pointer_invariant (rv : Nat) (rs : Nat → Nat) (s : emulator) (hsp : s._sp ≤ 11) :
    (emulator_cycle rv s).2._sp ≤ 11 ∧
    (emulator_tick rs s)._sp ≤ 11 ∧
    (∀ (N : Nat) (σ : Nat → emulator), (σ 0)._sp = 0 →
      (∀ k, k < N → (∃ r, σ (k + 1) = (emulator_cycle r (σ k)).2) ∨
        (∃ r, σ (k + 1) = emulator_tick r (σ k))) →
      (σ N)._sp < STACK_SIZE) ∧
    (∀ nnn, nnn ≤ 0xFFF → s._pc ≤ 4094 → fetch s = 0x2000 + nnn →
      (emulator_cycle rv s).1 = 0 → s._sp ≤ 10) ∧
    (emulator_cycle rv s).2._stack 11 = s._stack 11 ∧
    (emulator_tick rs s)._stack 11 = s._stack 11 := by
  refine ⟨(cycle_stack rv s hsp).1, (tick_stack rs s hsp).1, ?_, ?_, (cycle_stack rv s hsp).2,
    (tick_stack rs s hsp).2⟩
  · intro N σ h0 hstep
    have key : ∀ k, k ≤ N → (σ k)._sp ≤ 11 := by
      intro k
      induction k with
      | zero => intro _; rw [h0]; exact Nat.zero_le _
      | succ m ih =>
        intro hk
        have hm := ih (by omega)
        rcases hstep m (by omega) with ⟨r, hr⟩ | ⟨r, hr⟩
        · rw [hr]; exact (cycle_stack r (σ m) hm).1
        · rw [hr]; exact (tick_stack r (σ m) hm).1
    have := key N (Nat.le_refl N)
    simp only [STACK_SIZE]
    omega
  · intro nnn hnnn hpc hop hres
    rw [cycle_eq rv s hpc, hop, execute_call rv nnn s hnnn] at hres
    unfold op_call at hres
    by_cases hc : s._sp + 1 ≥ STACK_SIZE
    · rw [if_pos hc] at hres
      exact absurd hres Nat.one_ne_zero
    · simp only [STACK_SIZE] at hc
      omega

theorem stack_pointer_invariant_witness :
    (emulator_cycle 0 call_return_state).2._sp ≤ 11 ∧
    (emulator_tick (fun _ => 0) call_return_state)._sp ≤ 11 :=
  have h := stack_pointer_invariant 0 (fun _ => 0) call_return_state (by decide)
  ⟨h.1, h.2.1⟩

/-! ## C28: failures that leave the state as it was -/

theorem dispatch_fails_clean (rv sel x y n kk nnn : Nat) (e : emulator) (hsel : sel ≠ 0xD000) :
    fails_clean e (dispatch rv sel x y n kk nnn e) := by
  unfold dispatch op_sys op_call op_skip op_alu op_key op_draw op_misc
  repeat' first
    | intro _
    | apply ite_prop (fails_clean e)
  all_goals first
    | exact Or.inl rfl
    | exact Or.inr rfl
    | exact absurd ‹sel = 0xD000› hsel
    | (split <;> exact Or.inl rfl)
    | (simp only; split <;> exact Or.inl rfl)

/-- C28. Failure atomicity: with `_sp <= 11`, when no word is fetched
(`_pc >= 4095`) or the high nibble of the instruction word is not `0xD`, a result
1 of `emulator_cycle` comes with the state identical to the state before; the
draw instruction can fail after having written the framebuffer
(`draw_oob_state`). -/
theorem failure_atomicity (rv : Nat) (s : emulator) (_hsp : s._sp ≤ 11) :
    ((s._pc ≥ 4095 ∨ fetch s &&& 0xF000 ≠ 0xD000) →
      (emulator_cycle rv s).1 = 1 → (emulator_cycle rv s).2 = s) ∧
    ((emulator_cycle rv draw_oob_state).1 = 1 ∧
      (emulator_cycle rv draw_oob_state).2.screen 0 ≠ draw_oob_state.screen 0) := by
  constructor
  · intro hw hres
    unfold emulator_cycle at hres ⊢
    by_cases hpc : s._pc ≥ MEMORY_SIZE - 1
    · rw [if_pos hpc]
    · rw [if_neg hpc] at hres ⊢
      have hsel : fetch s &&& 0xF000 ≠ 0xD000 := by
        rcases hw with h | h
        · exact absurd h hpc
        · exact h
      rcases dispatch_fails_clean rv (fetch s &&& 0xF000) ((fetch s >>> 8) &&& 0x000F)
        ((fetch s >>> 4) &&& 0x000F) (fetch s &&& 0x000F) (fetch s &&& 0x00FF)
        (fetch s &&& 0x0FFF) s hsel with h | h
      · unfold execute at hres
        rw [h] at hres
        exact absurd hres Nat.zero_ne_one
      · unfold execute
        rw [h]
  · rw [draw_stop_step rv draw_oob_state 0 1 5 (by decide) (by decide) (by decide) (by decide)
      (by decide) (by decide) (by decide)]
    exact ⟨rfl, by decide⟩

theorem failure_atomicity_witness :
    (emulator_cycle 0 (load_opcode 0x5121 test_state)).2 = load_opcode 0x5121 test_state :=
  (failure_atomicity 0 (load_opcode 0x5121 test_state) (by decide)).1 (Or.inr (by decide))
    (by decide)

/-! ## C22: the frame flags -/

theorem dispatch_flags (rv sel x y n kk nnn : Nat) (e : emulator) :
    flags_kept e (¬ ((sel = 0x0000 ∧ kk = 0xE0) ∨ sel = 0xD000))
      (dispatch rv sel x y n kk nnn e) := by
  unfold dispatch op_sys op_call op_skip op_alu op_key op_draw op_misc
  repeat' first
    | intro _
    | apply ite_prop (flags_kept e (¬ ((sel = 0x0000 ∧ kk = 0xE0) ∨ sel = 0xD000)))
  all_goals first
    | exact ⟨rfl, fun _ => rfl⟩
    | exact ⟨rfl, fun hk => absurd (Or.inl ⟨‹sel = 0x0000›, ‹kk = 0xE0›⟩) hk⟩
    | (rw [draw_rows_frame]; exact ⟨rfl, fun hk => absurd (Or.inr ‹sel = 0xD000›) hk⟩)
    | (simp only; rw [draw_rows_frame]; exact ⟨rfl, fun hk => absurd (Or.inr ‹sel = 0xD000›) hk⟩)
    | (rw [reg_dump_range]; exact ⟨rfl, fun _ => rfl⟩)
    | (rw [reg_load_range]; exact ⟨rfl, fun _ => rfl⟩)
    | (split <;> exact ⟨rfl, fun _ => rfl⟩)
    | (simp only; split <;> exact ⟨rfl, fun _ => rfl⟩)

theorem tick_step_flags (rv : Nat) (e : emulator) :
    (tick_step rv e).beep_flag = e.beep_flag ∧
    (¬ executes_screen_write e → (tick_step rv e).draw_flag = e.draw_flag) := by
  have hc : flags_kept e (¬ executes_screen_write e) (emulator_cycle rv e) := by
    unfold emulator_cycle
    split
    · exact ⟨rfl, fun _ => rfl⟩
    · rename_i hpc
      have h := dispatch_flags rv (fetch e &&& 0xF000) ((fetch e >>> 8) &&& 0x000F)
        ((fetch e >>> 4) &&& 0x000F) (fetch e &&& 0x000F) (fetch e &&& 0x00FF)
        (fetch e &&& 0x0FFF) e
      exact ⟨h.1, fun hk => h.2 (fun hh => hk ⟨Nat.lt_of_not_ge hpc, hh⟩)⟩
  unfold tick_step
  simp only
  split
  · exact hc
  · exact hc

theorem run_cycles_flags (rs : Nat → Nat) (count i : Nat) (e : emulator) :
    (run_cycles rs count i e).beep_flag = e.beep_flag ∧
    ((∀ k, k < count → ¬ executes_screen_write (run_cycles rs k i e)) →
      (run_cycles rs count i e).draw_flag = e.draw_flag) := by
  induction count generalizing i e with
  | zero => exact ⟨rfl, fun _ => rfl⟩
  | succ m ih =>
    unfold run_cycles
    have hs := tick_step_flags (rs i) e
    have hi := ih (i + 1) (tick_step (rs i) e)
    refine ⟨hi.1.trans hs.1, fun h => ?_⟩
    rw [hi.2 (fun k hk => h (k + 1) (by omega))]
    exact hs.2 (h 0 (by omega))

theorem tick_flags (rs : Nat → Nat) (e : emulator) :
    (emulator_tick rs e).beep_flag = e.beep_flag ∧
    ((∀ k, k < e.cycles_per_frame →
        ¬ executes_screen_write (run_cycles rs k 0 { e with draw_flag := false })) →
      (emulator_tick rs e).draw_flag = false) := by
  have hr := run_cycles_flags rs e.cycles_per_frame 0 { e with draw_flag := false }
  unfold emulator_tick frame_cycles
  simp only
  split <;> split <;> exact hr

/-- C22, as the claim states it, fails: `emulator_tick` does not reset `beep_flag`.
From the state of the tests (all-zero memory, so no instruction requests a tone or
touches the framebuffer) with `beep_flag` and `draw_flag` both true, a tick leaves
`draw_flag` false but `beep_flag` true. -/
theorem frame_flags_counterexample :
    (emulator_tick (fun _ => 0) { test_state with draw_flag := true, beep_flag := true }
      ).beep_flag = true ∧
    (emulator_tick (fun _ => 0) { test_state with draw_flag := true, beep_flag := true }
      ).draw_flag = false := by
  decide

/-- C22, amended. With `_sp <= 11`, `emulator_tick` resets `draw_flag` to false at
the start of the frame, so after a tick whose cycles execute no
framebuffer-writing instruction (for instance with all-zero memory) `draw_flag`
is false, whatever it was before; `beep_flag` is written neither by
`emulator_tick` nor by any instruction: after the tick it is what it was. -/
theorem frame_flags (rs : Nat → Nat) (s : emulator) (_hsp : s._sp ≤ 11) :
    ((∀ k, k < s.cycles_per_frame →
        ¬ executes_screen_write (run_cycles rs k 0 { s with draw_flag := false })) →
      (emulator_tick rs s).draw_flag = false) ∧
    ((∀ j, j < MEMORY_SIZE → s._memory j = 0) → (emulator_tick rs s).draw_flag = false) ∧
    (emulator_tick rs s).beep_flag = s.beep_flag ∧
    (∀ rv, (emulator_cycle rv s).2.beep_flag = s.beep_flag) := by
  refine ⟨(tick_flags rs s).2, fun hz => (tick_flags rs s).2 (fun k _ hw => ?_),
    (tick_flags rs s).1, fun rv => ?_⟩
  · have hm := (run_cycles_zero_memory rs k 0 { s with draw_flag := false } hz).1
    obtain ⟨hpc, hw'⟩ := hw
    have h0 := hz _ (show (run_cycles rs k 0 { s with draw_flag := false })._pc < MEMORY_SIZE by
      simp only [MEMORY_SIZE] at hpc ⊢; omega)
    have h1 := hz _ (show (run_cycles rs k 0 { s with draw_flag := false })._pc + 1
        < MEMORY_SIZE by simp only [MEMORY_SIZE] at hpc ⊢; omega)
    have hf : fetch (run_cycles rs k 0 { s with draw_flag := false }) = 0 := by
      unfold fetch
      rw [hm]
      simp only at h0 h1
      rw [h0, h1]
      rfl
    rw [hf] at hw'
    rcases hw' with ⟨_, h⟩ | h
    · exact absurd h (by decide)
    · exact absurd h (by decide)
  · unfold emulator_cycle
    split
    · rfl
    · exact (dispatch_flags rv _ _ _ _ _ _ s).1

theorem frame_flags_witness :
    (emulator_tick (fun _ => 0) { test_state with draw_flag := true, beep_flag := true }
      ).draw_flag = false ∧
    (emulator_tick (fun _ => 0) { test_state with draw_flag := true, beep_flag := true }
      ).beep_flag = true :=
  have h := frame_flags (fun _ => 0)
    { test_state with draw_flag := true, beep_flag := true } (by decide)
  ⟨h.2.1 (fun _ _ => rfl), h.2.2.1⟩

/-! ## C21: the result of a word that matches no instruction -/

/-- C21, as the claim states it, fails: the word `0123` (`0nnn` with low byte other
than `E0` and `EE`) makes `emulator_cycle` return 0, not 1. -/
theorem unknown_opcode_result_counterexample :
    (emulator_cycle 0 (load_opcode 0x0123 test_state)).1 = 0 := by
  decide

/-- C21, amended. With `_pc <= 4094`, a word `8xyn` with `n` in
`{8, 9, A, B, C, D, F}` or `Fxkk` with `kk` outside
`{07, 0A, 15, 18, 1E, 29, 33, 55, 65}` makes `emulator_cycle` return 1; a word `0nnn`
with low byte other than `E0` and `EE` is ignored: `emulator_cycle` returns 0. -/
theorem unknown_opcode_result (rv : Nat) (s : emulator) (hpc : s._pc ≤ 4094) :
    (∀ x y n, x < 16 → y < 16 →
      (n = 8 ∨ n = 9 ∨ n = 0xA ∨ n = 0xB ∨ n = 0xC ∨ n = 0xD ∨ n = 0xF) →
      fetch s = 0x8000 + 0x100 * x + 0x10 * y + n → (emulator_cycle rv s).1 = 1) ∧
    (∀ x kk, x < 16 → kk < 256 →
      (kk ≠ 0x07 ∧ kk ≠ 0x0A ∧ kk ≠ 0x15 ∧ kk ≠ 0x18 ∧ kk ≠ 0x1E ∧ kk ≠ 0x29 ∧ kk ≠ 0x33 ∧
        kk ≠ 0x55 ∧ kk ≠ 0x65) →
      fetch s = 0xF000 + 0x100 * x + kk → (emulator_cycle rv s).1 = 1) ∧
    (∀ nnn, nnn ≤ 0xFFF → nnn % 256 ≠ 0xE0 → nnn % 256 ≠ 0xEE → fetch s = nnn →
      (emulator_cycle rv s).1 = 0) := by
  refine ⟨fun x y n hx hy hn hop => ?_, fun x kk hx hk hkk hop => ?_,
    fun nnn hnnn h1 h2 hop => ?_⟩
  · rw [cycle_eq rv s hpc, hop, execute_alu rv x y n s hx hy (by omega)]
    unfold op_alu
    rcases hn with h | h | h | h | h | h | h <;> subst h <;> rfl
  · obtain ⟨k1, k2, k3, k4, k5, k6, k7, k8, k9⟩ := hkk
    rw [cycle_eq rv s hpc, hop, execute_misc rv x kk s hx hk]
    unfold op_misc
    rw [if_neg k1, if_neg k2, if_neg k3, if_neg k4, if_neg k5, if_neg k6, if_neg k7,
      if_neg k8, if_neg k9]
  · rw [cycle_eq rv s hpc, hop, execute_sys rv nnn s (by omega)]
    unfold op_sys
    rw [if_neg h1, if_neg h2]

theorem unknown_opcode_result_witness :
    (emulator_cycle 0 (load_opcode 0x812F test_state)).1 = 1 ∧
    (emulator_cycle 0 (load_opcode 0xF1FF test_state)).1 = 1 ∧
    (emulator_cycle 0 (load_opcode 0x0123 test_state)).1 = 0 :=
  ⟨(unknown_opcode_result 0 (load_opcode 0x812F test_state) (by decide)).1 1 2 0xF
      (by decide) (by decide) (by decide) (by decide),
   (unknown_opcode_result 0 (load_opcode 0xF1FF test_state) (by decide)).2.1 1 0xFF
      (by decide) (by decide) (by decide) (by decide),
   (unknown_opcode_result 0 (load_opcode 0x0123 test_state) (by decide)).2.2 0x123
      (by decide) (by decide) (by decide) (by decide)⟩

/-! ## C25: decoding of the `0x0000` group -/

/-- C25. The group `0x0000` is decoded on the low byte alone: the word `01E0`
returns 0, clears the framebuffer, sets `draw_flag` and advances `_pc`; the word
`0FEE` returns 0, pops the stack (`_sp` from 1 to 0) and sets `_pc` to the popped
address. -/
theorem sys_group_aliases :
    emulator_cycle 0 cls_alias_state =
      (0, { cls_alias_state with screen := fun _ => 0, draw_flag := true, _pc := 0x202 }) ∧
    cls_alias_state.screen 0 = 0x80 ∧
    cls_alias_state.draw_flag = false ∧
    emulator_cycle 0 ret_alias_state = (0, { ret_alias_state with _sp := 0, _pc := 0x300 }) ∧
    ret_alias_state._sp = 1 ∧
    ret_alias_state._pc = 0x200 := by
  refine ⟨?_, by decide, by decide, ?_, by decide, by decide⟩
  · rw [cycle_eq _ _ (by decide), show fetch cls_alias_state = 0x01E0 by decide,
      execute_sys 0 0x01E0 _ (by decide)]
    rfl
  · rw [cycle_eq _ _ (by decide), show fetch ret_alias_state = 0x0FEE by decide,
      execute_sys 0 0x0FEE _ (by decide)]
    rfl

/-! ## C24: VF as source operand -/

/-- C24. VF as source operand: the old value of `VF` is not the one used.  On
byte-valued states of the tests each instruction returns 0; `80F4` with `V0 = 1`, `VF = 2` leaves `V0 = 1`, where
`(old V0 + old VF) mod 256` is 3; `80F5` with `V0 = 5`, `VF = 2` leaves `V0 = 4`,
where `(old V0 - old VF) mod 256` is 3; `80F7` with `V0 = 2`, `VF = 5` leaves
`V0 = 0xFF`, where `(old VF - old V0) mod 256` is 3: the source stores the flag in
`_v[0xF]` and then reads `_v[y]` again for the result. -/
theorem vf_source_flag_read_back :
    (well_typed (alu_state 0x80F4 1 0 2) ∧
      (emulator_cycle 0 (alu_state 0x80F4 1 0 2)).1 = 0 ∧
      (emulator_cycle 0 (alu_state 0x80F4 1 0 2)).2._v 0 = 1 ∧
      ((alu_state 0x80F4 1 0 2)._v 0 + (alu_state 0x80F4 1 0 2)._v 0xF) % 256 = 3) ∧
    (well_typed (alu_state 0x80F5 5 0 2) ∧
      (emulator_cycle 0 (alu_state 0x80F5 5 0 2)).1 = 0 ∧
      (emulator_cycle 0 (alu_state 0x80F5 5 0 2)).2._v 0 = 4 ∧
      ((alu_state 0x80F5 5 0 2)._v 0 + 256 - (alu_state 0x80F5 5 0 2)._v 0xF) % 256 = 3) ∧
    (well_typed (alu_state 0x80F7 2 0 5) ∧
      (emulator_cycle 0 (alu_state 0x80F7 2 0 5)).1 = 0 ∧
      (emulator_cycle 0 (alu_state 0x80F7 2 0 5)).2._v 0 = 0xFF ∧
      ((alu_state 0x80F7 2 0 5)._v 0xF + 256 - (alu_state 0x80F7 2 0 5)._v 0) % 256 = 3) := by
  refine ⟨⟨?_, by decide⟩, ⟨?_, by decide⟩, ⟨?_, by decide⟩⟩ <;>
  exact well_typed_alu_state _ _ _ _ (by decide) (by decide) (by decide)

/-- What the source computes for `x` in `0..14` and `y = 0xF`: the flag (0 or 1) is
stored in `_v[0xF]` first and `_v[y]` is read again for the result, so the second
operand of `8xF4`, `8xF5` and `8xF7` is the flag just stored. -/
theorem alu_operand_after_flag (rv : Nat) (s : emulator) (x : Nat) (hx : x ≤ 14)
    (hpc : s._pc ≤ 4094) :
    (fetch s = 0x8000 + 0x100 * x + 0x10 * 0xF + 4 →
      (emulator_cycle rv s).2._v 0xF ≤ 1 ∧
      (emulator_cycle rv s).2._v x = (s._v x + (emulator_cycle rv s).2._v 0xF) % 256) ∧
    (fetch s = 0x8000 + 0x100 * x + 0x10 * 0xF + 5 →
      (emulator_cycle rv s).2._v 0xF ≤ 1 ∧
      (emulator_cycle rv s).2._v x =
        (s._v x + 256 - (emulator_cycle rv s).2._v 0xF) % 256) ∧
    (fetch s = 0x8000 + 0x100 * x + 0x10 * 0xF + 7 →
      (emulator_cycle rv s).2._v 0xF ≤ 1 ∧
      (emulator_cycle rv s).2._v x =
        ((emulator_cycle rv s).2._v 0xF + 256 - s._v x) % 256) := by
  have hxF : x ≠ 15 := by omega
  have hFx : ¬ (15 = x) := by omega
  refine ⟨fun hop => ?_, fun hop => ?_, fun hop => ?_⟩
  · rw [alu_step rv s x 0xF 4 (by omega) (by decide) (by decide) hpc hop]
    unfold op_alu
    simp only [flag_ite]
    simp [store, u8, hxF, hFx]
    split <;> simp
  · rw [alu_step rv s x 0xF 5 (by omega) (by decide) (by decide) hpc hop]
    unfold op_alu
    simp only [flag_ite]
    simp [store, u8, hxF, hFx]
    split <;> simp
  · rw [alu_step rv s x 0xF 7 (by omega) (by decide) (by decide) hpc hop]
    unfold op_alu
    simp only [flag_ite]
    simp [store, u8, hxF, hFx]
    split <;> simp

/-! ## C23: the program counter after a successful step -/

theorem dispatch_pc (rv sel x y n kk nnn : Nat) (e : emulator) :
    pc_after e sel kk nnn (dispatch rv sel x y n kk nnn e) := by
  unfold dispatch op_sys op_call op_skip op_alu op_key op_draw op_misc
  repeat' first
    | intro _
    | apply ite_prop (pc_after e sel kk nnn)
  all_goals first
    | exact Or.inl Nat.one_ne_zero
    | skip
  all_goals try (rw [draw_rows_frame])
  all_goals try (rw [reg_dump_range])
  all_goals try (rw [reg_load_range])
  all_goals first
    | (right; simp [*]; done)
    | skip
  all_goals first
    | (right; dsimp only; split_ifs <;> first | omega | (simp [*]; done))
    | skip
  split <;> (right; simp [*])

theorem cycle_pc (rv : Nat) (e : emulator) :
    pc_after e (fetch e &&& 0xF000) (fetch e &&& 0x00FF) (fetch e &&& 0x0FFF)
      (emulator_cycle rv e) := by
  unfold emulator_cycle
  split
  · exact Or.inl Nat.one_ne_zero
  · exact dispatch_pc rv _ _ _ _ _ _ e

/-- C23, as the claim states it, fails: a successful step can leave `_pc` at 4096
or above.  From `_pc = 4094`, `_sp = 0`, the word `6155` returns 0 and leaves
`_pc = 4096`, the taken skip `3000` returns 0 and leaves `_pc = 4098`; from
`_pc = 0x200` the indirect jump `BFFF` with `V0 = 0xFF` returns 0 and leaves
`_pc = 0x10FE`. -/
theorem pc_in_memory_counterexample :
    (pc_end_state._sp ≤ 11 ∧ pc_end_state._pc < MEMORY_SIZE ∧
      (emulator_cycle 0 pc_end_state).1 = 0 ∧
      ¬ (emulator_cycle 0 pc_end_state).2._pc < MEMORY_SIZE) ∧
    (pc_end_skip_state._sp ≤ 11 ∧ pc_end_skip_state._pc < MEMORY_SIZE ∧
      (emulator_cycle 0 pc_end_skip_state).1 = 0 ∧
      (emulator_cycle 0 pc_end_skip_state).2._pc = 4098) ∧
    (pc_indirect_state._sp ≤ 11 ∧ pc_indirect_state._pc < MEMORY_SIZE ∧
      (emulator_cycle 0 pc_indirect_state).1 = 0 ∧
      (emulator_cycle 0 pc_indirect_state).2._pc = 0x10FE) := by
  decide

/-- C23, amended. For every state with `_sp <= 11` and `_pc < 4096` on which
`emulator_cycle` returns 0: `_pc` was at most 4094; after `1nnn` and `2nnn` the
resulting `_pc` is `nnn`, below 4096; after `Bnnn` it is `(nnn + V0) mod 65536`;
after `00EE` (low byte `EE` in the `0x0000` group) it is the popped stack entry;
after any other instruction it is `_pc`, `_pc + 2` or `_pc + 4`, hence below 4096
when `_pc <= 4091`.  A resulting `_pc` of 4095 or more is not rejected by the step
that produces it but by the next one: on any state with `_pc >= 4095`,
`emulator_cycle` returns 1 and leaves the state as it is. -/
theorem pc_in_memory (rv : Nat) (s : emulator) (_hsp : s._sp ≤ 11) (_hpc : s._pc < MEMORY_SIZE)
    (h0 : (emulator_cycle rv s).1 = 0) :
    s._pc ≤ 4094 ∧
    ((fetch s &&& 0xF000 = 0x1000 ∨ fetch s &&& 0xF000 = 0x2000) →
      (emulator_cycle rv s).2._pc = fetch s &&& 0x0FFF ∧
      (emulator_cycle rv s).2._pc < MEMORY_SIZE) ∧
    (fetch s &&& 0xF000 = 0xB000 →
      (emulator_cycle rv s).2._pc = u16 ((fetch s &&& 0x0FFF) + s._v 0)) ∧
    (fetch s &&& 0xF000 = 0x0000 ∧ fetch s &&& 0x00FF = 0xEE →
      (emulator_cycle rv s).2._pc = s._stack (s._sp - 1)) ∧
    (¬ (fetch s &&& 0xF000 = 0x1000 ∨ fetch s &&& 0xF000 = 0x2000) →
      ¬ fetch s &&& 0xF000 = 0xB000 →
      ¬ (fetch s &&& 0xF000 = 0x0000 ∧ fetch s &&& 0x00FF = 0xEE) →
      ((emulator_cycle rv s).2._pc = s._pc ∨ (emulator_cycle rv s).2._pc = s._pc + 2 ∨
        (emulator_cycle rv s).2._pc = s._pc + 4) ∧
      (s._pc ≤ 4091 → (emulator_cycle rv s).2._pc < MEMORY_SIZE)) ∧
    (∀ rv2 t, 4095 ≤ t._pc → emulator_cycle rv2 t = (1, t)) := by
  have hs : s._pc ≤ 4094 := by
    by_contra hc
    unfold emulator_cycle at h0
    rw [if_pos (show s._pc ≥ MEMORY_SIZE - 1 by simp only [MEMORY_SIZE]; omega)] at h0
    exact absurd h0 Nat.one_ne_zero
  have hp := cycle_pc rv s
  unfold pc_after at hp
  have hp := hp.resolve_left (fun hn => hn h0)
  refine ⟨hs, fun hj => ?_, fun hb => ?_, fun hr => ?_, fun hj hb hr => ?_, fun rv2 t ht => ?_⟩
  · rw [if_pos hj] at hp
    refine ⟨hp, ?_⟩
    rw [hp, and_0FFF]
    exact Nat.mod_lt _ (by decide)
  · have hj : ¬ (fetch s &&& 0xF000 = 0x1000 ∨ fetch s &&& 0xF000 = 0x2000) := by
      rw [hb]; decide
    rw [if_neg hj, if_pos hb] at hp
    exact hp
  · have hj : ¬ (fetch s &&& 0xF000 = 0x1000 ∨ fetch s &&& 0xF000 = 0x2000) := by
      rw [hr.1]; decide
    have hb : ¬ fetch s &&& 0xF000 = 0xB000 := by
      rw [hr.1]; decide
    rw [if_neg hj, if_neg hb, if_pos hr] at hp
    exact hp
  · rw [if_neg hj, if_neg hb, if_neg hr, u16_pc2 _ hs, u16_pc4 _ hs] at hp
    refine ⟨hp, fun h91 => ?_⟩
    simp only [MEMORY_SIZE]
    omega
  · unfold emulator_cycle
    rw [if_pos (show t._pc ≥ MEMORY_SIZE - 1 by simp only [MEMORY_SIZE]; omega)]

theorem pc_in_memory_witness :
    ((emulator_cycle 0 pc_end_state).2._pc = 4094 ∨
      (emulator_cycle 0 pc_end_state).2._pc = 4094 + 2 ∨
      (emulator_cycle 0 pc_end_state).2._pc = 4094 + 4) ∧
    emulator_cycle 0 (emulator_cycle 0 pc_end_state).2 = (1, (emulator_cycle 0 pc_end_state).2) :=
  have h := pc_in_memory 0 pc_end_state (by decide) (by decide) (by decide)
  ⟨(h.2.2.2.2.1 (by decide) (by decide) (by decide)).1,
    h.2.2.2.2.2 0 (emulator_cycle 0 pc_end_state).2 (by decide)⟩

/-! ## C29: drawing twice -/

theorem draw_pixel_xor (sprite x0 y col : Nat) :
    ∃ m : Nat → Nat, ∀ (e : emulator) (j : Nat),
      (draw_pixel sprite x0 y col e).screen j = e.screen j ^^^ m j := by
  by_cases h : sprite &&& (0x80 >>> col) = 0
  · refine ⟨fun _ => 0, fun e j => ?_⟩
    rw [draw_pixel_screen_eq, if_pos h, Nat.xor_zero]
  · refine ⟨fun j => if j = u8 (y * (EMULATOR_WIDTH / 8) + (x0 + col) % EMULATOR_WIDTH / 8)
      then 0x80 >>> ((x0 + col) % EMULATOR_WIDTH % 8) else 0, fun e j => ?_⟩
    rw [draw_pixel_screen_eq, if_neg h]
    unfold store
    simp only
    split
    · rename_i hj
      rw [hj]
    · rw [Nat.xor_zero]

theorem draw_cols_list_xor (sprite x0 y : Nat) (cols : List Nat) :
    ∃ m : Nat → Nat, ∀ (e : emulator) (j : Nat),
      (cols.foldl (fun acc col => draw_pixel sprite x0 y col acc) e).screen j
        = e.screen j ^^^ m j := by
  induction cols with
  | nil => exact ⟨fun _ => 0, fun e j => (Nat.xor_zero _).symm⟩
  | cons c cs ih =>
    obtain ⟨m1, h1⟩ := draw_pixel_xor sprite x0 y c
    obtain ⟨m2, h2⟩ := ih
    refine ⟨fun j => m1 j ^^^ m2 j, fun e j => ?_⟩
    simp only [List.foldl_cons]
    rw [h2, h1, Nat.xor_assoc]

theorem draw_rows_list_xor (x0 y0 : Nat) (mem : Nat → Nat) (i : Nat) (rows : List Nat) :
    ∃ m : Nat → Nat, ∀ (e : emulator), e._memory = mem → e._i = i → ∀ j,
      (rows.foldl (draw_row x0 y0) e).screen j = e.screen j ^^^ m j := by
  induction rows with
  | nil => exact ⟨fun _ => 0, fun e _ _ j => (Nat.xor_zero _).symm⟩
  | cons r rs ih =>
    obtain ⟨m1, h1⟩ := draw_cols_list_xor (mem (i + r)) x0 ((y0 + r) % EMULATOR_HEIGHT)
      (List.range 8)
    obtain ⟨m2, h2⟩ := ih
    refine ⟨fun j => m1 j ^^^ m2 j, fun e hm hi j => ?_⟩
    simp only [List.foldl_cons]
    have hrow : draw_row x0 y0 e r = draw_cols (mem (i + r)) x0 ((y0 + r) % EMULATOR_HEIGHT) e := by
      unfold draw_row
      rw [hm, hi]
    have hfr := draw_cols_frame (mem (i + r)) x0 ((y0 + r) % EMULATOR_HEIGHT) e
    rw [hrow, h2 _ (by rw [hfr]; exact hm) (by rw [hfr]; exact hi)]
    unfold draw_cols
    rw [h1, Nat.xor_assoc]

/-- C29. Drawing is an involution: with `_pc <= 4092`, `x` and `y` other than
`0xF`, `_i + n <= 4096` and the same word `Dxyn` at `_pc` and at `_pc + 2`,
executing the two instructions in succession returns 0 both times and leaves
every byte of the framebuffer as it was before the first draw. -/
theorem draw_involution (rv rv2 : Nat) (s : emulator) (x y n : Nat) (hx : x < 16)
    (hy : y < 16) (hn : n < 16) (hxF : x ≠ 0xF) (hyF : y ≠ 0xF) (hpc : s._pc ≤ 4092)
    (hop : fetch s = 0xD000 + 0x100 * x + 0x10 * y + n)
    (hop2 : fetch { s with _pc := s._pc + 2 } = 0xD000 + 0x100 * x + 0x10 * y + n)
    (hI : s._i + n ≤ 4096) :
    (emulator_cycle rv s).1 = 0 ∧
    (emulator_cycle rv2 (emulator_cycle rv s).2).1 = 0 ∧
    (∀ j, (emulator_cycle rv2 (emulator_cycle rv s).2).2.screen j = s.screen j) := by
  have hs1 := draw_step rv s x y n hx hy hn (by omega) hop (Or.inr hI)
  obtain ⟨_, _, hv, _⟩ := draw_rows_prefix (s._v x % 64) (s._v y % 32)
    { s with _v := store s._v 0xF 0 } (Nat.mod_lt _ (by decide)) (Nat.mod_lt _ (by decide))
    n (by omega)
  have hvx : ((List.range n).foldl (draw_row (s._v x % 64) (s._v y % 32))
      { s with _v := store s._v 0xF 0 })._v x = s._v x := by
    rw [hv x hxF]
    simp [store, hxF]
  have hvy : ((List.range n).foldl (draw_row (s._v x % 64) (s._v y % 32))
      { s with _v := store s._v 0xF 0 })._v y = s._v y := by
    rw [hv y hyF]
    simp [store, hyF]
  obtain ⟨m, hm⟩ := draw_rows_list_xor (s._v x % 64) (s._v y % 32) s._memory s._i (List.range n)
  rw [hs1]
  have hs2 := draw_step rv2
    { s with
      screen := ((List.range n).foldl (draw_row (s._v x % 64) (s._v y % 32))
        { s with _v := store s._v 0xF 0 }).screen,
      _v := ((List.range n).foldl (draw_row (s._v x % 64) (s._v y % 32))
        { s with _v := store s._v 0xF 0 })._v,
      draw_flag := true, _pc := s._pc + 2 } x y n hx hy hn
    (show s._pc + 2 ≤ 4094 by omega) hop2 (Or.inr hI)
  have key : ∀ (e1 e2 : emulator), e1._memory = s._memory → e1._i = s._i →
      e2._memory = s._memory → e2._i = s._i →
      e2.screen = ((List.range n).foldl (draw_row (s._v x % 64) (s._v y % 32)) e1).screen →
      ∀ j, ((List.range n).foldl (draw_row (s._v x % 64) (s._v y % 32)) e2).screen j
        = e1.screen j := by
    intro e1 e2 a1 a2 b1 b2 hsc j
    rw [hm e2 b1 b2, hsc, hm e1 a1 a2, Nat.xor_assoc, Nat.xor_self, Nat.xor_zero]
  refine ⟨rfl, ?_, fun j => ?_⟩
  · rw [hs2]
  · rw [hs2]
    simp only
    rw [hvx, hvy]
    refine key { s with _v := store s._v 0xF 0 } _ ?_ ?_ ?_ ?_ ?_ j <;> rfl

theorem draw_involution_witness :
    (emulator_cycle 0 draw_twice_state).1 = 0 ∧
    (emulator_cycle 0 (emulator_cycle 0 draw_twice_state).2).1 = 0 ∧
    (∀ j, (emulator_cycle 0 (emulator_cycle 0 draw_twice_state).2).2.screen j
      = draw_twice_state.screen j) :=
  draw_involution 0 0 draw_twice_state 0 1 1 (by decide) (by decide) (by decide) (by decide)
    (by decide) (by decide) (by decide) (by decide) (by decide)

/-! ## C26: every array access is in bounds -/

theorem read_eq (size : Nat) (arr : Nat → Nat) (i : Nat) (h : i < size) :
    read size arr i = some (arr i) := by
  unfold read
  rw [if_pos h]

theorem write_eq (size : Nat) (arr : Nat → Nat) (i v : Nat) (h : i < size) :
    write size arr i v = some (store arr i v) := by
  unfold write
  rw [if_pos h]

theorem reg_eq (e : emulator) (i : Nat) (h : i < 16) : reg e i = some (e._v i) :=
  read_eq V_SIZE e._v i h

theorem set_reg_eq (e : emulator) (i v : Nat) (h : i < 16) :
    set_reg e i v = some { e with _v := store e._v i v } := by
  unfold set_reg
  rw [write_eq V_SIZE e._v i v h]
  rfl

theorem mem_eq (e : emulator) (i : Nat) (h : i < 4096) : mem e i = some (e._memory i) :=
  read_eq MEMORY_SIZE e._memory i h

theorem set_mem_eq (e : emulator) (i v : Nat) (h : i < 4096) :
    set_mem e i v = some { e with _memory := store e._memory i v } := by
  unfold set_mem
  rw [write_eq MEMORY_SIZE e._memory i v h]
  rfl

theorem ite_some {α : Type} (c : Prop) [Decidable c] (a b : Option α) (a1 b1 : α)
    (ha : c → a = some a1) (hb : ¬ c → b = some b1) :
    (if c then a else b) = some (if c then a1 else b1) := by
  by_cases h : c
  · rw [if_pos h, if_pos h]; exact ha h
  · rw [if_neg h, if_neg h]; exact hb h

theorem foldlM_eq_some {α β : Type} (f : β → α → β) (g : β → α → Option β) (inv : β → Prop)
    (l : List α) (h : ∀ b a, a ∈ l → inv b → g b a = some (f b a) ∧ inv (f b a))
    (b : β) (hb : inv b) : l.foldlM g b = some (l.foldl f b) := by
  induction l generalizing b with
  | nil => rfl
  | cons a as ih =>
    obtain ⟨h1, h2⟩ := h b a (List.mem_cons_self a as) hb
    rw [List.foldlM_cons, h1]
    exact ih (fun b1 a1 ha1 hb1 => h b1 a1 (List.mem_cons_of_mem a ha1) hb1) (f b a) h2

theorem op_alu_checked_eq (x y n : Nat) (e : emulator) (hx : x < 16) (hy : y < 16) :
    op_alu_checked x y n e = some (op_alu x y n e) := by
  unfold op_alu_checked op_alu
  simp only
  repeat' first
    | intro _
    | apply ite_some
  all_goals first
    | rfl
    | (simp [reg_eq, set_reg_eq, hx, hy]; done)
    | (simp [reg_eq, set_reg_eq, hx, hy]; split <;> simp [*, reg_eq, set_reg_eq, hx, hy]; done)

theorem op_key_checked_eq (x kk : Nat) (e : emulator) (hx : x < 16) :
    op_key_checked x kk e = some (op_key x kk e) := by
  unfold op_key_checked op_key
  repeat' first
    | intro _
    | apply ite_some
  all_goals first
    | rfl
    | (simp [reg_eq, hx]; done)
    | (simp [reg_eq, hx]; split <;> simp [*, reg_eq, hx]; done)

theorem op_sys_checked_eq (kk : Nat) (e : emulator) (h : e._sp ≤ 11) :
    op_sys_checked kk e = some (op_sys kk e) := by
  unfold op_sys_checked op_sys
  repeat' first
    | intro _
    | apply ite_some
  all_goals first
    | rfl
    | skip
  simp only
  rw [read_eq STACK_SIZE _ _ (by simp only [STACK_SIZE]; omega)]
  rfl

theorem op_call_checked_eq (nnn : Nat) (e : emulator) :
    op_call_checked nnn e = some (op_call nnn e) := by
  unfold op_call_checked op_call
  apply ite_some
  · intro _; rfl
  · intro h
    rw [write_eq STACK_SIZE _ _ _ (by omega)]
    rfl

theorem reg_dump_checked_eq (e : emulator) (x : Nat) (hx : x < 16) (h : e._i + x < 4096) :
    reg_dump_checked e (List.range (x + 1)) = some (reg_dump e (List.range (x + 1))) := by
  unfold reg_dump_checked reg_dump
  refine foldlM_eq_some _ _ (fun b => b._i = e._i) _ (fun b a ha hb => ?_) e rfl
  rw [List.mem_range] at ha
  rw [reg_eq b a (by omega)]
  simp only [Option.bind_eq_bind, Option.some_bind]
  rw [set_mem_eq b _ _ (by omega)]
  exact ⟨rfl, hb⟩

theorem reg_load_checked_eq (e : emulator) (x : Nat) (hx : x < 16) (h : e._i + x < 4096) :
    reg_load_checked e (List.range (x + 1)) = some (reg_load e (List.range (x + 1))) := by
  unfold reg_load_checked reg_load
  refine foldlM_eq_some _ _ (fun b => b._i = e._i) _ (fun b a ha hb => ?_) e rfl
  rw [List.mem_range] at ha
  rw [mem_eq b _ (by omega)]
  simp only [Option.bind_eq_bind, Option.some_bind]
  rw [set_reg_eq b _ _ (by omega)]
  exact ⟨rfl, hb⟩

theorem op_misc_checked_eq (x kk : Nat) (e : emulator) (hx : x < 16) :
    op_misc_checked x kk e = some (op_misc x kk e) := by
  unfold op_misc_checked op_misc
  repeat' first
    | intro _
    | apply ite_some
  all_goals first
    | rfl
    | (simp [reg_eq, set_reg_eq, hx]; done)
    | (split <;> simp [reg_eq, set_reg_eq, hx]; done)
    | (simp [reg_eq, hx]; split <;> simp [*, reg_eq, hx]; done)
    | skip
  · rename_i hI
    simp only [MEMORY_SIZE] at hI
    rw [reg_eq e x hx]
    simp only [Option.bind_eq_bind, Option.some_bind]
    rw [set_mem_eq e _ _ (by omega)]
    simp only [Option.some_bind]
    rw [reg_eq _ x hx]
    simp only [Option.some_bind]
    rw [set_mem_eq _ _ _ (by show e._i + _ < 4096; omega)]
    simp only [Option.some_bind]
    rw [reg_eq _ x hx]
    simp only [Option.some_bind]
    rw [set_mem_eq _ _ _ (by show e._i + _ < 4096; omega)]
    rfl
  · rename_i hI
    simp only [MEMORY_SIZE] at hI
    rw [reg_dump_checked_eq e x hx (by omega)]
    rfl
  · rename_i hI
    simp only [MEMORY_SIZE] at hI
    rw [reg_load_checked_eq e x hx (by omega)]
    rfl

theorem draw_pixel_checked_eq (sprite x0 y col : Nat) (e : emulator) :
    draw_pixel_checked sprite x0 y col e = some (draw_pixel sprite x0 y col e) := by
  unfold draw_pixel_checked draw_pixel
  apply ite_some
  · intro _; rfl
  · intro _
    have hb : u8 (y * (EMULATOR_WIDTH / 8) + (x0 + col) % EMULATOR_WIDTH / 8) < SCREEN_SIZE :=
      Nat.mod_lt _ (by decide)
    simp only
    rw [read_eq SCREEN_SIZE _ _ hb]
    simp only [Option.bind_eq_bind, Option.some_bind]
    split
    · rw [set_reg_eq e 0xF 1 (by decide)]
      simp only [Option.some_bind]
      rw [read_eq SCREEN_SIZE _ _ hb]
      simp only [Option.some_bind]
      rw [write_eq SCREEN_SIZE _ _ _ hb]
      rfl
    · simp only [Option.pure_def, Option.some_bind]
      rw [read_eq SCREEN_SIZE _ _ hb]
      simp only [Option.some_bind]
      rw [write_eq SCREEN_SIZE _ _ _ hb]
      rfl

theorem draw_cols_checked_eq (sprite x0 y : Nat) (e : emulator) :
    draw_cols_checked sprite x0 y e = some (draw_cols sprite x0 y e) := by
  unfold draw_cols_checked draw_cols
  exact foldlM_eq_some _ _ (fun _ => True) _
    (fun b a _ _ => ⟨draw_pixel_checked_eq sprite x0 y a b, trivial⟩) e trivial

theorem draw_row_checked_eq (x0 y0 : Nat) (e : emulator) (row : Nat) (h : e._i + row < 4096) :
    draw_row_checked x0 y0 e row = some (draw_row x0 y0 e row) := by
  unfold draw_row_checked draw_row
  rw [mem_eq e _ h]
  simp only [Option.bind_eq_bind, Option.some_bind]
  exact draw_cols_checked_eq _ _ _ e

theorem draw_rows_checked_eq (x0 y0 : Nat) (rows : List Nat) (e : emulator) :
    draw_rows_checked x0 y0 rows e = some (draw_rows x0 y0 rows e) := by
  induction rows generalizing e with
  | nil => rfl
  | cons r rs ih =>
    unfold draw_rows_checked draw_rows
    split
    · rfl
    · rename_i h
      simp only [MEMORY_SIZE] at h
      rw [draw_row_checked_eq x0 y0 e r (by omega)]
      simp only [Option.bind_eq_bind, Option.some_bind]
      exact ih _

theorem op_draw_checked_eq (x y n : Nat) (e : emulator) (hx : x < 16) (hy : y < 16) :
    op_draw_checked x y n e = some (op_draw x y n e) := by
  unfold op_draw_checked op_draw
  rw [reg_eq e x hx, reg_eq e y hy, set_reg_eq e 0xF 0 (by decide)]
  simp only [Option.bind_eq_bind, Option.some_bind]
  rw [draw_rows_checked_eq]
  simp only [Option.some_bind]
  split <;> rfl

theorem dispatch_checked_eq (rv sel x y n kk nnn : Nat) (e : emulator) (hx : x < 16)
    (hy : y < 16) (hsp : e._sp ≤ 11) :
    dispatch_checked rv sel x y n kk nnn e = some (dispatch rv sel x y n kk nnn e) := by
  unfold dispatch_checked dispatch
  repeat' first
    | intro _
    | exact op_sys_checked_eq kk e hsp
    | exact op_call_checked_eq nnn e
    | exact op_alu_checked_eq x y n e hx hy
    | exact op_draw_checked_eq x y n e hx hy
    | exact op_key_checked_eq x kk e hx
    | exact op_misc_checked_eq x kk e hx
    | apply ite_some
  all_goals first
    | rfl
    | (simp [reg_eq, set_reg_eq, hx, hy]; done)

theorem fetch_checked_eq (e : emulator) (h : e._pc ≤ 4094) :
    fetch_checked e = some (fetch e) := by
  unfold fetch_checked fetch
  rw [mem_eq e _ (by omega), mem_eq e _ (by omega)]
  rfl

theorem execute_checked_eq (rv opcode : Nat) (e : emulator) (hsp : e._sp ≤ 11) :
    execute_checked rv opcode e = some (execute rv opcode e) := by
  have hx : (opcode >>> 8) &&& 0x000F < 16 := by
    rw [and_000F]; exact Nat.mod_lt _ (by decide)
  have hy : (opcode >>> 4) &&& 0x000F < 16 := by
    rw [and_000F]; exact Nat.mod_lt _ (by decide)
  have hn : opcode &&& 0x000F < 16 := by
    rw [and_000F]; exact Nat.mod_lt _ (by decide)
  have hnnn : opcode &&& 0x0FFF ≤ 0xFFF := by
    rw [and_0FFF]; exact Nat.le_of_lt_succ (Nat.mod_lt _ (by decide))
  unfold execute_checked execute assert
  simp only
  rw [if_pos hx, if_pos hy, if_pos hn, if_pos hnnn]
  exact dispatch_checked_eq rv _ _ _ _ _ _ e hx hy hsp

/-- C26. Every array access is in bounds: for every state with `_sp <= 11` (any
`_pc`, `_i`, registers, memory and keys) and every instruction word, the embedding
of `emulator_cycle` in which each access to `_memory` (4096 bytes), `screen` (256
bytes), `_stack` (12 words) and `_v` (16 registers) is checked, together with the
assertions `_sp < STACK_SIZE`, `x < 16`, `y < 16`, `n < 16` and `nnn <= 0xFFF`,
never takes the out-of-range branch: it yields the result of `emulator_cycle`. -/
theorem accesses_in_bounds (rv : Nat) (s : emulator) (hsp : s._sp ≤ 11) :
    emulator_cycle_checked rv s = some (emulator_cycle rv s) := by
  unfold emulator_cycle_checked emulator_cycle assert
  rw [if_pos (show s._sp < STACK_SIZE by simp only [STACK_SIZE]; omega)]
  simp only [Option.bind_eq_bind, Option.some_bind]
  apply ite_some
  · intro _; rfl
  · intro h
    simp only [MEMORY_SIZE] at h
    rw [fetch_checked_eq s (by omega)]
    simp only [Option.some_bind]
    exact execute_checked_eq rv _ s hsp

theorem accesses_in_bounds_witness :
    emulator_cycle_checked 0 draw_state = some (emulator_cycle 0 draw_state) :=
  accesses_in_bounds 0 draw_state (by decide)

theorem checked_embedding_rejects :
    emulator_cycle_checked 0 { test_state with _sp := 12 } = none ∧
    read MEMORY_SIZE test_state._memory 4096 = none ∧
    write STACK_SIZE test_state._stack 12 0 = none := by
  refine ⟨rfl, rfl, rfl⟩

end C8
